import Mathlib

/-!
# The in-memory cache of an elliptics storage node (`cache/cache.cpp`)

A shallow embedding of `ioremap::cache::cache_t`, `cache_manager` and the
dispatcher `dnet_cmd_cache_io`, followed by theorems about them.

Conventions of the embedding.

* `size_t` and `uint64_t` values are natural numbers; every addition,
  subtraction and multiplication the source performs on them is taken modulo
  `2^64` (`add64`, `sub64`, `mul64`).
* A function returns `none` exactly where the source has undefined behaviour:
  a `memcpy` or pointer read outside a buffer, erasing from an intrusive set a
  node that is not linked in it, inserting a node that is already linked, and
  destroying a node whose hook is still linked.  `some` carries the value the
  source returns together with the new state.
* Calls made to the backend (`local_session::read`, `local_session::write`,
  `dnet_remove_local`) are returned as a list, in the order in which they are
  issued.  What the backend answers is an argument of the operation
  (`disk_reply` for a read, `local_err` for a remove), so that every theorem
  holds for every backend.  The error of `local_session::write` is only logged
  by the source and is therefore not an argument.
* A function that an exception can leave returns an `Except`: `Except.ok` is
  the value returned, `Except.error` what the function has done when the
  exception leaves it.  The exception modelled is the one thrown by the vector
  of a payload when `cache_t::write` makes it grow (`std::length_error`,
  `std::bad_alloc`): the length asked for is chosen by the request.  Whether
  the vector can grow is an answer of the environment, the argument `grow_ok`.
  The allocation of a node, and of the buffer that receives data which the
  backend has already placed in memory, is assumed to succeed.
* The four intrusive containers share one heap node.  `m_lru` is the list of
  nodes in recency order (front first); outside of `write` a node is in `m_set`
  exactly when it is in `m_lru`, so `m_set.find` is a search of that list.  The
  membership of a node in `m_lifeset` and in `m_syncset` is the state of its
  hook, `life_linked` and `sync_linked`.
-/

/-- One more than the largest value of `size_t` and of `uint64_t`. -/
def U64 : Nat := 18446744073709551616

/-- Addition of two `size_t` values. -/
def add64 (a b : Nat) : Nat := (a + b) % U64

/-- Subtraction of two `size_t` values. -/
def sub64 (a b : Nat) : Nat := (a + (U64 - b % U64)) % U64

/-- Multiplication of two `size_t` values. -/
def mul64 (a b : Nat) : Nat := (a * b) % U64

/-- The errno values returned by the cache (Linux numbering). -/
def ENOENT : Int := 2

/-- The errno value `EINVAL`. -/
def EINVAL : Int := 22

/-- The errno value `EBADFD`. -/
def EBADFD : Int := 77

/-- The errno value `ENOTSUP`. -/
def ENOTSUP : Int := 95

/-- One `char` of a payload or of an identifier. -/
abbrev Byte := Fin 256

/-- The identifier `unsigned char id[DNET_ID_SIZE]`. -/
abbrev raw_id := List Byte

deriving instance DecidableEq for Except

/-- The type `struct dnet_time`. -/
structure dnet_time where
  tsec : Nat
  tnsec : Nat
deriving DecidableEq, Repr

/-- The value written by `dnet_empty_time`. -/
def dnet_empty_time : dnet_time := ⟨0, 0⟩

/-- Modelled from the spec: the bits of `io->flags` that the cache tests.  The
masks `DNET_IO_FLAGS_*` are declared in `elliptics/packet.h`, which is not part
of the sources; each test `io->flags & DNET_IO_FLAGS_X` is a field here. -/
structure io_flags where
  cache : Bool
  cache_only : Bool
  cache_remove_from_disk : Bool
  append : Bool
  compare_and_swap : Bool
deriving DecidableEq, Repr

/-- The fields of `struct dnet_io_attr` that the cache reads or writes. -/
structure dnet_io_attr where
  parent : raw_id
  id : raw_id
  start : Nat
  timestamp : dnet_time
  user_flags : Nat
  flags : io_flags
  offset : Nat
  size : Nat
deriving DecidableEq, Repr

/-- A call issued to the backend. -/
inductive backend_call where
  | read (id : raw_id)
  | write (id : raw_id) (data : List Byte)
  | remove (id : raw_id)
deriving DecidableEq, Repr

/-- What `local_session::read` hands back: the error stored in `*err`, the
data pointer, `user_flags` and `timestamp`. -/
structure disk_reply where
  err : Int
  data : List Byte
  user_flags : Nat
  timestamp : dnet_time
deriving DecidableEq, Repr

/-- The class `data_t`.  `addr` is the address of the heap node, which the
comparators `lifetime_less` and `synctime_less` use to break ties;
`life_linked` and `sync_linked` are the states of the hooks of `m_lifeset` and
`m_syncset`; `m_data` is the vector held by the shared `raw_data_t`. -/
structure data_t where
  addr : Nat
  m_lifetime : Nat
  m_synctime : Nat
  m_timestamp : dnet_time
  m_user_flags : Nat
  m_remove_from_disk : Bool
  m_id : raw_id
  m_data : List Byte
  life_linked : Bool
  sync_linked : Bool
deriving DecidableEq, Repr

/-- The method `data_t::size`. -/
def data_t.size (e : data_t) : Nat := e.m_data.length

/-- The constructor `data_t(id, lifetime, data, size, remove_from_disk)` at
time `now`, for a node allocated at `addr`. -/
def data_t.create (addr now : Nat) (id : raw_id) (lifetime : Nat) (data : List Byte)
    (remove_from_disk : Bool) : data_t :=
  { addr := addr
    m_lifetime := if lifetime ≠ 0 then add64 lifetime now else 0
    m_synctime := 0
    m_timestamp := dnet_empty_time
    m_user_flags := 0
    m_remove_from_disk := remove_from_disk
    m_id := id
    m_data := data
    life_linked := false
    sync_linked := false }

/-- The class `cache_t` (one shard): the byte counter, the capacity and the
nodes in recency order. -/
structure cache_t where
  m_cache_size : Nat
  m_max_cache_size : Nat
  m_lru : List data_t
deriving DecidableEq, Repr

/-- The lookup `m_set.find(id)`. -/
def cache_t.find (c : cache_t) (id : raw_id) : Option data_t :=
  c.m_lru.find? (fun e => decide (e.m_id = id))

/-- The method `cache_t::sync_element`, on the node itself: the payload is
written to the backend, the node leaves `m_syncset` and its `synctime` is
cleared. -/
def sync_element (obj : data_t) : Option (data_t × List backend_call) :=
  if obj.sync_linked then
    some ({ obj with sync_linked := false, m_synctime := 0 },
          [backend_call.write obj.m_id obj.m_data])
  else none

/-- The method `cache_t::erase_element`. -/
def cache_t.erase_element (c : cache_t) (obj : data_t) : Option (cache_t × List backend_call) :=
  if obj.m_lifetime ≠ 0 ∧ obj.life_linked = false then none
  else if obj.m_lifetime = 0 ∧ obj.life_linked = true then none
  else
    match (if obj.m_synctime ≠ 0 then sync_element obj else some (obj, [])) with
    | none => none
    | some (obj1, w) =>
      if obj1.sync_linked = true then none
      else
        some ({ c with m_lru := c.m_lru.erase obj
                       m_cache_size := sub64 c.m_cache_size obj.size }, w)

/-- The loop of `cache_t::resize`, with a bound on the number of iterations. -/
def cache_t.resize_loop (reserve : Nat) : Nat → cache_t → Option (cache_t × List backend_call)
  | 0, c => some (c, [])
  | n + 1, c =>
    match c.m_lru with
    | [] => some (c, [])
    | raw :: _ =>
      match c.erase_element raw with
      | none => none
      | some (c1, w1) =>
        if c1.m_max_cache_size > add64 reserve c1.m_cache_size then some (c1, w1)
        else
          match cache_t.resize_loop reserve n c1 with
          | none => none
          | some (c2, w2) => some (c2, w1 ++ w2)

/-- The method `cache_t::resize`.  Every iteration unlinks the front of
`m_lru`, so the length of the list bounds the number of iterations. -/
def cache_t.resize (c : cache_t) (reserve : Nat) : Option (cache_t × List backend_call) :=
  cache_t.resize_loop reserve c.m_lru.length c

/-- The method `cache_t::create_data`, called for an `id` that `m_set` does not
hold; `addr` is the address returned by `new`. -/
def cache_t.create_data (c : cache_t) (addr now : Nat) (id : raw_id) (data : List Byte)
    (remove_from_disk : Bool) : Option (data_t × cache_t × List backend_call) :=
  match (if add64 c.m_cache_size data.length > c.m_max_cache_size then c.resize data.length
         else some (c, [])) with
  | none => none
  | some (c1, w) =>
    let raw := data_t.create addr now id 0 data remove_from_disk
    some (raw, { c1 with m_cache_size := add64 c1.m_cache_size data.length
                         m_lru := c1.m_lru ++ [raw] }, w)

/-- The method `cache_t::populate_from_disk`; `disk` is the answer of
`sess.read`.  The result is the iterator (`none` for `m_set.end()`), the value
left in `*err`, the state and the backend calls. -/
def cache_t.populate_from_disk (c : cache_t) (addr now : Nat) (id : raw_id)
    (remove_from_disk : Bool) (disk : disk_reply) :
    Option (Option data_t × Int × cache_t × List backend_call) :=
  if disk.err = 0 then
    match c.create_data addr now id disk.data remove_from_disk with
    | none => none
    | some (raw, c1, w) =>
      let it := { raw with m_user_flags := disk.user_flags, m_timestamp := disk.timestamp }
      some (some it, 0, { c1 with m_lru := c1.m_lru.dropLast ++ [it] },
            backend_call.read id :: w)
  else some (none, disk.err, c, [backend_call.read id])

/-- Lines 231-247 of `cache_t::write`, the branch taken when `m_set.find`
misses.  `Sum.inl err` is an early `return err`. -/
def cache_t.write_miss (c : cache_t) (addr now : Nat) (id : raw_id) (io : dnet_io_attr)
    (disk : disk_reply) : Option (Sum Int data_t × cache_t × List backend_call) :=
  if io.flags.cache = false then some (Sum.inl (-ENOTSUP), c, [])
  else
    match (if io.flags.cache_only = false then
             c.populate_from_disk addr now id io.flags.cache_remove_from_disk disk
           else some (none, 0, c, [])) with
    | none => none
    | some (it, err, c1, w1) =>
      if err ≠ 0 ∧ err ≠ -ENOENT then some (Sum.inl err, c1, w1)
      else
        match it with
        | some e => some (Sum.inr e, c1, w1)
        | none =>
          match c1.create_data addr now id [] io.flags.cache_remove_from_disk with
          | none => none
          | some (e, c2, w2) => some (Sum.inr e, c2, w1 ++ w2)

/-- Lines 229-247 of `cache_t::write`: the node to write to, found by
`m_set.find` or created. -/
def cache_t.write_lookup (c : cache_t) (addr now : Nat) (id : raw_id) (io : dnet_io_attr)
    (disk : disk_reply) : Option (Sum Int data_t × cache_t × List backend_call) :=
  match c.find id with
  | some e => some (Sum.inr e, c, [])
  | none => c.write_miss addr now id io disk

/-- Lines 283-288 of `cache_t::write`: `insert` at the end for `APPEND`,
otherwise `resize(new_size)` (zero fill on growth) followed by `memcpy` of
`size` bytes at `offset`. -/
def write_data (raw : List Byte) (append : Bool) (offset size new_size : Nat)
    (data : List Byte) : Option (List Byte) :=
  if append then
    if size ≤ data.length then some (raw ++ data.take size) else none
  else
    let r := (raw ++ List.replicate (new_size - raw.length) (0 : Byte)).take new_size
    if size ≤ data.length ∧ offset + size ≤ new_size then
      some (r.take offset ++ data.take size ++ r.drop (offset + size))
    else none

/-- Lines 290-305 of `cache_t::write`: the dirty mark, the lifetime index, the
timestamp and the user flags of the node. -/
def data_t.touch (it : data_t) (cache_sync_timeout now : Nat) (io : dnet_io_attr) :
    Option data_t :=
  match (if it.m_synctime = 0 ∧ io.flags.cache_only = false then
           (if it.sync_linked = true then none
            else some { it with m_synctime := add64 now cache_sync_timeout, sync_linked := true })
         else some it) with
  | none => none
  | some it1 =>
    match (if it1.m_lifetime ≠ 0 then
             (if it1.life_linked = true then some { it1 with life_linked := false } else none)
           else some it1) with
    | none => none
    | some it2 =>
      match (if io.start ≠ 0 then
               (if it2.life_linked = true then none
                else some { it2 with m_lifetime := add64 io.start now, life_linked := true })
             else some it2) with
      | none => none
      | some it3 =>
        some { it3 with m_timestamp := io.timestamp, m_user_flags := io.user_flags }

/-- The size `new_size` computed at lines 265-271 of `cache_t::write`. -/
def new_size (it : data_t) (io : dnet_io_attr) : Nat :=
  if io.flags.append = true then add64 it.size io.size else add64 io.offset io.size

/-- The vector operation of lines 283-288 of `cache_t::write` makes the vector
longer: `insert` of at least one byte, or `resize` to more than the present
size.  Only then can it throw. -/
def vector_grows (it : data_t) (io : dnet_io_attr) : Bool :=
  if io.flags.append = true then decide (0 < io.size) else decide (it.size < new_size it io)

/-- Lines 273-307 of `cache_t::write`, for the node `it` found or created.
`grow_ok` is `false` when the vector refuses to grow: `insert` or `resize`
(lines 284 and 286) throws.  The exception leaves the function after lines
273-281: the counter already includes `new_size` and the node is back in
`m_lru`, its payload and its other fields are as they were
(`Except.error`). -/
def cache_t.write_entry (c : cache_t) (cache_sync_timeout now : Nat) (it : data_t)
    (io : dnet_io_attr) (data : List Byte) (grow_ok : Bool) :
    Option (Except (cache_t × List backend_call) (cache_t × List backend_call)) :=
  match (if add64 (sub64 c.m_cache_size it.size) (new_size it io) > c.m_max_cache_size then
           ({ c with m_cache_size := sub64 c.m_cache_size it.size
                     m_lru := c.m_lru.erase it }).resize (mul64 (new_size it io) 2)
         else some ({ c with m_cache_size := sub64 c.m_cache_size it.size
                             m_lru := c.m_lru.erase it }, [])) with
  | none => none
  | some (c3, w) =>
    if grow_ok = false ∧ vector_grows it io = true then
      some (Except.error ({ c3 with m_cache_size := add64 c3.m_cache_size (new_size it io)
                                    m_lru := c3.m_lru ++ [it] }, w))
    else
      match write_data it.m_data io.flags.append io.offset io.size (new_size it io) data with
      | none => none
      | some payload =>
        match data_t.touch { it with m_data := payload } cache_sync_timeout now io with
        | none => none
        | some it1 =>
          some (Except.ok ({ c3 with m_cache_size := add64 c3.m_cache_size (new_size it io)
                                     m_lru := c3.m_lru ++ [it1] }, w))

/-- The method `cache_t::write` at time `now`.  `digest` is
`dnet_transform_node`, `cache_sync_timeout` is `m_node->cache_sync_timeout`,
`addr` the address a new node would get, `disk` the answer the backend would
give to a read of `id` and `grow_ok` the answer of the vector when it has to
grow.  `Except.ok` carries the value returned, `Except.error` the shard and
the backend calls when the exception of the vector leaves the method. -/
def cache_t.write (c : cache_t) (cache_sync_timeout now addr : Nat)
    (digest : List Byte → raw_id) (id : raw_id) (io : dnet_io_attr) (data : List Byte)
    (disk : disk_reply) (grow_ok : Bool) :
    Option (Except (cache_t × List backend_call) (Int × cache_t × List backend_call)) :=
  match c.write_lookup addr now id io disk with
  | none => none
  | some (Sum.inl err, c1, w1) => some (Except.ok (err, c1, w1))
  | some (Sum.inr it, c1, w1) =>
    if io.flags.compare_and_swap = true ∧ it.size ≠ 0 ∧ digest it.m_data ≠ io.parent then
      some (Except.ok (-EBADFD, c1, w1))
    else
      match c1.write_entry cache_sync_timeout now it io data grow_ok with
      | none => none
      | some (Except.error (c2, w2)) => some (Except.error (c2, w1 ++ w2))
      | some (Except.ok (c2, w2)) => some (Except.ok (0, c2, w1 ++ w2))

/-- The method `cache_t::read`.  The result is the snapshot (`none` for the
empty `shared_ptr`), the updated `io`, the state and the backend calls. -/
def cache_t.read (c : cache_t) (addr now : Nat) (id : raw_id) (io : dnet_io_attr)
    (disk : disk_reply) :
    Option (Option (List Byte) × dnet_io_attr × cache_t × List backend_call) :=
  match (match c.find id with
         | some e => some (some e, c, [])
         | none =>
           if io.flags.cache = true ∧ io.flags.cache_only = false then
             match c.populate_from_disk addr now id false disk with
             | none => none
             | some (it, _, c1, w) => some (it, c1, w)
           else some (none, c, [])) with
  | none => none
  | some (none, c1, w) => some (none, io, c1, w)
  | some (some it, c1, w) =>
    some (some it.m_data,
          { io with timestamp := it.m_timestamp, user_flags := it.m_user_flags },
          { c1 with m_lru := c1.m_lru.erase it ++ [it] }, w)

/-- An update of a node through a reference to it: the first occurrence of
`old` in the list becomes `new`, the position is kept. -/
def set_node : List data_t → data_t → data_t → List data_t
  | [], _, _ => []
  | e :: l, old, new => if e = old then new :: l else e :: set_node l old new

/-- The method `cache_t::remove`; `local_err` is what `dnet_remove_local`
answers when it is called. -/
def cache_t.remove (c : cache_t) (id : raw_id) (io : dnet_io_attr) (local_err : Int) :
    Option (Int × cache_t × List backend_call) :=
  match (match c.find id with
         | some it =>
           match (if it.m_synctime ≠ 0 ∧ io.flags.cache_only = false then
                    (if it.sync_linked = true then
                       some { it with sync_linked := false, m_synctime := 0 }
                     else none)
                  else some it) with
           | none => none
           | some it1 =>
             match ({ c with m_lru := set_node c.m_lru it it1 }).erase_element it1 with
             | none => none
             | some (c1, w) =>
               some (it.m_remove_from_disk || !io.flags.cache_only, (0 : Int), c1, w)
         | none => some (false, -ENOENT, c, [])) with
  | none => none
  | some (remove_from_disk, err, c1, w) =>
    if remove_from_disk = true then
      some (if local_err ≠ -ENOENT then local_err else err, c1, w ++ [backend_call.remove id])
    else some (err, c1, w)

/-- The comparator `lifetime_less`. -/
def lifetime_less (x y : data_t) : Bool :=
  decide (x.m_lifetime < y.m_lifetime ∨ (x.m_lifetime = y.m_lifetime ∧ x.addr < y.addr))

/-- The comparator `synctime_less`. -/
def synctime_less (x y : data_t) : Bool :=
  decide (x.m_synctime < y.m_synctime ∨ (x.m_synctime = y.m_synctime ∧ x.addr < y.addr))

/-- The element `begin()` of an intrusive set ordered by `less`, among the
nodes whose hook for that set is linked; `none` when the set is empty. -/
def set_begin (less : data_t → data_t → Bool) (linked : data_t → Bool) :
    List data_t → Option data_t
  | [] => none
  | e :: l =>
    match set_begin less linked l with
    | none => if linked e = true then some e else none
    | some b => if linked e = true then (if less b e = true then some b else some e) else some b

/-- The first inner loop of `cache_t::life_check` (lines 472-494), with
`m_need_exit` unset.  `clock k` is the value of the `k`-th call of
`::time(NULL)` in the loop; `remove` is the deque of identifiers to delete from
the backend. -/
def cache_t.life_loop :
    Nat → (Nat → Nat) → cache_t → List raw_id →
      Option (cache_t × List raw_id × List backend_call)
  | 0, _, c, remove => some (c, remove, [])
  | n + 1, clock, c, remove =>
    match set_begin lifetime_less (fun e => e.life_linked) c.m_lru with
    | none => some (c, remove, [])
    | some it =>
      if it.m_lifetime > clock 0 then some (c, remove, [])
      else
        match c.erase_element it with
        | none => none
        | some (c1, w1) =>
          match cache_t.life_loop n (fun k => clock (k + 1)) c1
                  (if it.m_remove_from_disk = true then remove ++ [it.m_id] else remove) with
          | none => none
          | some (c2, remove2, w2) => some (c2, remove2, w1 ++ w2)

/-- The second inner loop of `cache_t::life_check` (lines 496-510), with
`m_need_exit` unset; `clock k` is the value of the `k`-th call of
`::time(NULL)` in the loop. -/
def cache_t.sync_loop : Nat → (Nat → Nat) → cache_t → Option (cache_t × List backend_call)
  | 0, _, c => some (c, [])
  | n + 1, clock, c =>
    match set_begin synctime_less (fun e => e.sync_linked) c.m_lru with
    | none => some (c, [])
    | some it =>
      if it.m_synctime > clock 0 then some (c, [])
      else
        match sync_element it with
        | none => none
        | some (it1, w1) =>
          match cache_t.sync_loop n (fun k => clock (k + 1))
                  { c with m_lru := set_node c.m_lru it it1 } with
          | none => none
          | some (c2, w2) => some (c2, w1 ++ w2)

/-- One iteration of the outer loop of `cache_t::life_check`: the lifetime
pass, the sync pass, then `dnet_remove_local` for every collected identifier.
`life_clock` and `sync_clock` are the clock readings of the two inner loops.
Each inner iteration unlinks one node from its set, so the number of nodes
bounds the number of iterations. -/
def cache_t.life_check (c : cache_t) (life_clock sync_clock : Nat → Nat) :
    Option (cache_t × List backend_call) :=
  match cache_t.life_loop c.m_lru.length life_clock c [] with
  | none => none
  | some (c1, remove, w1) =>
    match cache_t.sync_loop c1.m_lru.length sync_clock c1 with
    | none => none
    | some (c2, w2) => some (c2, w1 ++ w2 ++ remove.map backend_call.remove)

/-- The destructor `cache_t::~cache_t` once the worker thread is joined. -/
def cache_t.destroy (c : cache_t) : Option (cache_t × List backend_call) :=
  ({ c with m_max_cache_size := 0 }).resize 0

/-- The state of a shard built by the constructor `cache_t(n, max_size)`. -/
def cache_t.init (max_size : Nat) : cache_t :=
  { m_cache_size := 0, m_max_cache_size := max_size, m_lru := [] }

/-- The class `cache_manager`: the vector of shards. -/
structure cache_manager where
  m_caches : List cache_t
deriving DecidableEq, Repr

/-- The read `*(int *)id` on a little-endian host. -/
def read_int (id : raw_id) : Option Int :=
  match id with
  | b0 :: b1 :: b2 :: b3 :: _ =>
    let w : Nat := b0.val + 256 * b1.val + 65536 * b2.val + 16777216 * b3.val
    some (if w < 2147483648 then (w : Int) else (w : Int) - 4294967296)
  | _ => none

/-- The method `cache_manager::idx`: `i` is converted to `size_t` for the
remainder, the remainder is converted back to `int`. -/
def cache_manager.idx (m : cache_manager) (id : raw_id) : Option Int :=
  match read_int id with
  | none => none
  | some i =>
    if m.m_caches.length = 0 then none
    else
      let r : Nat := (i % (U64 : Int)).toNat % m.m_caches.length
      let t : Nat := r % 4294967296
      some (if t < 2147483648 then (t : Int) else (t : Int) - 4294967296)

/-- The element access `m_caches[idx(id)]`: the position in the vector and the
shard stored there. -/
def cache_manager.shard (m : cache_manager) (id : raw_id) : Option (Nat × cache_t) :=
  match m.idx id with
  | none => none
  | some i =>
    let k : Nat := (i % (U64 : Int)).toNat
    match m.m_caches[k]? with
    | none => none
    | some c => some (k, c)

/-- The method `cache_manager::write`. -/
def cache_manager.write (m : cache_manager) (cache_sync_timeout now addr : Nat)
    (digest : List Byte → raw_id) (id : raw_id) (io : dnet_io_attr) (data : List Byte)
    (disk : disk_reply) (grow_ok : Bool) :
    Option (Except (cache_manager × List backend_call)
      (Int × cache_manager × List backend_call)) :=
  match m.shard id with
  | none => none
  | some (k, c) =>
    match c.write cache_sync_timeout now addr digest id io data disk grow_ok with
    | none => none
    | some (Except.error (c1, w)) => some (Except.error ({ m_caches := m.m_caches.set k c1 }, w))
    | some (Except.ok (err, c1, w)) =>
      some (Except.ok (err, { m_caches := m.m_caches.set k c1 }, w))

/-- The method `cache_manager::read`. -/
def cache_manager.read (m : cache_manager) (addr now : Nat) (id : raw_id) (io : dnet_io_attr)
    (disk : disk_reply) :
    Option (Option (List Byte) × dnet_io_attr × cache_manager × List backend_call) :=
  match m.shard id with
  | none => none
  | some (k, c) =>
    match c.read addr now id io disk with
    | none => none
    | some (d, io1, c1, w) => some (d, io1, { m_caches := m.m_caches.set k c1 }, w)

/-- The method `cache_manager::remove`. -/
def cache_manager.remove (m : cache_manager) (id : raw_id) (io : dnet_io_attr)
    (local_err : Int) : Option (Int × cache_manager × List backend_call) :=
  match m.shard id with
  | none => none
  | some (k, c) =>
    match c.remove id io local_err with
    | none => none
    | some (err, c1, w) => some (err, { m_caches := m.m_caches.set k c1 }, w)

/-- The command codes that `dnet_cmd_cache_io` switches on; `DNET_CMD_OTHER`
stands for every other code. -/
inductive dnet_command where
  | DNET_CMD_WRITE
  | DNET_CMD_READ
  | DNET_CMD_DEL
  | DNET_CMD_OTHER
deriving DecidableEq, Repr

/-- The fields of `struct dnet_cmd` that the dispatcher uses; `need_ack` is the
bit `DNET_FLAGS_NEED_ACK` of `cmd->flags`. -/
structure dnet_cmd where
  id : raw_id
  cmd : dnet_command
  need_ack : Bool
deriving DecidableEq, Repr

/-- Modelled from the spec: what the reply sink receives.  `read_data` is a
call of `dnet_send_read_data` with the `io->size` bytes that start at the
pointer passed to it, `file_info` a call of `dnet_send_file_info_without_fd`
with its size argument.  Both functions are declared outside the sources. -/
inductive reply where
  | read_data (data : List Byte) (offset : Nat)
  | file_info (size : Nat)
deriving DecidableEq, Repr

/-- What a call of `dnet_cmd_cache_io` leaves behind: the value returned, the
manager, `*cmd`, `*io`, the backend calls and the replies sent. -/
structure cache_io_result where
  err : Int
  cache : Option cache_manager
  cmd : dnet_cmd
  io : dnet_io_attr
  calls : List backend_call
  replies : List reply
deriving DecidableEq, Repr

/-- The function `dnet_cmd_cache_io`.  `cache` is `n->cache` (`none` for a null
pointer); `send_err` is the value returned by the reply sink when it is
called.  An exception that leaves `cache->write` is caught by the `catch`
clause, which sets `err = -ENOENT` and undoes nothing. -/
def dnet_cmd_cache_io (cache : Option cache_manager) (cache_sync_timeout now addr : Nat)
    (digest : List Byte → raw_id) (cmd : dnet_cmd) (io : dnet_io_attr) (data : List Byte)
    (disk : disk_reply) (grow_ok : Bool) (local_err send_err : Int) : Option cache_io_result :=
  match cache with
  | none => some ⟨-ENOTSUP, none, cmd, io, [], []⟩
  | some m =>
    match cmd.cmd with
    | dnet_command.DNET_CMD_WRITE =>
      match m.write cache_sync_timeout now addr digest io.id io data disk grow_ok with
      | none => none
      | some (Except.error (m1, w)) => some ⟨-ENOENT, some m1, cmd, io, w, []⟩
      | some (Except.ok (err, m1, w)) =>
        if err = 0 then
          some ⟨send_err, some m1, { cmd with need_ack := false }, io, w,
                [reply.file_info io.size]⟩
        else some ⟨err, some m1, cmd, io, w, []⟩
    | dnet_command.DNET_CMD_READ =>
      match m.read addr now io.id io disk with
      | none => none
      | some (none, io1, m1, w) =>
        if io1.flags.cache = false then some ⟨-ENOTSUP, some m1, cmd, io1, w, []⟩
        else some ⟨-ENOENT, some m1, cmd, io1, w, []⟩
      | some (some d, io1, m1, w) =>
        if add64 io1.offset io1.size > d.length then
          some ⟨-EINVAL, some m1, cmd, io1, w, []⟩
        else
          let io2 := if io1.size = 0 then { io1 with size := sub64 d.length io1.offset } else io1
          if io2.offset + io2.size ≤ d.length then
            some ⟨send_err, some m1, { cmd with need_ack := false }, io2, w,
                  [reply.read_data ((d.drop io2.offset).take io2.size) io2.offset]⟩
          else none
    | dnet_command.DNET_CMD_DEL =>
      match m.remove cmd.id io local_err with
      | none => none
      | some (err, m1, w) => some ⟨err, some m1, cmd, io, w, []⟩
    | dnet_command.DNET_CMD_OTHER => some ⟨-ENOTSUP, some m, cmd, io, [], []⟩

/-- An operation on one shard together with the answers of its environment. -/
inductive shard_op where
  | write (cache_sync_timeout now addr : Nat) (digest : List Byte → raw_id) (id : raw_id)
      (io : dnet_io_attr) (data : List Byte) (disk : disk_reply)
  | read (addr now : Nat) (id : raw_id) (io : dnet_io_attr) (disk : disk_reply)
  | remove (id : raw_id) (io : dnet_io_attr) (local_err : Int)
  | life_check (life_clock sync_clock : Nat → Nat)

/-- The state of the shard after one operation that returns; the vector of a
write grows when it is asked to. -/
def cache_t.step (c : cache_t) : shard_op → Option cache_t
  | shard_op.write t now addr digest id io data disk =>
    match c.write t now addr digest id io data disk true with
    | some (Except.ok r) => some r.2.1
    | _ => none
  | shard_op.read addr now id io disk =>
    (c.read addr now id io disk).map (fun r => r.2.2.1)
  | shard_op.remove id io local_err =>
    (c.remove id io local_err).map (fun r => r.2.1)
  | shard_op.life_check life_clock sync_clock =>
    (c.life_check life_clock sync_clock).map (fun r => r.1)

/-- The state of the shard after a sequence of operations that return. -/
def cache_t.run (c : cache_t) : List shard_op → Option cache_t
  | [] => some c
  | op :: ops =>
    match c.step op with
    | none => none
    | some c1 => cache_t.run c1 ops

/-- The backend writes issued when the nodes of `l` are erased in order. -/
def flushes (l : List data_t) : List backend_call :=
  (l.filter (fun e => decide (e.m_synctime ≠ 0))).map (fun e => backend_call.write e.m_id e.m_data)

/-- The byte counter after the nodes of `l` are erased in order. -/
def evicted_size (cs : Nat) : List data_t → Nat
  | [] => cs
  | e :: l => evicted_size (sub64 cs e.size) l

/-- A node can be erased without undefined behaviour. -/
def data_t.hooks_ok (e : data_t) : Prop :=
  (e.life_linked = true ↔ e.m_lifetime ≠ 0) ∧ (e.sync_linked = true ↔ e.m_synctime ≠ 0)

instance (e : data_t) : Decidable e.hooks_ok := by unfold data_t.hooks_ok; infer_instance

/-- The node that `write` creates on a miss: payload `d`, user flags `uf` and
timestamp `ts` (those of the backend when it is populated from disk). -/
def fresh_node (addr now : Nat) (id : raw_id) (rfd : Bool) (d : List Byte) (uf : Nat)
    (ts : dnet_time) : data_t :=
  { data_t.create addr now id 0 d rfd with m_user_flags := uf, m_timestamp := ts }

/-- No two nodes of the shard have the same identifier (`m_set` is a set keyed
by the identifier). -/
def cache_t.unique_ids (c : cache_t) : Prop := (c.m_lru.map data_t.m_id).Nodup

instance (c : cache_t) : Decidable c.unique_ids := by unfold cache_t.unique_ids; infer_instance

/-- A sample identifier of `DNET_ID_SIZE = 64` bytes. -/
def id_a : raw_id := List.replicate 64 1

/-- A second sample identifier. -/
def id_b : raw_id := List.replicate 64 2

/-- Sample flags: none set. -/
def no_flags : io_flags := ⟨false, false, false, false, false⟩

/-- Sample io attributes for `id`, with timestamp `(7, 8)` and user flags `9`. -/
def mk_io (id : raw_id) (flags : io_flags) (offset size start : Nat) : dnet_io_attr :=
  { parent := [], id := id, start := start, timestamp := ⟨7, 8⟩, user_flags := 9,
    flags := flags, offset := offset, size := size }

/-- A backend answer: the key is not on disk. -/
def disk_enoent : disk_reply := ⟨-ENOENT, [], 0, dnet_empty_time⟩

/-- A sample digest function (the payload itself). -/
def digest_id : List Byte → raw_id := fun x => x

/-- A sample node. -/
def mk_node (addr : Nat) (id : raw_id) (data : List Byte) (lifetime synctime : Nat)
    (rfd : Bool) : data_t :=
  { addr := addr, m_lifetime := lifetime, m_synctime := synctime, m_timestamp := ⟨7, 8⟩,
    m_user_flags := 9, m_remove_from_disk := rfd, m_id := id, m_data := data,
    life_linked := decide (lifetime ≠ 0), sync_linked := decide (synctime ≠ 0) }

/-- The invariants of the data model: identifiers are pairwise distinct, a node is linked in
`m_lifeset` exactly when its lifetime is non-zero and in `m_syncset` exactly when its
synctime is non-zero, and `m_cache_size` is the sum of the payload sizes (a `size_t`). -/
def cache_t.wf (c : cache_t) : Prop :=
  c.unique_ids ∧ (∀ e ∈ c.m_lru, e.hooks_ok) ∧
  c.m_cache_size = (c.m_lru.map data_t.size).sum ∧ c.m_cache_size < U64

instance (c : cache_t) : Decidable c.wf := by unfold cache_t.wf; infer_instance

/-- The call is a `local_session::write` for `id`. -/
def backend_call.is_write_to (id : raw_id) : backend_call → Bool
  | backend_call.write id2 _ => decide (id2 = id)
  | _ => false

/-- The node once `sync_element` has run on it. -/
def data_t.synced (e : data_t) : data_t := { e with sync_linked := false, m_synctime := 0 }

/-- Sample flags: `CACHE`, `CACHE_ONLY` and `CACHE_REMOVE_FROM_DISK`. -/
def flags_ttl : io_flags := ⟨true, true, true, false, false⟩

/-- The clock reading `now` is positive and the two deadlines computed from it, the sync
deadline `now + timeout` and the expiry time `now + start`, are `size_t` values. -/
def clock_ok (timeout now start : Nat) : Prop :=
  0 < now ∧ now + timeout < U64 ∧ now + start < U64

instance (timeout now start : Nat) : Decidable (clock_ok timeout now start) := by
  unfold clock_ok; infer_instance

/-- The capacity is `M`, the byte counter is the sum of the payload sizes and does not
exceed the capacity. -/
def cache_t.within (c : cache_t) (M : Nat) : Prop :=
  c.m_max_cache_size = M ∧ c.m_cache_size = (c.m_lru.map data_t.size).sum ∧ c.m_cache_size ≤ M

/-- The payload that a write stores fits the capacity `M`: `offset + size <= M`, or for
`APPEND` the size `s` of the payload appended to plus `size`. -/
def write_fits (M : Nat) (io : dnet_io_attr) (s : Nat) : Prop :=
  if io.flags.append = true then s + io.size ≤ M else io.offset + io.size ≤ M

/-- The payloads that an operation stores in the shard `c` fit the capacity `M`: the
payload handed back by the backend, and for a write the payload of the node written to
once the write is done (`new_size`). -/
def op_fits (M : Nat) (c : cache_t) : shard_op → Prop
  | shard_op.write _ now addr _ id io _ disk =>
    disk.data.length ≤ M ∧
    ∀ it c0 w0, c.write_lookup addr now id io disk = some (Sum.inr it, c0, w0) →
      write_fits M io it.size
  | shard_op.read _ _ _ _ disk => disk.data.length ≤ M
  | shard_op.remove _ _ _ => True
  | shard_op.life_check _ _ => True

/-- Every operation of the sequence, run from `c`, stores payloads that fit `M`. -/
def run_fits (M : Nat) : cache_t → List shard_op → Prop
  | _, [] => True
  | c, op :: ops => op_fits M c op ∧ ∀ c1, c.step op = some c1 → run_fits M c1 ops

instance (M : Nat) (io : dnet_io_attr) (s : Nat) : Decidable (write_fits M io s) := by
  unfold write_fits; infer_instance

/-- Sample flags: `CACHE` and `CACHE_ONLY`. -/
def flags_cache_only : io_flags := ⟨true, true, false, false, false⟩

/-- A clock that reads `t` at every call. -/
def clock_at (t : Nat) : Nat → Nat := fun _ => t

/-- A backend answer: the read failed with `-EIO`. -/
def disk_eio : disk_reply := ⟨-5, [], 0, dnet_empty_time⟩

/-- The byte counter `m_cache_size` is the sum of the payload sizes, as a
`size_t`. -/
def cache_t.accounted (c : cache_t) : Prop :=
  c.m_cache_size = (c.m_lru.map data_t.size).sum % U64

instance (c : cache_t) : Decidable c.accounted := by unfold cache_t.accounted; infer_instance

/-- A sample sequence: a write, a write that evicts the first entry, a write
refused by compare-and-swap, a read that populates from the backend, a delete
and a maintenance pass. -/
def accounting_sample_ops : List shard_op :=
  [shard_op.write 1 100 0 digest_id id_a (mk_io id_a flags_cache_only 0 6 0)
     [1, 2, 3, 4, 5, 6] disk_enoent,
   shard_op.write 1 100 1 digest_id id_b (mk_io id_b { no_flags with cache := true } 0 6 0)
     [1, 2, 3, 4, 5, 6] disk_enoent,
   shard_op.write 1 100 2 digest_id id_b
     (mk_io id_b { no_flags with cache := true, compare_and_swap := true } 0 1 0) [9] disk_enoent,
   shard_op.read 3 100 id_a (mk_io id_a { no_flags with cache := true } 0 0 0)
     ⟨0, [7, 7], 0, dnet_empty_time⟩,
   shard_op.remove id_a (mk_io id_a no_flags 0 0 0) 0,
   shard_op.life_check (clock_at 200) (clock_at 200)]

/-! ## Theorems -/

theorem add64_of_lt {a b : Nat} (h : a + b < U64) : add64 a b = a + b := by
  unfold add64; exact Nat.mod_eq_of_lt h

theorem sub64_of_le {a b : Nat} (h : b ≤ a) (ha : a < U64) : sub64 a b = a - b := by
  unfold sub64 U64 at *
  omega

theorem add64_lt (a b : Nat) : add64 a b < U64 := by
  unfold add64 U64; omega

theorem sub64_lt (a b : Nat) : sub64 a b < U64 := by
  unfold sub64 U64; omega

theorem erase_element_eq (c : cache_t) (obj : data_t) :
    c.erase_element obj =
      if obj.hooks_ok then
        some ({ c with m_lru := c.m_lru.erase obj, m_cache_size := sub64 c.m_cache_size obj.size },
              flushes [obj])
      else none := by
  unfold cache_t.erase_element data_t.hooks_ok sync_element flushes
  by_cases hl : obj.life_linked = true <;> by_cases hs : obj.sync_linked = true <;>
    by_cases h1 : obj.m_lifetime = 0 <;> by_cases h2 : obj.m_synctime = 0 <;>
    simp [hl, hs, h1, h2, List.filter]

theorem flushes_cons (e : data_t) (l : List data_t) : flushes (e :: l) = flushes [e] ++ flushes l := by
  unfold flushes
  by_cases h : e.m_synctime = 0 <;> simp [List.filter, h]

theorem flushes_append (l1 l2 : List data_t) : flushes (l1 ++ l2) = flushes l1 ++ flushes l2 := by
  unfold flushes; simp

theorem resize_loop_spec (r : Nat) :
    ∀ (n : Nat) (c c1 : cache_t) (w : List backend_call),
      cache_t.resize_loop r n c = some (c1, w) →
      ∃ k, k ≤ n ∧ c1.m_lru = c.m_lru.drop k ∧ c1.m_max_cache_size = c.m_max_cache_size ∧
        c1.m_cache_size = evicted_size c.m_cache_size (c.m_lru.take k) ∧
        w = flushes (c.m_lru.take k) ∧ (∀ e ∈ c.m_lru.take k, e.hooks_ok) ∧
        (c.m_lru ≠ [] → 0 < n → 0 < k) ∧
        (k < n → k < c.m_lru.length → c1.m_max_cache_size > add64 r c1.m_cache_size) := by
  intro n
  induction n with
  | zero =>
    intro c c1 w h
    simp [cache_t.resize_loop] at h
    obtain ⟨rfl, rfl⟩ := h
    exact ⟨0, by simp [evicted_size, flushes]⟩
  | succ n ih =>
    intro c c1 w h
    rcases c with ⟨cs, mx, l⟩
    cases l with
    | nil =>
      simp [cache_t.resize_loop] at h
      obtain ⟨rfl, rfl⟩ := h
      exact ⟨0, by simp [evicted_size, flushes]⟩
    | cons a l =>
      simp only [cache_t.resize_loop, erase_element_eq] at h
      by_cases ha : a.hooks_ok
      · simp only [ha, if_true, List.erase_cons_head] at h
        split at h
        · rename_i hexit
          simp only [Option.some.injEq, Prod.mk.injEq] at h
          obtain ⟨rfl, rfl⟩ := h
          refine ⟨1, by omega, by simp, rfl, by simp [evicted_size], by simp, by simpa using ha, by simp, ?_⟩
          intro _ _; exact hexit
        · rename_i hexit
          split at h
          · exact absurd h (by simp)
          · rename_i c2 w2 hrec
            simp only [Option.some.injEq, Prod.mk.injEq] at h
            obtain ⟨rfl, rfl⟩ := h
            obtain ⟨k, hk, h1, h2, h3, h4, h5, h6, h7⟩ := ih _ _ _ hrec
            refine ⟨k + 1, by omega, by simpa using h1, by simpa using h2, ?_, ?_, ?_, by simp, ?_⟩
            · simpa [evicted_size] using h3
            · show flushes [a] ++ w2 = flushes (List.take (k + 1) (a :: l))
              rw [List.take_succ_cons, flushes_cons a (List.take k l), h4]
            · intro e he
              rw [List.take_succ_cons, List.mem_cons] at he
              rcases he with rfl | he
              · exact ha
              · exact h5 e he
            · intro hk1 hk2
              apply h7 (by omega)
              simpa using hk2
      · simp [ha] at h

theorem resize_loop_total (r : Nat) :
    ∀ (n : Nat) (c : cache_t), (∀ e ∈ c.m_lru, e.hooks_ok) →
      ∃ c1 w, cache_t.resize_loop r n c = some (c1, w) := by
  intro n
  induction n with
  | zero => intro c _; exact ⟨c, [], rfl⟩
  | succ n ih =>
    intro c hc
    rcases c with ⟨cs, mx, l⟩
    cases l with
    | nil => exact ⟨_, [], rfl⟩
    | cons a l =>
      have ha : a.hooks_ok := hc a (by simp)
      simp only [cache_t.resize_loop, erase_element_eq, ha, if_true, List.erase_cons_head]
      split
      · exact ⟨_, _, rfl⟩
      · obtain ⟨c2, w2, h2⟩ := ih ⟨sub64 cs a.size, mx, l⟩ (fun e he => hc e (by simp [he]))
        rw [h2]
        exact ⟨_, _, rfl⟩

theorem resize_spec (c c1 : cache_t) (r : Nat) (w : List backend_call)
    (h : c.resize r = some (c1, w)) :
    ∃ k, k ≤ c.m_lru.length ∧ c1.m_lru = c.m_lru.drop k ∧
      c1.m_max_cache_size = c.m_max_cache_size ∧
      c1.m_cache_size = evicted_size c.m_cache_size (c.m_lru.take k) ∧
      w = flushes (c.m_lru.take k) ∧ (∀ e ∈ c.m_lru.take k, e.hooks_ok) ∧
      (c.m_lru ≠ [] → 0 < k) ∧
      (k < c.m_lru.length → c1.m_max_cache_size > add64 r c1.m_cache_size) := by
  obtain ⟨k, hk, h1, h2, h3, h4, h5, h6, h7⟩ := resize_loop_spec r _ c c1 w h
  refine ⟨k, hk, h1, h2, h3, h4, h5, ?_, ?_⟩
  · intro hne
    exact h6 hne (List.length_pos.mpr hne)
  · intro hlt
    exact h7 hlt hlt

theorem find_some {c : cache_t} {id : raw_id} {it : data_t} (h : c.find id = some it) :
    it ∈ c.m_lru ∧ it.m_id = id := by
  unfold cache_t.find at h
  exact ⟨List.mem_of_find?_eq_some h, by simpa using List.find?_some h⟩

theorem find_none {c : cache_t} {id : raw_id} :
    c.find id = none ↔ ∀ e ∈ c.m_lru, e.m_id ≠ id := by
  unfold cache_t.find
  simp

theorem create_data_spec (c c1 : cache_t) (addr now : Nat) (id : raw_id) (data : List Byte)
    (rfd : Bool) (raw : data_t) (w : List backend_call)
    (h : c.create_data addr now id data rfd = some (raw, c1, w)) :
    raw = data_t.create addr now id 0 data rfd ∧
    ∃ k, k ≤ c.m_lru.length ∧ c1.m_lru = c.m_lru.drop k ++ [raw] ∧
      c1.m_max_cache_size = c.m_max_cache_size ∧
      c1.m_cache_size = add64 (evicted_size c.m_cache_size (c.m_lru.take k)) data.length ∧
      w = flushes (c.m_lru.take k) ∧ (∀ e ∈ c.m_lru.take k, e.hooks_ok) ∧
      ((k = 0 ∧ add64 c.m_cache_size data.length ≤ c.m_max_cache_size) ∨
       (add64 c.m_cache_size data.length > c.m_max_cache_size ∧
        (k < c.m_lru.length → c.m_max_cache_size >
          add64 data.length (evicted_size c.m_cache_size (c.m_lru.take k))))) := by
  unfold cache_t.create_data at h
  split at h
  · exact absurd h (by simp)
  · rename_i c2 w2 hres
    simp only [Option.some.injEq, Prod.mk.injEq] at h
    obtain ⟨rfl, rfl, rfl⟩ := h
    refine ⟨rfl, ?_⟩
    split at hres
    · rename_i hgt
      obtain ⟨k, hk, h1, h2, h3, h4, h5, _, h7⟩ := resize_spec _ _ _ _ hres
      refine ⟨k, hk, by simp [h1], by simp [h2], by simp [h3], h4, h5, Or.inr ⟨hgt, ?_⟩⟩
      intro hlt
      have := h7 hlt
      rw [h2, h3] at this
      exact this
    · rename_i hle
      simp only [Option.some.injEq, Prod.mk.injEq] at hres
      obtain ⟨rfl, rfl⟩ := hres
      exact ⟨0, by omega, by simp, rfl, by simp [evicted_size], by simp [flushes], by simp,
        Or.inl ⟨rfl, by omega⟩⟩

theorem populate_from_disk_spec (c c1 : cache_t) (addr now : Nat) (id : raw_id) (rfd : Bool)
    (disk : disk_reply) (it : Option data_t) (err : Int) (w : List backend_call)
    (h : c.populate_from_disk addr now id rfd disk = some (it, err, c1, w)) :
    err = disk.err ∧
    ((disk.err ≠ 0 ∧ it = none ∧ c1 = c ∧ w = [backend_call.read id]) ∨
     (disk.err = 0 ∧ ∃ e k, it = some e ∧ k ≤ c.m_lru.length ∧
        e = { data_t.create addr now id 0 disk.data rfd with
                m_user_flags := disk.user_flags, m_timestamp := disk.timestamp } ∧
        c1.m_lru = c.m_lru.drop k ++ [e] ∧
        c1.m_max_cache_size = c.m_max_cache_size ∧
        c1.m_cache_size = add64 (evicted_size c.m_cache_size (c.m_lru.take k)) disk.data.length ∧
        w = backend_call.read id :: flushes (c.m_lru.take k) ∧
        (∀ e ∈ c.m_lru.take k, e.hooks_ok) ∧
        ((k = 0 ∧ add64 c.m_cache_size disk.data.length ≤ c.m_max_cache_size) ∨
         (add64 c.m_cache_size disk.data.length > c.m_max_cache_size ∧
          (k < c.m_lru.length → c.m_max_cache_size >
            add64 disk.data.length (evicted_size c.m_cache_size (c.m_lru.take k))))))) := by
  unfold cache_t.populate_from_disk at h
  split at h
  · rename_i h0
    split at h
    · exact absurd h (by simp)
    · rename_i raw c2 w2 hcd
      simp only [Option.some.injEq, Prod.mk.injEq] at h
      obtain ⟨rfl, rfl, rfl, rfl⟩ := h
      obtain ⟨hraw, k, hk, h1, h2, h3, h4, h5, h6⟩ := create_data_spec _ _ _ _ _ _ _ _ _ hcd
      refine ⟨h0.symm, Or.inr ⟨h0, _, k, rfl, hk, by rw [hraw], ?_, h2, h3, by rw [h4], h5, h6⟩⟩
      simp [h1]
  · rename_i h0
    simp only [Option.some.injEq, Prod.mk.injEq] at h
    obtain ⟨rfl, rfl, rfl, rfl⟩ := h
    exact ⟨rfl, Or.inl ⟨h0, rfl, rfl, rfl⟩⟩

theorem write_lookup_spec (c c0 : cache_t) (addr now : Nat) (id : raw_id) (io : dnet_io_attr)
    (disk : disk_reply) (it : data_t) (w0 : List backend_call)
    (h : c.write_lookup addr now id io disk = some (Sum.inr it, c0, w0)) :
    (c.find id = some it ∧ c0 = c ∧ w0 = []) ∨
    (c.find id = none ∧ io.flags.cache = true ∧ ∃ k d uf ts, k ≤ c.m_lru.length ∧
      it = fresh_node addr now id io.flags.cache_remove_from_disk d uf ts ∧
      c0.m_lru = c.m_lru.drop k ++ [it] ∧
      c0.m_max_cache_size = c.m_max_cache_size ∧
      c0.m_cache_size = add64 (evicted_size c.m_cache_size (c.m_lru.take k)) d.length ∧
      w0 = (if io.flags.cache_only = false then [backend_call.read id] else []) ++
             flushes (c.m_lru.take k) ∧
      (∀ e ∈ c.m_lru.take k, e.hooks_ok) ∧
      (d = [] ∨ (io.flags.cache_only = false ∧ disk.err = 0 ∧ d = disk.data)) ∧
      ((k = 0 ∧ add64 c.m_cache_size d.length ≤ c.m_max_cache_size) ∨
       (add64 c.m_cache_size d.length > c.m_max_cache_size ∧
        (k < c.m_lru.length → c.m_max_cache_size >
          add64 d.length (evicted_size c.m_cache_size (c.m_lru.take k)))))) := by
  unfold cache_t.write_lookup at h
  split at h
  · rename_i e hf
    simp only [Option.some.injEq, Prod.mk.injEq, Sum.inr.injEq] at h
    obtain ⟨rfl, rfl, rfl⟩ := h
    exact Or.inl ⟨hf, rfl, rfl⟩
  · rename_i hf
    right
    unfold cache_t.write_miss at h
    split at h
    · simp at h
    · rename_i hcache
      have hcache : io.flags.cache = true := by simpa using hcache
      refine ⟨hf, hcache, ?_⟩
      split at h
      · exact absurd h (by simp)
      · rename_i it1 err c1 w1 hpop
        split at h
        · simp at h
        · rename_i herr
          by_cases hco : io.flags.cache_only = false
          · rw [if_pos hco] at hpop
            obtain ⟨he, hp⟩ := populate_from_disk_spec _ _ _ _ _ _ _ _ _ _ hpop
            rcases hp with ⟨hd0, rfl, rfl, rfl⟩ | ⟨hd0, e, k, rfl, hk, hE, h1, h2, h3, h4, h5, h6⟩
            · simp only at h
              split at h
              · exact absurd h (by simp)
              · rename_i e2 c2 w2 hcd
                simp only [Option.some.injEq, Prod.mk.injEq, Sum.inr.injEq] at h
                obtain ⟨rfl, rfl, rfl⟩ := h
                obtain ⟨hraw, k, hk, h1, h2, h3, h4, h5, h6⟩ := create_data_spec _ _ _ _ _ _ _ _ _ hcd
                refine ⟨k, [], 0, dnet_empty_time, hk, ?_, h1, h2, h3, ?_, h5, Or.inl rfl, h6⟩
                · rw [hraw]; rfl
                · simp [hco, h4]
            · simp only [Option.some.injEq, Prod.mk.injEq, Sum.inr.injEq] at h
              obtain ⟨rfl, rfl, rfl⟩ := h
              refine ⟨k, disk.data, disk.user_flags, disk.timestamp, hk, ?_, h1, h2, h3, ?_, h5,
                Or.inr ⟨hco, hd0, rfl⟩, h6⟩
              · rw [hE]; rfl
              · simp [hco, h4]
          · rw [if_neg hco] at hpop
            simp only [Option.some.injEq, Prod.mk.injEq] at hpop
            obtain ⟨rfl, rfl, rfl, rfl⟩ := hpop
            simp only at h
            split at h
            · exact absurd h (by simp)
            · rename_i e2 c2 w2 hcd
              simp only [Option.some.injEq, Prod.mk.injEq, Sum.inr.injEq] at h
              obtain ⟨rfl, rfl, rfl⟩ := h
              obtain ⟨hraw, k, hk, h1, h2, h3, h4, h5, h6⟩ := create_data_spec _ _ _ _ _ _ _ _ _ hcd
              refine ⟨k, [], 0, dnet_empty_time, hk, ?_, h1, h2, h3, ?_, h5, Or.inl rfl, h6⟩
              · rw [hraw]; rfl
              · simp [hco, h4]

theorem touch_spec (it it1 : data_t) (t now : Nat) (io : dnet_io_attr)
    (h : data_t.touch it t now io = some it1) :
    it1 = { addr := it.addr
            m_lifetime := if io.start ≠ 0 then add64 io.start now else it.m_lifetime
            m_synctime := if it.m_synctime = 0 ∧ io.flags.cache_only = false then add64 now t
                          else it.m_synctime
            m_timestamp := io.timestamp
            m_user_flags := io.user_flags
            m_remove_from_disk := it.m_remove_from_disk
            m_id := it.m_id
            m_data := it.m_data
            life_linked := if io.start ≠ 0 then true
                           else if it.m_lifetime ≠ 0 then false else it.life_linked
            sync_linked := if it.m_synctime = 0 ∧ io.flags.cache_only = false then true
                           else it.sync_linked } ∧
    (it.m_lifetime ≠ 0 → it.life_linked = true) ∧
    (it.m_lifetime = 0 → io.start ≠ 0 → it.life_linked = false) ∧
    (it.m_synctime = 0 → io.flags.cache_only = false → it.sync_linked = false) := by
  unfold data_t.touch at h
  by_cases h1 : it.m_synctime = 0 <;> by_cases h2 : io.flags.cache_only = false <;>
    by_cases h3 : it.sync_linked = true <;> by_cases h4 : it.m_lifetime = 0 <;>
    by_cases h5 : it.life_linked = true <;> by_cases h6 : io.start = 0 <;>
    simp [h1, h2, h3, h4, h5, h6] at h ⊢ <;> exact h.symm

theorem write_data_overwrite (raw data p : List Byte) (off sz : Nat)
    (h : write_data raw false off sz (add64 off sz) data = some p) (hd : data.length = sz) :
    off + sz < U64 ∧
    p = (raw ++ List.replicate (off - raw.length) (0 : Byte)).take off ++ data := by
  subst hd
  unfold write_data at h
  simp only [Bool.false_eq_true, if_false] at h
  split at h
  · rename_i hc
    have hlt : off + data.length < U64 := by
      have := hc.2
      unfold add64 U64 at *
      omega
    refine ⟨hlt, ?_⟩
    rw [add64_of_lt hlt] at h
    simp only [Option.some.injEq] at h
    rw [← h, List.take_length]
    have h1 : List.drop (off + data.length)
        (List.take (off + data.length)
          (raw ++ List.replicate (off + data.length - raw.length) (0 : Byte))) = [] := by
      apply List.drop_eq_nil_of_le
      simp
    rw [h1, List.append_nil, List.take_take]
    congr 1
    rw [Nat.min_eq_left (Nat.le_add_right _ _)]
    apply List.ext_getElem?
    intro i
    by_cases hi : i < off
    · rw [List.getElem?_take_of_lt hi, List.getElem?_take_of_lt hi]
      by_cases hr : i < raw.length
      · rw [List.getElem?_append_left hr, List.getElem?_append_left hr]
      · rw [List.getElem?_append_right (by omega), List.getElem?_append_right (by omega)]
        rw [List.getElem?_replicate, List.getElem?_replicate]
        have : i - raw.length < off + data.length - raw.length := by omega
        have : i - raw.length < off - raw.length := by omega
        simp [*]
    · rw [List.getElem?_take_eq_none (by omega), List.getElem?_take_eq_none (by omega)]
  · simp at h

theorem write_data_append (raw data p : List Byte) (off sz ns : Nat)
    (h : write_data raw true off sz ns data = some p) (hd : data.length = sz) :
    p = raw ++ data := by
  unfold write_data at h
  simp only [if_true] at h
  split at h
  · simp only [Option.some.injEq] at h
    rw [← h, ← hd, List.take_length]
  · simp at h

theorem write_entry_spec (c c2 : cache_t) (t now : Nat) (it : data_t) (io : dnet_io_attr)
    (data : List Byte) (w : List backend_call) (grow_ok : Bool)
    (h : c.write_entry t now it io data grow_ok = some (Except.ok (c2, w))) :
    ∃ k payload it1, k ≤ (c.m_lru.erase it).length ∧
      write_data it.m_data io.flags.append io.offset io.size (new_size it io) data = some payload ∧
      data_t.touch { it with m_data := payload } t now io = some it1 ∧
      c2.m_lru = (c.m_lru.erase it).drop k ++ [it1] ∧
      c2.m_max_cache_size = c.m_max_cache_size ∧
      c2.m_cache_size =
        add64 (evicted_size (sub64 c.m_cache_size it.size) ((c.m_lru.erase it).take k))
          (new_size it io) ∧
      w = flushes ((c.m_lru.erase it).take k) ∧
      (∀ e ∈ (c.m_lru.erase it).take k, e.hooks_ok) ∧
      ((k = 0 ∧ add64 (sub64 c.m_cache_size it.size) (new_size it io) ≤ c.m_max_cache_size) ∨
       (add64 (sub64 c.m_cache_size it.size) (new_size it io) > c.m_max_cache_size ∧
        (k < (c.m_lru.erase it).length → c.m_max_cache_size >
          add64 (mul64 (new_size it io) 2)
            (evicted_size (sub64 c.m_cache_size it.size) ((c.m_lru.erase it).take k))))) := by
  unfold cache_t.write_entry at h
  split at h
  · exact absurd h (by simp)
  · rename_i c3 w3 hres
    split at h
    · exact absurd h (by simp)
    · split at h
      · exact absurd h (by simp)
      · rename_i payload hwd
        split at h
        · exact absurd h (by simp)
        · rename_i it1 htouch
          simp only [Option.some.injEq, Except.ok.injEq, Prod.mk.injEq] at h
          obtain ⟨rfl, rfl⟩ := h
          split at hres
          · rename_i hgt
            obtain ⟨k, hk, h1, h2, h3, h4, h5, _, h7⟩ := resize_spec _ _ _ _ hres
            refine ⟨k, payload, it1, hk, hwd, htouch, by simp [h1], by simp [h2], ?_, h4, h5,
              Or.inr ⟨hgt, ?_⟩⟩
            · simp only [h3]
            · intro hlt
              have := h7 hlt
              rw [h2, h3] at this
              exact this
          · rename_i hle
            simp only [Option.some.injEq, Prod.mk.injEq] at hres
            obtain ⟨rfl, rfl⟩ := hres
            exact ⟨0, payload, it1, by omega, hwd, htouch, by simp, rfl, by simp [evicted_size],
              by simp [flushes], by simp, Or.inl ⟨rfl, by omega⟩⟩

theorem write_ok_spec (c c1 : cache_t) (t now addr : Nat) (digest : List Byte → raw_id)
    (id : raw_id) (io : dnet_io_attr) (data : List Byte) (disk : disk_reply)
    (w : List backend_call) (grow_ok : Bool)
    (h : c.write t now addr digest id io data disk grow_ok = some (Except.ok (0, c1, w))) :
    ∃ it c0 w0 w2, c.write_lookup addr now id io disk = some (Sum.inr it, c0, w0) ∧
      ¬ (io.flags.compare_and_swap = true ∧ it.size ≠ 0 ∧ digest it.m_data ≠ io.parent) ∧
      c0.write_entry t now it io data grow_ok = some (Except.ok (c1, w2)) ∧ w = w0 ++ w2 := by
  unfold cache_t.write at h
  split at h
  · exact absurd h (by simp)
  · rename_i err c0 w0 hl
    simp only [Option.some.injEq, Except.ok.injEq, Prod.mk.injEq] at h
    obtain ⟨rfl, rfl, rfl⟩ := h
    exfalso
    unfold cache_t.write_lookup at hl
    split at hl
    · simp at hl
    · unfold cache_t.write_miss at hl
      split at hl
      · simp [ENOTSUP] at hl
      · split at hl
        · simp at hl
        · split at hl
          · rename_i herr
            simp only [Option.some.injEq, Prod.mk.injEq, Sum.inl.injEq] at hl
            exact herr.1 hl.1
          · split at hl
            · simp at hl
            · split at hl <;> simp at hl
  · rename_i it c0 w0 hl
    split at h
    · simp [EBADFD] at h
    · rename_i hcas
      split at h
      · exact absurd h (by simp)
      · exact absurd h (by simp)
      · rename_i c2 w2 he
        simp only [Option.some.injEq, Except.ok.injEq, Prod.mk.injEq, true_and] at h
        obtain ⟨rfl, rfl⟩ := h
        exact ⟨it, c0, w0, w2, hl, hcas, he, rfl⟩

theorem unique_erase_ne {l : List data_t} (hu : (l.map data_t.m_id).Nodup) {it : data_t}
    (hit : it ∈ l) : ∀ e ∈ l.erase it, e.m_id ≠ it.m_id := by
  intro e he hid
  have hnd : l.Nodup := List.Nodup.of_map _ hu
  have := (List.Nodup.mem_erase_iff hnd).1 he
  exact this.1 (List.inj_on_of_nodup_map hu this.2 hit hid)

theorem write_ok_shape (c c1 : cache_t) (t now addr : Nat) (digest : List Byte → raw_id)
    (id : raw_id) (io : dnet_io_attr) (data : List Byte) (disk : disk_reply)
    (w : List backend_call) (grow_ok : Bool) (hu : c.unique_ids)
    (h : c.write t now addr digest id io data disk grow_ok = some (Except.ok (0, c1, w))) :
    ∃ (it it1 : data_t) (payload : List Byte) (rest : List data_t),
      c1.m_lru = rest ++ [it1] ∧ rest.Sublist c.m_lru ∧ (∀ e ∈ rest, e.m_id ≠ id) ∧
      (c.find id = some it ∨
        (c.find id = none ∧ io.flags.cache = true ∧ ∃ d uf ts,
          it = fresh_node addr now id io.flags.cache_remove_from_disk d uf ts ∧
          (d = [] ∨ (io.flags.cache_only = false ∧ disk.err = 0 ∧ d = disk.data)))) ∧
      it.m_id = id ∧
      ¬ (io.flags.compare_and_swap = true ∧ it.size ≠ 0 ∧ digest it.m_data ≠ io.parent) ∧
      write_data it.m_data io.flags.append io.offset io.size (new_size it io) data
        = some payload ∧
      data_t.touch { it with m_data := payload } t now io = some it1 ∧
      c1.m_max_cache_size = c.m_max_cache_size := by
  obtain ⟨it, c0, w0, w2, hl, hcas, he, -⟩ := write_ok_spec _ _ _ _ _ _ _ _ _ _ _ _ h
  obtain ⟨k, payload, it1, -, hwd, ht, h1, h2, -⟩ := write_entry_spec _ _ _ _ _ _ _ _ _ he
  rcases write_lookup_spec _ _ _ _ _ _ _ _ _ hl with ⟨hf, rfl, -⟩ |
      ⟨hf, hc, k0, d, uf, ts, -, hit, h01, h02, -, -, -, hd, -⟩
  · obtain ⟨hmem, hid⟩ := find_some hf
    refine ⟨it, it1, payload, (c0.m_lru.erase it).drop k, h1, ?_, ?_, Or.inl hf, hid, hcas, hwd,
      ht, h2⟩
    · exact (List.drop_sublist _ _).trans (List.erase_sublist _ _)
    · intro e hemem
      have := unique_erase_ne hu hmem e (List.mem_of_mem_drop hemem)
      rwa [hid] at this
  · have hid : it.m_id = id := by rw [hit]; rfl
    have hnot : it ∉ c.m_lru.drop k0 := by
      intro hm
      exact (find_none.1 hf) it (List.mem_of_mem_drop hm) hid
    have herase : c0.m_lru.erase it = c.m_lru.drop k0 := by
      rw [h01, List.erase_append_right _ hnot]
      simp
    refine ⟨it, it1, payload, (c.m_lru.drop k0).drop k, ?_, ?_, ?_,
      Or.inr ⟨hf, hc, d, uf, ts, hit, hd⟩, hid, hcas, hwd, ht, h2.trans h02⟩
    · rw [h1, herase]
    · exact (List.drop_sublist _ _).trans (List.drop_sublist _ _)
    · intro e hemem
      exact (find_none.1 hf) e (List.mem_of_mem_drop (List.mem_of_mem_drop hemem))

theorem find_append_last {rest : List data_t} {it1 : data_t} {id : raw_id}
    (hr : ∀ e ∈ rest, e.m_id ≠ id) (hid : it1.m_id = id) (c : cache_t)
    (hc : c.m_lru = rest ++ [it1]) : c.find id = some it1 := by
  unfold cache_t.find
  rw [hc, List.find?_append]
  have : List.find? (fun e => decide (e.m_id = id)) rest = none := by
    simp only [List.find?_eq_none, decide_eq_true_eq]
    exact hr
  simp [this, hid]

theorem read_hit (c : cache_t) (addr now : Nat) (id : raw_id) (io : dnet_io_attr)
    (disk : disk_reply) (it : data_t) (hf : c.find id = some it) :
    c.read addr now id io disk =
      some (some it.m_data,
            { io with timestamp := it.m_timestamp, user_flags := it.m_user_flags },
            { c with m_lru := c.m_lru.erase it ++ [it] }, []) := by
  unfold cache_t.read
  simp [hf]

/-- The round trip of C1 where the write has a defined result: when a write without
`APPEND` of `io.size` bytes returns success (which requires `offset + size < 2^64`), a
read of the same identifier that follows at once (whatever its attributes) returns a
snapshot of length `offset + size` whose bytes `[offset, offset + size)` are the written
data, and stores in `io` the timestamp and the user flags given to the write. -/
theorem write_read_roundtrip (c c1 : cache_t) (t now addr : Nat) (digest : List Byte → raw_id)
    (id : raw_id) (io : dnet_io_attr) (data : List Byte) (disk : disk_reply)
    (w : List backend_call) (addr2 now2 : Nat) (io2 : dnet_io_attr) (disk2 : disk_reply)
    (grow_ok : Bool)
    (hu : c.unique_ids) (happ : io.flags.append = false) (hlen : data.length = io.size)
    (h : c.write t now addr digest id io data disk grow_ok = some (Except.ok (0, c1, w))) :
    ∃ snapshot io3 c2 w2,
      c1.read addr2 now2 id io2 disk2 = some (some snapshot, io3, c2, w2) ∧
      snapshot.length = io.offset + io.size ∧
      (snapshot.drop io.offset).take io.size = data ∧
      io3.timestamp = io.timestamp ∧ io3.user_flags = io.user_flags := by
  obtain ⟨it, it1, payload, rest, h1, -, hrest, -, hid, -, hwd, ht, -⟩ :=
    write_ok_shape _ _ _ _ _ _ _ _ _ _ _ _ hu h
  obtain ⟨hit1, -⟩ := touch_spec _ _ _ _ _ ht
  have hid1 : it1.m_id = id := by rw [hit1]; exact hid
  have hf := find_append_last hrest hid1 c1 h1
  rw [happ] at hwd
  have hns : new_size it io = add64 io.offset io.size := by simp [new_size, happ]
  rw [hns] at hwd
  obtain ⟨hlt, hp⟩ := write_data_overwrite _ _ _ _ _ hwd hlen
  refine ⟨_, _, _, _, read_hit c1 addr2 now2 id io2 disk2 it1 hf, ?_, ?_, ?_, ?_⟩
  · rw [hit1]
    simp only
    rw [hp, List.length_append, List.length_take, List.length_append, List.length_replicate, hlen]
    omega
  · rw [hit1]
    simp only
    have hl : ((it.m_data ++ List.replicate (io.offset - it.m_data.length) (0 : Byte)).take
        io.offset).length = io.offset := by
      rw [List.length_take, List.length_append, List.length_replicate]
      omega
    rw [hp, List.drop_append_of_le_length (by omega), List.drop_eq_nil_of_le (by omega),
      List.nil_append, ← hlen, List.take_length]
  · rw [hit1]
  · rw [hit1]

/-- The round trip at an input: a write of three bytes at offset 2 into an empty shard,
then a read. -/
theorem write_read_roundtrip_witness :
    (cache_t.init 1000).unique_ids ∧
    (mk_io id_a { no_flags with cache := true, cache_only := true } 2 3 0).flags.append = false ∧
    ([1, 2, 3] : List Byte).length =
      (mk_io id_a { no_flags with cache := true, cache_only := true } 2 3 0).size ∧
    (cache_t.init 1000).write 1 100 0 digest_id id_a
        (mk_io id_a { no_flags with cache := true, cache_only := true } 2 3 0) [1, 2, 3]
        disk_enoent true
      = some (Except.ok (0, ⟨5, 1000, [mk_node 0 id_a [0, 0, 1, 2, 3] 0 0 false]⟩, [])) ∧
    ∃ snapshot io3 c2 w2,
      (⟨5, 1000, [mk_node 0 id_a [0, 0, 1, 2, 3] 0 0 false]⟩ : cache_t).read 0 101 id_a
          (mk_io id_a no_flags 0 0 0) disk_enoent = some (some snapshot, io3, c2, w2) ∧
      snapshot.length = 2 + 3 ∧
      (snapshot.drop 2).take 3 = [1, 2, 3] ∧
      io3.timestamp = ⟨7, 8⟩ ∧ io3.user_flags = 9 :=
  ⟨by decide, rfl, rfl, by decide,
   write_read_roundtrip (cache_t.init 1000) _ 1 100 0 digest_id id_a
     (mk_io id_a { no_flags with cache := true, cache_only := true } 2 3 0) [1, 2, 3]
     disk_enoent [] 0 101 (mk_io id_a no_flags 0 0 0) disk_enoent true (by decide) rfl rfl
     (by decide)⟩

theorem write_hit_cas_mismatch (c : cache_t) (t now addr : Nat) (digest : List Byte → raw_id)
    (id : raw_id) (io : dnet_io_attr) (data : List Byte) (disk : disk_reply) (it : data_t)
    (grow_ok : Bool)
    (hf : c.find id = some it) (hcas : io.flags.compare_and_swap = true)
    (hsz : it.m_data ≠ []) (hd : digest it.m_data ≠ io.parent) :
    c.write t now addr digest id io data disk grow_ok = some (Except.ok (-EBADFD, c, [])) := by
  have hsize : it.size ≠ 0 := by
    unfold data_t.size
    simpa using hsz
  unfold cache_t.write cache_t.write_lookup
  simp [hf, hcas, hsize, hd]

/-- C3 (as stated, refuted). With the empty payload `X = []` the check is skipped: after
`write(id, [])` a compare-and-swap write whose `parent` is the digest of `X' = [1]`, which
differs from the digest of `X`, returns success and replaces the payload. -/
theorem cas_mismatch_empty_payload_counterexample :
    (cache_t.init 1000).write 1 100 0 digest_id id_a
        (mk_io id_a { no_flags with cache := true, cache_only := true } 0 0 0) [] disk_enoent true
      = some (Except.ok (0, ⟨0, 1000, [mk_node 0 id_a [] 0 0 false]⟩, [])) ∧
    digest_id [1] ≠ digest_id [] ∧
    (⟨0, 1000, [mk_node 0 id_a [] 0 0 false]⟩ : cache_t).write 1 100 0 digest_id id_a
        { mk_io id_a { no_flags with compare_and_swap := true, cache_only := true } 0 1 0 with
          parent := digest_id [1] } [2] disk_enoent true
      = some (Except.ok (0, ⟨1, 1000, [mk_node 0 id_a [2] 0 0 false]⟩, [])) ∧
    (0 : Int) ≠ -EBADFD := by
  decide

/-- C3 (amended). For a non-empty payload `X`: after a write of `X` at offset 0 without
`APPEND` has succeeded, a write with `COMPARE_AND_SWAP` whose `parent` is the digest of an
`X'` with a different digest returns `-EBADFD`, makes no backend call and leaves the shard
exactly as it was, and a read that follows returns `X`. -/
theorem cas_mismatch_keeps_entry (c c1 : cache_t) (t now addr : Nat)
    (digest : List Byte → raw_id) (id : raw_id) (io : dnet_io_attr) (X : List Byte)
    (disk : disk_reply) (w : List backend_call)
    (t2 now2 addr2 : Nat) (io2 : dnet_io_attr) (Y X' : List Byte) (disk2 : disk_reply)
    (addr3 now3 : Nat) (io3 : dnet_io_attr) (disk3 : disk_reply) (grow_ok grow_ok2 : Bool)
    (hu : c.unique_ids) (hX : X ≠ []) (happ : io.flags.append = false)
    (hoff : io.offset = 0) (hlen : X.length = io.size)
    (h : c.write t now addr digest id io X disk grow_ok = some (Except.ok (0, c1, w)))
    (hcas : io2.flags.compare_and_swap = true) (hparent : io2.parent = digest X')
    (hne : digest X' ≠ digest X) :
    c1.write t2 now2 addr2 digest id io2 Y disk2 grow_ok2
      = some (Except.ok (-EBADFD, c1, [])) ∧
    ∃ io4 c2 w2, c1.read addr3 now3 id io3 disk3 = some (some X, io4, c2, w2) := by
  obtain ⟨it, it1, payload, rest, h1, -, hrest, -, hid, -, hwd, ht, -⟩ :=
    write_ok_shape _ _ _ _ _ _ _ _ _ _ _ _ hu h
  obtain ⟨hit1, -⟩ := touch_spec _ _ _ _ _ ht
  have hid1 : it1.m_id = id := by rw [hit1]; exact hid
  have hf := find_append_last hrest hid1 c1 h1
  rw [happ] at hwd
  have hns : new_size it io = add64 io.offset io.size := by simp [new_size, happ]
  rw [hns] at hwd
  obtain ⟨-, hp⟩ := write_data_overwrite _ _ _ _ _ hwd hlen
  have hdata : it1.m_data = X := by
    rw [hit1]
    simp only
    rw [hp, hoff]
    simp
  constructor
  · apply write_hit_cas_mismatch _ _ _ _ _ _ _ _ _ it1 _ hf hcas
    · rw [hdata]; exact hX
    · rw [hdata, hparent]; exact fun h => hne h.symm
  · rw [read_hit c1 addr3 now3 id io3 disk3 it1 hf, hdata]
    exact ⟨_, _, _, rfl⟩

/-- C3 (witness). The payload `[1, 2]` is kept when the parent is the digest of `[9]`. -/
theorem cas_mismatch_keeps_entry_witness :
    (cache_t.init 1000).unique_ids ∧ ([1, 2] : List Byte) ≠ [] ∧
    (cache_t.init 1000).write 1 100 0 digest_id id_a
        (mk_io id_a { no_flags with cache := true, cache_only := true } 0 2 0) [1, 2]
        disk_enoent true
      = some (Except.ok (0, ⟨2, 1000, [mk_node 0 id_a [1, 2] 0 0 false]⟩, [])) ∧
    digest_id [9] ≠ digest_id [1, 2] ∧
    (⟨2, 1000, [mk_node 0 id_a [1, 2] 0 0 false]⟩ : cache_t).write 1 100 0 digest_id id_a
        { mk_io id_a { no_flags with compare_and_swap := true } 0 1 0 with
          parent := digest_id [9] } [3] disk_enoent true
      = some (Except.ok (-EBADFD, ⟨2, 1000, [mk_node 0 id_a [1, 2] 0 0 false]⟩, [])) ∧
    ∃ io4 c2 w2, (⟨2, 1000, [mk_node 0 id_a [1, 2] 0 0 false]⟩ : cache_t).read 0 100 id_a
        (mk_io id_a no_flags 0 0 0) disk_enoent = some (some [1, 2], io4, c2, w2) :=
  have h := cas_mismatch_keeps_entry (cache_t.init 1000) _ 1 100 0 digest_id id_a
    (mk_io id_a { no_flags with cache := true, cache_only := true } 0 2 0) [1, 2] disk_enoent []
    1 100 0
    { mk_io id_a { no_flags with compare_and_swap := true } 0 1 0 with parent := digest_id [9] }
    [3] [9] disk_enoent 0 100 (mk_io id_a no_flags 0 0 0) disk_enoent true true
    (by decide) (by decide) rfl rfl rfl (by decide) rfl rfl (by decide)
  ⟨by decide, by decide, by decide, by decide, h.1, h.2⟩

/-- C2 (evaluation at the failing input). An entry written with a lifetime (`start = 100`)
is overwritten with `X = [1, 2]` at offset 0 with `CACHE_ONLY` and `start = 0`: the write
succeeds, takes the node out of `m_lifeset` and leaves `m_lifetime = 200`.  The `APPEND`
write of `Y = [3]` that follows then erases from `m_lifeset` a node that is not linked in it;
it has no defined result. -/
theorem append_after_lifetime_reset_undefined :
    (cache_t.init 1000).write 1 100 0 digest_id id_a
        (mk_io id_a { no_flags with cache := true, cache_only := true } 0 1 100) [5]
        disk_enoent true
      = some (Except.ok (0, ⟨1, 1000, [mk_node 0 id_a [5] 200 0 false]⟩, [])) ∧
    (⟨1, 1000, [mk_node 0 id_a [5] 200 0 false]⟩ : cache_t).write 1 100 0 digest_id id_a
        (mk_io id_a { no_flags with cache_only := true } 0 2 0) [1, 2] disk_enoent true
      = some (Except.ok
          (0, ⟨2, 1000, [{ mk_node 0 id_a [1, 2] 200 0 false with life_linked := false }]⟩,
           [])) ∧
    (⟨2, 1000, [{ mk_node 0 id_a [1, 2] 200 0 false with life_linked := false }]⟩ :
        cache_t).write 1 100 0 digest_id id_a
        (mk_io id_a { no_flags with append := true, cache_only := true } 0 1 0) [3] disk_enoent true
      = none :=
  ⟨by decide, by decide, by decide⟩

theorem list_set_self {α : Type} : ∀ (l : List α) (k : Nat) (a : α), l[k]? = some a → l.set k a = l
  | [], _, _, h => by simp at h
  | b :: l, 0, a, h => by
    simp only [List.getElem?_cons_zero, Option.some.injEq] at h
    simp [h]
  | b :: l, k + 1, a, h => by
    simp only [List.getElem?_cons_succ] at h
    simp [list_set_self l k a h]

theorem shard_set_self (m : cache_manager) (id : raw_id) (k : Nat) (c : cache_t)
    (h : m.shard id = some (k, c)) : ({ m_caches := m.m_caches.set k c } : cache_manager) = m := by
  unfold cache_manager.shard at h
  split at h
  · simp at h
  · simp only at h
    split at h
    · simp at h
    · rename_i c2 hget
      simp only [Option.some.injEq, Prod.mk.injEq] at h
      obtain ⟨rfl, rfl⟩ := h
      rcases m with ⟨l⟩
      simp only [cache_manager.mk.injEq]
      exact list_set_self l _ _ hget

theorem write_miss_without_cache (c : cache_t) (t now addr : Nat) (digest : List Byte → raw_id)
    (id : raw_id) (io : dnet_io_attr) (data : List Byte) (disk : disk_reply) (grow_ok : Bool)
    (hf : c.find id = none) (hc : io.flags.cache = false) :
    c.write t now addr digest id io data disk grow_ok = some (Except.ok (-ENOTSUP, c, [])) := by
  unfold cache_t.write cache_t.write_lookup cache_t.write_miss
  simp [hf, hc]

theorem read_miss_without_populate (c : cache_t) (addr now : Nat) (id : raw_id)
    (io : dnet_io_attr) (disk : disk_reply) (hf : c.find id = none)
    (hc : io.flags.cache = false ∨ io.flags.cache_only = true) :
    c.read addr now id io disk = some (none, io, c, []) := by
  unfold cache_t.read
  rcases hc with hc | hc <;> simp [hf, hc]

/-- C4. Miss without `CACHE`: when the identifier of a `WRITE` or `READ` command is absent
from the shard it is routed to and `io->flags` does not contain `CACHE` (whatever the other
flags), `dnet_cmd_cache_io` returns `-ENOTSUP`, makes no backend call, sends no reply and
leaves the cache, `cmd` and `io` unchanged. -/
theorem miss_without_cache_declined (m : cache_manager) (k : Nat) (c : cache_t)
    (t now addr : Nat) (digest : List Byte → raw_id) (cmd : dnet_cmd) (io : dnet_io_attr)
    (data : List Byte) (disk : disk_reply) (grow_ok : Bool) (local_err send_err : Int)
    (hcmd : cmd.cmd = dnet_command.DNET_CMD_WRITE ∨ cmd.cmd = dnet_command.DNET_CMD_READ)
    (hs : m.shard io.id = some (k, c)) (habs : c.find io.id = none)
    (hc : io.flags.cache = false) :
    dnet_cmd_cache_io (some m) t now addr digest cmd io data disk grow_ok local_err send_err =
      some ⟨-ENOTSUP, some m, cmd, io, [], []⟩ := by
  have hset := shard_set_self m io.id k c hs
  rcases hcmd with hcmd | hcmd
  · simp only [dnet_cmd_cache_io, hcmd, cache_manager.write, hs,
      write_miss_without_cache c t now addr digest io.id io data disk grow_ok habs hc, hset]
    simp [ENOTSUP]
  · simp only [dnet_cmd_cache_io, hcmd, cache_manager.read, hs,
      read_miss_without_populate c addr now io.id io disk habs (Or.inl hc), hset]
    simp [hc]

/-- C4 (witness). A `READ` with `CACHE_ONLY` but without `CACHE` of an identifier that the
first of two shards does not hold. -/
theorem miss_without_cache_declined_witness :
    (({ id := id_a, cmd := dnet_command.DNET_CMD_READ, need_ack := true } : dnet_cmd).cmd
        = dnet_command.DNET_CMD_WRITE ∨
      ({ id := id_a, cmd := dnet_command.DNET_CMD_READ, need_ack := true } : dnet_cmd).cmd
        = dnet_command.DNET_CMD_READ) ∧
    (⟨[cache_t.init 1000, ⟨1, 1000, [mk_node 0 id_a [5] 0 0 false]⟩]⟩ : cache_manager).shard
        (mk_io id_b { no_flags with cache_only := true } 0 0 0).id
      = some (0, cache_t.init 1000) ∧
    (cache_t.init 1000).find (mk_io id_b { no_flags with cache_only := true } 0 0 0).id = none ∧
    (mk_io id_b { no_flags with cache_only := true } 0 0 0).flags.cache = false ∧
    dnet_cmd_cache_io (some ⟨[cache_t.init 1000, ⟨1, 1000, [mk_node 0 id_a [5] 0 0 false]⟩]⟩)
        1 100 0 digest_id { id := id_a, cmd := dnet_command.DNET_CMD_READ, need_ack := true }
        (mk_io id_b { no_flags with cache_only := true } 0 0 0) [] disk_enoent true 0 0
      = some ⟨-ENOTSUP, some ⟨[cache_t.init 1000, ⟨1, 1000, [mk_node 0 id_a [5] 0 0 false]⟩]⟩,
              { id := id_a, cmd := dnet_command.DNET_CMD_READ, need_ack := true },
              mk_io id_b { no_flags with cache_only := true } 0 0 0, [], []⟩ :=
  ⟨by decide, by decide, by decide, by decide,
   miss_without_cache_declined _ 0 (cache_t.init 1000) 1 100 0 digest_id _ _ [] disk_enoent true 0 0
     (by decide) (by decide) (by decide) (by decide)⟩

/-- C5 (evaluation at the failing input). A `READ` of a cached payload of 4 bytes with
`offset = 2^64 - 1` and `size = 2`: the sum `io->offset + io->size` wraps to 1, the range
check passes, `-EINVAL` is not returned and the two bytes handed to the reply sink start
`2^64 - 1` bytes after the payload: a read outside the buffer, with no defined result. -/
theorem read_range_check_wraps :
    18446744073709551615 + 2 > ([1, 2, 3, 4] : List Byte).length ∧
    add64 18446744073709551615 2 = 1 ∧
    dnet_cmd_cache_io (some ⟨[⟨4, 1000, [mk_node 0 id_a [1, 2, 3, 4] 0 0 false]⟩]⟩)
        1 100 0 digest_id { id := id_a, cmd := dnet_command.DNET_CMD_READ, need_ack := true }
        (mk_io id_a { no_flags with cache := true } 18446744073709551615 2 0) [] disk_enoent
        true 0 0
      = none := by
  decide

theorem set_node_self (l : List data_t) (it : data_t) : set_node l it it = l := by
  induction l with
  | nil => rfl
  | cons e l ih =>
    simp only [set_node]
    split
    · rename_i h; rw [h]
    · rw [ih]

theorem set_node_erase {l : List data_t} (hu : (l.map data_t.m_id).Nodup) {it it1 : data_t}
    (hit : it ∈ l) (hid : it1.m_id = it.m_id) : (set_node l it it1).erase it1 = l.erase it := by
  induction l with
  | nil => simp at hit
  | cons e l ih =>
    simp only [set_node]
    by_cases he : e = it
    · subst he
      simp
    · rw [if_neg he]
      have hit2 : it ∈ l := by
        rcases List.mem_cons.1 hit with h | h
        · exact absurd h.symm he
        · exact h
      simp only [List.map_cons, List.nodup_cons] at hu
      have hne : e ≠ it1 := by
        intro h
        apply hu.1
        rw [h, hid]
        exact List.mem_map_of_mem _ hit2
      rw [List.erase_cons_tail (by simpa using hne), List.erase_cons_tail (by simpa using he),
        ih hu.2 hit2]

theorem size_le_sum {l : List data_t} {it : data_t} (hit : it ∈ l) :
    it.size ≤ (l.map data_t.size).sum := by
  induction l with
  | nil => simp at hit
  | cons e l ih =>
    simp only [List.map_cons, List.sum_cons]
    rcases List.mem_cons.1 hit with h | h
    · subst h; omega
    · have := ih h; omega

theorem sum_erase {l : List data_t} {it : data_t} (hit : it ∈ l) :
    ((l.erase it).map data_t.size).sum + it.size = (l.map data_t.size).sum := by
  induction l with
  | nil => simp at hit
  | cons e l ih =>
    by_cases he : e = it
    · subst he
      simp
      omega
    · have hit2 : it ∈ l := by
        rcases List.mem_cons.1 hit with h | h
        · exact absurd h.symm he
        · exact h
      rw [List.erase_cons_tail (by simpa using he)]
      simp only [List.map_cons, List.sum_cons]
      have := ih hit2
      omega

theorem remove_absent (c : cache_t) (id : raw_id) (io : dnet_io_attr) (local_err : Int)
    (hf : c.find id = none) : c.remove id io local_err = some (-ENOENT, c, []) := by
  unfold cache_t.remove
  simp [hf]

theorem count_remove_flushes (l : List data_t) (id : raw_id) :
    (flushes l).count (backend_call.remove id) = 0 := by
  unfold flushes
  rw [List.count_eq_zero]
  intro h
  simp at h

/-- C6. Delete result and cascade.  If `id` is absent, `cache_t::remove` returns `-ENOENT`,
calls nothing and leaves the shard unchanged.  If `id` is present, its node leaves the shard
(a read with `CACHE_ONLY` that follows misses), `m_cache_size` drops by its payload size,
`dnet_remove_local(id)` is called once when `remove_from_disk` of the node is set or
`CACHE_ONLY` is unset and not at all otherwise, and the result is 0 unless that call was
made and answered something other than `-ENOENT`, in which case it is that answer. -/
theorem remove_result_and_cascade (c : cache_t) (id : raw_id) (io : dnet_io_attr)
    (local_err : Int) (hwf : c.wf) :
    (c.find id = none → c.remove id io local_err = some (-ENOENT, c, [])) ∧
    (∀ it, c.find id = some it →
      ∃ c1 w, c.remove id io local_err =
          some (if (it.m_remove_from_disk = true ∨ io.flags.cache_only = false) ∧
                    local_err ≠ -ENOENT then local_err else 0, c1, w) ∧
        c1.m_lru = c.m_lru.erase it ∧ c1.find id = none ∧
        (∀ addr now io2 disk, io2.flags.cache_only = true →
          c1.read addr now id io2 disk = some (none, io2, c1, [])) ∧
        c1.m_cache_size + it.size = c.m_cache_size ∧
        w.count (backend_call.remove id) =
          (if it.m_remove_from_disk = true ∨ io.flags.cache_only = false then 1 else 0)) := by
  refine ⟨remove_absent c id io local_err, ?_⟩
  intro it hf
  obtain ⟨hu, hh, hacc, hlt⟩ := hwf
  obtain ⟨hmem, hid⟩ := find_some hf
  have hok := hh it hmem
  have hsz := size_le_sum hmem
  have hfind : ∀ c1 : cache_t, c1.m_lru = c.m_lru.erase it → c1.find id = none := by
    intro c1 h1
    rw [find_none, h1]
    intro e he
    have := unique_erase_ne hu hmem e he
    rwa [hid] at this
  have hcs : sub64 c.m_cache_size it.size + it.size = c.m_cache_size := by
    rw [sub64_of_le (by omega) hlt]
    omega
  by_cases hdirty : it.m_synctime ≠ 0 ∧ io.flags.cache_only = false
  · have hlinked : it.sync_linked = true := hok.2.2 hdirty.1
    have hok1 : ({ it with sync_linked := false, m_synctime := 0 } : data_t).hooks_ok := by
      refine ⟨hok.1, ?_⟩
      simp
    have herase := set_node_erase hu hmem
      (show ({ it with sync_linked := false, m_synctime := 0 } : data_t).m_id = it.m_id from rfl)
    refine ⟨⟨sub64 c.m_cache_size it.size, c.m_max_cache_size, c.m_lru.erase it⟩,
      [backend_call.remove id], ?_, rfl, hfind _ rfl, ?_, hcs, ?_⟩
    · unfold cache_t.remove
      simp only [hf]
      rw [if_pos hdirty, if_pos hlinked]
      simp only [erase_element_eq, if_pos hok1, herase]
      simp [hdirty.2, flushes, data_t.size]
    · intro addr now io2 disk hco
      exact read_miss_without_populate _ addr now id io2 disk (hfind _ rfl) (Or.inr hco)
    · simp [hdirty.2]
  · by_cases hrm : it.m_remove_from_disk = true ∨ io.flags.cache_only = false
    · refine ⟨⟨sub64 c.m_cache_size it.size, c.m_max_cache_size, c.m_lru.erase it⟩,
        flushes [it] ++ [backend_call.remove id], ?_, rfl, hfind _ rfl, ?_, hcs, ?_⟩
      · unfold cache_t.remove
        simp only [hf]
        rw [if_neg hdirty]
        simp only [set_node_self, erase_element_eq, if_pos hok]
        rcases hrm with hrm | hrm <;> simp [hrm]
      · intro addr now io2 disk hco
        exact read_miss_without_populate _ addr now id io2 disk (hfind _ rfl) (Or.inr hco)
      · rw [List.count_append, count_remove_flushes]
        simp [hrm]
    · have h1 : it.m_remove_from_disk = false := by
        cases h : it.m_remove_from_disk
        · rfl
        · exact absurd (Or.inl h) hrm
      have h2 : io.flags.cache_only = true := by
        cases h : io.flags.cache_only
        · exact absurd (Or.inr h) hrm
        · rfl
      refine ⟨⟨sub64 c.m_cache_size it.size, c.m_max_cache_size, c.m_lru.erase it⟩,
        flushes [it], ?_, rfl, hfind _ rfl, ?_, hcs, ?_⟩
      · unfold cache_t.remove
        simp only [hf]
        rw [if_neg hdirty]
        simp only [set_node_self, erase_element_eq, if_pos hok]
        simp [h1, h2]
      · intro addr now io2 disk hco
        exact read_miss_without_populate _ addr now id io2 disk (hfind _ rfl) (Or.inr hco)
      · rw [count_remove_flushes]
        simp [h1, h2]

/-- C6 (witness). A dirty entry with `remove_from_disk` is deleted with `CACHE_ONLY`; the
backend answers `-5`. -/
theorem remove_result_and_cascade_witness :
    (⟨3, 1000, [mk_node 0 id_a [1, 2, 3] 0 150 true]⟩ : cache_t).wf ∧
    (⟨3, 1000, [mk_node 0 id_a [1, 2, 3] 0 150 true]⟩ : cache_t).find id_a
      = some (mk_node 0 id_a [1, 2, 3] 0 150 true) ∧
    ∃ c1 w, (⟨3, 1000, [mk_node 0 id_a [1, 2, 3] 0 150 true]⟩ : cache_t).remove id_a
          (mk_io id_a { no_flags with cache_only := true } 0 0 0) (-5) =
          some (if ((mk_node 0 id_a [1, 2, 3] 0 150 true).m_remove_from_disk = true ∨
                    (mk_io id_a { no_flags with cache_only := true } 0 0 0).flags.cache_only
                      = false) ∧ (-5 : Int) ≠ -ENOENT then -5 else 0, c1, w) ∧
        c1.m_lru = (⟨3, 1000, [mk_node 0 id_a [1, 2, 3] 0 150 true]⟩ : cache_t).m_lru.erase
          (mk_node 0 id_a [1, 2, 3] 0 150 true) ∧
        c1.find id_a = none ∧
        (∀ addr now io2 disk, io2.flags.cache_only = true →
          c1.read addr now id_a io2 disk = some (none, io2, c1, [])) ∧
        c1.m_cache_size + (mk_node 0 id_a [1, 2, 3] 0 150 true).size
          = (⟨3, 1000, [mk_node 0 id_a [1, 2, 3] 0 150 true]⟩ : cache_t).m_cache_size ∧
        w.count (backend_call.remove id_a) =
          (if (mk_node 0 id_a [1, 2, 3] 0 150 true).m_remove_from_disk = true ∨
              (mk_io id_a { no_flags with cache_only := true } 0 0 0).flags.cache_only = false
           then 1 else 0) :=
  ⟨by decide, by decide,
   (remove_result_and_cascade ⟨3, 1000, [mk_node 0 id_a [1, 2, 3] 0 150 true]⟩ id_a
      (mk_io id_a { no_flags with cache_only := true } 0 0 0) (-5) (by decide)).2
      (mk_node 0 id_a [1, 2, 3] 0 150 true) (by decide)⟩

theorem evicted_size_eq : ∀ (l : List data_t) (cs : Nat), (l.map data_t.size).sum ≤ cs →
    cs < U64 → evicted_size cs l = cs - (l.map data_t.size).sum
  | [], cs, _, _ => by simp [evicted_size]
  | e :: l, cs, h, hlt => by
    simp only [List.map_cons, List.sum_cons] at h
    simp only [evicted_size, List.map_cons, List.sum_cons]
    rw [sub64_of_le (by omega) hlt, evicted_size_eq l (cs - e.size) (by omega) (by omega)]
    omega

theorem writes_to_flushes_of_absent (l : List data_t) (id : raw_id)
    (h : ∀ e ∈ l, e.m_id ≠ id) : (flushes l).filter (backend_call.is_write_to id) = [] := by
  rw [List.filter_eq_nil_iff]
  intro b hb
  unfold flushes at hb
  simp only [List.mem_map, List.mem_filter] at hb
  obtain ⟨e, ⟨he, -⟩, rfl⟩ := hb
  simpa [backend_call.is_write_to] using h e he

theorem writes_to_flushes (l : List data_t) (hu : (l.map data_t.m_id).Nodup) (e : data_t)
    (he : e ∈ l) :
    (flushes l).filter (backend_call.is_write_to e.m_id) =
      if e.m_synctime ≠ 0 then [backend_call.write e.m_id e.m_data] else [] := by
  induction l with
  | nil => simp at he
  | cons a l ih =>
    simp only [List.map_cons, List.nodup_cons] at hu
    rw [flushes_cons, List.filter_append]
    by_cases hae : a = e
    · subst hae
      have hrest : (flushes l).filter (backend_call.is_write_to a.m_id) = [] := by
        apply writes_to_flushes_of_absent
        intro x hx hxe
        apply hu.1
        rw [← hxe]
        exact List.mem_map_of_mem _ hx
      rw [hrest, List.append_nil]
      by_cases hd : a.m_synctime = 0 <;> simp [flushes, hd, backend_call.is_write_to]
    · have hel : e ∈ l := by
        rcases List.mem_cons.1 he with h | h
        · exact absurd h.symm hae
        · exact h
      have hid : a.m_id ≠ e.m_id := by
        intro h
        apply hu.1
        rw [h]
        exact List.mem_map_of_mem _ hel
      have hfirst : (flushes [a]).filter (backend_call.is_write_to e.m_id) = [] := by
        apply writes_to_flushes_of_absent
        intro x hx
        simp only [List.mem_singleton] at hx
        rw [hx]
        exact hid
      rw [hfirst, List.nil_append, ih hu.2 hel]

/-- C9. Shutdown flush: destroying a shard (`m_max_cache_size = 0`, then `resize(0)`) leaves
no node in it and `m_cache_size = 0`; the backend calls it makes are one
`write(id, payload)` per node with `synctime != 0`, in LRU order, and nothing else, so that
every dirty node is written exactly once and no clean node is written. -/
theorem destroy_flushes_dirty (c : cache_t) (hwf : c.wf) :
    c.destroy = some (⟨0, 0, []⟩, flushes c.m_lru) ∧
    ∀ e ∈ c.m_lru, (flushes c.m_lru).filter (backend_call.is_write_to e.m_id) =
      if e.m_synctime ≠ 0 then [backend_call.write e.m_id e.m_data] else [] := by
  obtain ⟨hu, hh, hacc, hlt⟩ := hwf
  refine ⟨?_, fun e he => writes_to_flushes c.m_lru hu e he⟩
  obtain ⟨c1, w, h⟩ := resize_loop_total 0 c.m_lru.length { c with m_max_cache_size := 0 } hh
  have h2 : ({ c with m_max_cache_size := 0 } : cache_t).resize 0 = some (c1, w) := h
  obtain ⟨k, hk, h3, h4, h5, h6, -, -, h8⟩ := resize_spec _ _ _ _ h2
  dsimp only at hk h3 h4 h5 h6 h8
  have hkl : k = c.m_lru.length := by
    by_contra hne
    have := h8 (by omega)
    rw [h4] at this
    simp at this
  subst hkl
  simp only [List.drop_length, List.take_length] at h3 h5 h6
  unfold cache_t.destroy
  rw [h2, h6]
  rcases c1 with ⟨cs1, mx1, l1⟩
  simp only at h3 h4 h5
  rw [h3, h4, h5, evicted_size_eq _ _ (by omega) hlt, hacc]
  simp

/-- C9 (witness). A shard with one dirty and one clean entry is destroyed. -/
theorem destroy_flushes_dirty_witness :
    (⟨5, 1000, [mk_node 0 id_a [1, 2, 3] 0 150 true, mk_node 1 id_b [4, 5] 170 0 false]⟩ :
      cache_t).wf ∧
    ((⟨5, 1000, [mk_node 0 id_a [1, 2, 3] 0 150 true, mk_node 1 id_b [4, 5] 170 0 false]⟩ :
        cache_t).destroy = some (⟨0, 0, []⟩, [backend_call.write id_a [1, 2, 3]])) :=
  ⟨by decide,
   (destroy_flushes_dirty
     ⟨5, 1000, [mk_node 0 id_a [1, 2, 3] 0 150 true, mk_node 1 id_b [4, 5] 170 0 false]⟩
     (by decide)).1⟩

theorem set_begin_none (less : data_t → data_t → Bool) (linked : data_t → Bool) :
    ∀ (l : List data_t), set_begin less linked l = none ↔ ∀ e ∈ l, linked e = false
  | [] => by simp [set_begin]
  | a :: l => by
    have ih := set_begin_none less linked l
    simp only [set_begin, List.mem_cons, forall_eq_or_imp]
    cases hrec : set_begin less linked l with
    | none =>
      have := ih.1 hrec
      cases ha : linked a
      · simpa using this
      · simp
    | some b =>
      have hne : ¬ ∀ e ∈ l, linked e = false := fun h => by
        rw [ih.2 h] at hrec
        exact absurd hrec (by simp)
      cases ha : linked a
      · simp [hne]
      · cases hl : less b a <;> simp [hl]

theorem set_begin_some (less : data_t → data_t → Bool) (linked : data_t → Bool)
    (key : data_t → Nat) (h1 : ∀ x y, less x y = true → key x ≤ key y)
    (h2 : ∀ x y, less x y = false → key y ≤ key x) :
    ∀ (l : List data_t) (b : data_t), set_begin less linked l = some b →
      b ∈ l ∧ linked b = true ∧ ∀ e ∈ l, linked e = true → key b ≤ key e
  | [], b, h => by simp [set_begin] at h
  | a :: l, b, h => by
    simp only [set_begin] at h
    cases hrec : set_begin less linked l with
    | none =>
      rw [hrec] at h
      have hnone := (set_begin_none less linked l).1 hrec
      cases ha : linked a
      · simp [ha] at h
      · simp only [ha, if_true, Option.some.injEq] at h
        subst h
        refine ⟨by simp, ha, ?_⟩
        intro e he hle
        rcases List.mem_cons.1 he with rfl | he
        · exact Nat.le_refl _
        · rw [hnone e he] at hle
          exact absurd hle (by simp)
    | some b0 =>
      rw [hrec] at h
      obtain ⟨hm, hl, hmin⟩ := set_begin_some less linked key h1 h2 l b0 hrec
      cases ha : linked a
      · simp only [ha, Bool.false_eq_true, if_false, Option.some.injEq] at h
        subst h
        refine ⟨by simp [hm], hl, ?_⟩
        intro e he hle
        rcases List.mem_cons.1 he with rfl | he
        · rw [ha] at hle
          exact absurd hle (by simp)
        · exact hmin e he hle
      · simp only [ha, if_true] at h
        cases hlt : less b0 a
        · simp only [hlt, Bool.false_eq_true, if_false, Option.some.injEq] at h
          subst h
          have hba : key a ≤ key b0 := h2 _ _ hlt
          refine ⟨by simp, ha, ?_⟩
          intro e he hle
          rcases List.mem_cons.1 he with rfl | he
          · exact Nat.le_refl _
          · exact Nat.le_trans hba (hmin e he hle)
        · simp only [hlt, if_true, Option.some.injEq] at h
          subst h
          refine ⟨by simp [hm], hl, ?_⟩
          intro e he hle
          rcases List.mem_cons.1 he with rfl | he
          · exact h1 _ _ hlt
          · exact hmin e he hle

theorem lifetime_less_le (x y : data_t) (h : lifetime_less x y = true) :
    x.m_lifetime ≤ y.m_lifetime := by
  unfold lifetime_less at h
  simp only [decide_eq_true_eq] at h
  omega

theorem lifetime_less_ge (x y : data_t) (h : lifetime_less x y = false) :
    y.m_lifetime ≤ x.m_lifetime := by
  unfold lifetime_less at h
  simp only [decide_eq_false_iff_not] at h
  omega

theorem synctime_less_le (x y : data_t) (h : synctime_less x y = true) :
    x.m_synctime ≤ y.m_synctime := by
  unfold synctime_less at h
  simp only [decide_eq_true_eq] at h
  omega

theorem synctime_less_ge (x y : data_t) (h : synctime_less x y = false) :
    y.m_synctime ≤ x.m_synctime := by
  unfold synctime_less at h
  simp only [decide_eq_false_iff_not] at h
  omega

theorem mem_flushes {l : List data_t} {b : backend_call} :
    b ∈ flushes l ↔ ∃ e ∈ l, e.m_synctime ≠ 0 ∧ b = backend_call.write e.m_id e.m_data := by
  unfold flushes
  simp only [List.mem_map, List.mem_filter, decide_eq_true_eq]
  constructor
  · rintro ⟨e, ⟨he, hd⟩, rfl⟩
    exact ⟨e, he, hd, rfl⟩
  · rintro ⟨e, he, hd, rfl⟩
    exact ⟨e, ⟨he, hd⟩, rfl⟩

theorem map_set_node {β : Type} (f : data_t → β) {a b : data_t} (h : f a = f b) :
    ∀ (l : List data_t), (set_node l a b).map f = l.map f
  | [] => rfl
  | e :: l => by
    simp only [set_node]
    split
    · rename_i hea
      simp [hea, h]
    · simp [map_set_node f h l]

theorem mem_set_node {a b e : data_t} :
    ∀ (l : List data_t), e ∈ set_node l a b → e = b ∨ e ∈ l
  | [] => by simp [set_node]
  | x :: l => by
    simp only [set_node]
    split
    · intro h
      rcases List.mem_cons.1 h with h | h
      · exact Or.inl h
      · exact Or.inr (List.mem_cons_of_mem _ h)
    · intro h
      rcases List.mem_cons.1 h with h | h
      · exact Or.inr (by simp [h])
      · rcases mem_set_node l h with h | h
        · exact Or.inl h
        · exact Or.inr (List.mem_cons_of_mem _ h)

theorem mem_set_node_of_ne {a b e : data_t} (hne : e ≠ a) :
    ∀ (l : List data_t), e ∈ l → e ∈ set_node l a b
  | [], h => by simp at h
  | x :: l, h => by
    simp only [set_node]
    split
    · rename_i hxa
      rcases List.mem_cons.1 h with h | h
      · exact absurd (h.trans hxa) hne
      · exact List.mem_cons_of_mem _ h
    · rcases List.mem_cons.1 h with h | h
      · simp [h]
      · exact List.mem_cons_of_mem _ (mem_set_node_of_ne hne l h)

theorem countP_set_node (p : data_t → Bool) {a b : data_t} (ha : p a = true)
    (hb : p b = false) : ∀ (l : List data_t), a ∈ l →
      (set_node l a b).countP p + 1 = l.countP p
  | [], h => by simp at h
  | x :: l, h => by
    simp only [set_node]
    split
    · rename_i hxa
      subst hxa
      simp [List.countP_cons, ha, hb]
    · rename_i hxa
      have hl : a ∈ l := by
        rcases List.mem_cons.1 h with h | h
        · exact absurd h.symm hxa
        · exact h
      have := countP_set_node p ha hb l hl
      simp only [List.countP_cons]
      omega

theorem write_ok_entry (c c1 : cache_t) (timeout now addr : Nat) (digest : List Byte → raw_id)
    (id : raw_id) (io : dnet_io_attr) (data : List Byte) (disk : disk_reply)
    (w : List backend_call) (grow_ok : Bool) (hwf : c.wf) (hclock : clock_ok timeout now io.start)
    (h : c.write timeout now addr digest id io data disk grow_ok
      = some (Except.ok (0, c1, w))) :
    ∃ (it1 : data_t) (rest : List data_t),
      c1.m_lru = rest ++ [it1] ∧ (∀ e ∈ rest, e.m_id ≠ id ∧ e.hooks_ok) ∧ it1.m_id = id ∧
      c1.find id = some it1 ∧
      (it1.life_linked = true ↔ io.start ≠ 0) ∧
      (io.start ≠ 0 → it1.m_lifetime = now + io.start) ∧
      (it1.sync_linked = true ↔ it1.m_synctime ≠ 0) ∧
      (io.flags.cache_only = false → it1.m_synctime ≠ 0 ∧
        (it1.m_synctime = now + timeout ∨
          ∃ it, c.find id = some it ∧ it.m_synctime = it1.m_synctime)) ∧
      (it1.m_remove_from_disk = true ↔
        ((∃ it, c.find id = some it ∧ it.m_remove_from_disk = true) ∨
         (c.find id = none ∧ io.flags.cache_remove_from_disk = true))) := by
  obtain ⟨hu, hh, -, -⟩ := hwf
  obtain ⟨hpos, hto, hst⟩ := hclock
  obtain ⟨it, it1, payload, rest, h1, hsub, hrest, hcase, hid, -, -, ht, -⟩ :=
    write_ok_shape _ _ _ _ _ _ _ _ _ _ _ _ hu h
  obtain ⟨hit1, -, -, -⟩ := touch_spec _ _ _ _ _ ht
  simp only at hit1
  have hid1 : it1.m_id = id := by rw [hit1]; exact hid
  have hitok : it.hooks_ok ∧ (it.m_remove_from_disk = true ↔
      ((∃ it0, c.find id = some it0 ∧ it0.m_remove_from_disk = true) ∨
       (c.find id = none ∧ io.flags.cache_remove_from_disk = true))) := by
    rcases hcase with hf | ⟨hf, -, d, uf, ts, hfresh, -⟩
    · refine ⟨hh it (find_some hf).1, ?_⟩
      constructor
      · intro hr
        exact Or.inl ⟨it, hf, hr⟩
      · rintro (⟨it0, hf0, hr⟩ | ⟨hf0, -⟩)
        · rw [hf] at hf0
          simp only [Option.some.injEq] at hf0
          rw [hf0]; exact hr
        · rw [hf] at hf0
          exact absurd hf0 (by simp)
    · subst hfresh
      refine ⟨by simp [fresh_node, data_t.create, data_t.hooks_ok], ?_⟩
      simp [fresh_node, data_t.create, hf]
  obtain ⟨⟨hlife, hsync⟩, hrfd⟩ := hitok
  have hadd1 : add64 io.start now = now + io.start := by
    rw [add64_of_lt (by omega)]; omega
  have hadd2 : add64 now timeout = now + timeout := add64_of_lt hto
  refine ⟨it1, rest, h1, ?_, hid1, find_append_last hrest hid1 c1 h1, ?_, ?_, ?_, ?_, ?_⟩
  · intro e he
    exact ⟨hrest e he, hh e (hsub.subset he)⟩
  · rw [hit1]
    simp only
    by_cases hs : io.start = 0
    · simp only [hs, ne_eq, not_true_eq_false, if_false, iff_false]
      by_cases hl : it.m_lifetime = 0
      · simp only [hl, not_true_eq_false, if_false, Bool.not_eq_true]
        cases hb : it.life_linked
        · rfl
        · exact absurd (hlife.1 hb) (by simp [hl])
      · simp [hl]
    · simp [hs]
  · intro hs
    rw [hit1]
    simp [hs, hadd1]
  · rw [hit1]
    simp only
    by_cases hc : it.m_synctime = 0 ∧ io.flags.cache_only = false
    · simp only [hc, and_self, if_true, hadd2, true_iff]
      omega
    · rw [if_neg hc, if_neg hc]
      exact hsync
  · intro hco
    rw [hit1]
    simp only
    by_cases hz : it.m_synctime = 0
    · simp only [hz, hco, and_self, if_true, hadd2]
      exact ⟨by omega, Or.inl trivial⟩
    · simp only [hz, false_and, if_false]
      refine ⟨hz, Or.inr ?_⟩
      rcases hcase with hf | ⟨-, -, d, uf, ts, hfresh, -⟩
      · exact ⟨it, hf, rfl⟩
      · subst hfresh
        exact absurd rfl hz
  · rw [hit1]
    exact hrfd

theorem pass_safe_after_write {it1 : data_t} {rest : List data_t} {start now : Nat}
    (hrest : ∀ e ∈ rest, e.hooks_ok) (hl : it1.life_linked = true ↔ start ≠ 0)
    (hlt : start ≠ 0 → it1.m_lifetime = now + start) (hpos : 0 < now)
    (hs : it1.sync_linked = true ↔ it1.m_synctime ≠ 0) :
    ∀ e ∈ rest ++ [it1], e.life_linked = true → e.hooks_ok := by
  intro e he hlinked
  rcases List.mem_append.1 he with he | he
  · exact hrest e he
  · simp only [List.mem_singleton] at he
    subst he
    refine ⟨⟨fun _ => ?_, fun _ => hlinked⟩, hs⟩
    rw [hlt (hl.1 hlinked)]
    omega

theorem sum_take_add_drop (l : List data_t) (k : Nat) :
    ((l.take k).map data_t.size).sum + ((l.drop k).map data_t.size).sum =
      (l.map data_t.size).sum := by
  rw [← List.sum_append, ← List.map_append, List.take_append_drop]

theorem evicted_size_take (l : List data_t) (k cs : Nat) (hacc : cs = (l.map data_t.size).sum)
    (hlt : cs < U64) :
    evicted_size cs (l.take k) = ((l.drop k).map data_t.size).sum := by
  have := sum_take_add_drop l k
  rw [evicted_size_eq _ _ (by omega) hlt]
  omega

theorem erase_element_within (c c1 : cache_t) (obj : data_t) (w : List backend_call) (M : Nat)
    (hM : M < U64) (h : c.erase_element obj = some (c1, w)) (hmem : obj ∈ c.m_lru)
    (hin : c.within M) : c1.within M ∧ c1.m_lru = c.m_lru.erase obj := by
  rw [erase_element_eq] at h
  split at h
  · simp only [Option.some.injEq, Prod.mk.injEq] at h
    obtain ⟨rfl, -⟩ := h
    obtain ⟨h1, h2, h3⟩ := hin
    have hs := sum_erase hmem
    have hle := size_le_sum hmem
    refine ⟨⟨h1, ?_, ?_⟩, rfl⟩
    · simp only
      rw [sub64_of_le (by omega) (by omega)]
      omega
    · simp only
      rw [sub64_of_le (by omega) (by omega)]
      omega
  · simp at h

theorem push_within (l : List data_t) (cs M k len r : Nat) (e : data_t)
    (hM : M < 2 ^ 62) (hacc : cs = (l.map data_t.size).sum) (hcap : cs ≤ M) (hlen : len ≤ M)
    (he : e.size = len) (hr1 : len ≤ r) (hr2 : r ≤ 2 * M)
    (h : (k = 0 ∧ add64 cs len ≤ M) ∨
      (add64 cs len > M ∧ (k < l.length → M > add64 r (evicted_size cs (l.take k))))) :
    add64 (evicted_size cs (l.take k)) len = ((l.drop k ++ [e]).map data_t.size).sum ∧
    add64 (evicted_size cs (l.take k)) len ≤ M := by
  have hU : U64 = 2 ^ 64 := by unfold U64; norm_num
  have hM2 : (2:Nat) ^ 62 * 4 = 2 ^ 64 := by norm_num
  have hev := evicted_size_take l k cs hacc (by omega)
  have hsplit := sum_take_add_drop l k
  have hsum : ((l.drop k ++ [e]).map data_t.size).sum = ((l.drop k).map data_t.size).sum + len := by
    simp [he]
  rw [hev, hsum, add64_of_lt (by omega)]
  refine ⟨rfl, ?_⟩
  rcases h with ⟨rfl, hle⟩ | ⟨hgt, hexit⟩
  · simp only [List.drop_zero]
    rw [add64_of_lt (by omega)] at hle
    omega
  · by_cases hkl : k < l.length
    · have := hexit hkl
      rw [hev, add64_of_lt (by omega)] at this
      omega
    · have : l.drop k = [] := List.drop_eq_nil_of_le (by omega)
      simp only [this, List.map_nil, List.sum_nil]
      omega

theorem write_lookup_within (c c0 : cache_t) (addr now : Nat) (id : raw_id) (io : dnet_io_attr)
    (disk : disk_reply) (r : Sum Int data_t) (w0 : List backend_call) (M : Nat)
    (hM : M < 2 ^ 62) (hfit : disk.data.length ≤ M)
    (h : c.write_lookup addr now id io disk = some (r, c0, w0)) (hin : c.within M) :
    c0.within M ∧ ∀ it, r = Sum.inr it → it ∈ c0.m_lru ∧
      (c.find id = some it ∨ it.size = 0 ∨ it.size = disk.data.length) := by
  cases r with
  | inl err =>
    refine ⟨?_, fun it hit => by simp at hit⟩
    unfold cache_t.write_lookup at h
    split at h
    · simp at h
    · unfold cache_t.write_miss at h
      split at h
      · simp only [Option.some.injEq, Prod.mk.injEq] at h
        rw [← h.2.1]; exact hin
      · split at h
        · simp at h
        · rename_i it1 err1 c1 w1 hpop
          split at h
          · simp only [Option.some.injEq, Prod.mk.injEq] at h
            rw [← h.2.1]
            rename_i herr
            split at hpop
            · obtain ⟨he, hp⟩ := populate_from_disk_spec _ _ _ _ _ _ _ _ _ _ hpop
              rcases hp with ⟨-, -, rfl, -⟩ | ⟨hd0, -⟩
              · exact hin
              · rw [he, hd0] at herr
                exact absurd rfl herr.1
            · simp only [Option.some.injEq, Prod.mk.injEq] at hpop
              rw [← hpop.2.2.1]; exact hin
          · split at h
            · simp at h
            · split at h <;> simp at h
  | inr it =>
    rcases write_lookup_spec _ _ _ _ _ _ _ _ _ h with ⟨hf, rfl, -⟩ |
      ⟨hf, -, k, d, uf, ts, hk, hit, h1, h2, h3, -, -, hd, h6⟩
    · refine ⟨hin, fun it2 h2 => ?_⟩
      simp only [Sum.inr.injEq] at h2
      subst h2
      exact ⟨(find_some hf).1, Or.inl hf⟩
    · obtain ⟨hmax, hacc, hcap⟩ := hin
      have hsz : it.size = d.length := by rw [hit]; rfl
      have hdl : d.length ≤ M := by
        rcases hd with rfl | ⟨-, -, rfl⟩
        · simp
        · exact hfit
      rw [hmax] at h6
      obtain ⟨ha, hb⟩ := push_within c.m_lru c.m_cache_size M k d.length d.length it hM hacc hcap
        hdl hsz (Nat.le_refl _) (by omega) h6
      refine ⟨⟨h2.trans hmax, by rw [h3, h1]; exact ha, by rw [h3]; exact hb⟩, fun it2 h2 => ?_⟩
      simp only [Sum.inr.injEq] at h2
      subst h2
      refine ⟨by rw [h1]; simp, Or.inr ?_⟩
      rcases hd with rfl | ⟨-, -, rfl⟩
      · left; simpa using hsz
      · right; exact hsz

theorem write_data_length (raw data p : List Byte) (app : Bool) (off sz ns : Nat)
    (h : write_data raw app off sz ns data = some p)
    (happ : app = true → ns = raw.length + sz) : p.length = ns := by
  unfold write_data at h
  cases app with
  | true =>
    simp only [if_true] at h
    split at h
    · simp only [Option.some.injEq] at h
      rw [← h, happ rfl, List.length_append, List.length_take]
      omega
    · simp at h
  | false =>
    simp only [Bool.false_eq_true, if_false] at h
    split at h
    · rename_i hc
      simp only [Option.some.injEq] at h
      rw [← h]
      simp only [List.length_append, List.length_take, List.length_drop, List.length_replicate]
      omega
    · simp at h

theorem write_entry_within (c c2 : cache_t) (t now : Nat) (it : data_t) (io : dnet_io_attr)
    (data : List Byte) (w : List backend_call) (grow_ok : Bool) (M : Nat) (hM : M < 2 ^ 62)
    (hfit : write_fits M io it.size) (hmem : it ∈ c.m_lru)
    (h : c.write_entry t now it io data grow_ok = some (Except.ok (c2, w))) (hin : c.within M) :
    c2.within M := by
  obtain ⟨k, payload, it1, hk, hwd, ht, h1, h2, h3, -, -, h6⟩ := write_entry_spec _ _ _ _ _ _ _ _ _ h
  obtain ⟨hmax, hacc, hcap⟩ := hin
  have hU : U64 = 2 ^ 64 := by unfold U64; norm_num
  have hM2 : (2:Nat) ^ 62 * 4 = 2 ^ 64 := by norm_num
  have hs := sum_erase hmem
  have hle := size_le_sum hmem
  have hn : new_size it io = (if io.flags.append = true then it.size + io.size
      else io.offset + io.size) ∧ new_size it io ≤ M := by
    unfold write_fits at hfit
    unfold new_size
    split
    · rename_i ha
      rw [if_pos ha] at hfit
      rw [add64_of_lt (by omega)]
      exact ⟨rfl, hfit⟩
    · rename_i ha
      rw [if_neg ha] at hfit
      rw [add64_of_lt (by omega)]
      exact ⟨rfl, hfit⟩
  obtain ⟨hit1, -⟩ := touch_spec _ _ _ _ _ ht
  have hsz1 : it1.size = new_size it io := by
    rw [hit1]
    show payload.length = _
    apply write_data_length _ _ _ _ _ _ _ hwd
    intro ha
    rw [hn.1, if_pos ha]
    rfl
  have hsub : sub64 c.m_cache_size it.size = ((c.m_lru.erase it).map data_t.size).sum := by
    rw [sub64_of_le (by omega) (by omega)]
    omega
  have hmul : mul64 (new_size it io) 2 = new_size it io * 2 := by
    unfold mul64
    exact Nat.mod_eq_of_lt (by omega)
  rw [hmax, hmul] at h6
  obtain ⟨ha, hb⟩ := push_within (c.m_lru.erase it) (sub64 c.m_cache_size it.size) M k
    (new_size it io) (new_size it io * 2) it1 hM hsub (by omega) hn.2 hsz1 (by omega) (by omega)
    h6
  exact ⟨h2.trans hmax, by rw [h3, h1]; exact ha, by rw [h3]; exact hb⟩

theorem write_within (c c1 : cache_t) (t now addr : Nat) (digest : List Byte → raw_id)
    (id : raw_id) (io : dnet_io_attr) (data : List Byte) (disk : disk_reply) (err : Int)
    (w : List backend_call) (grow_ok : Bool) (M : Nat) (hM : M < 2 ^ 62)
    (hdisk : disk.data.length ≤ M)
    (hfit : ∀ it c0 w0, c.write_lookup addr now id io disk = some (Sum.inr it, c0, w0) →
      write_fits M io it.size)
    (h : c.write t now addr digest id io data disk grow_ok = some (Except.ok (err, c1, w)))
    (hin : c.within M) :
    c1.within M := by
  unfold cache_t.write at h
  split at h
  · simp at h
  · rename_i e c0 w0 hl
    simp only [Option.some.injEq, Except.ok.injEq, Prod.mk.injEq] at h
    rw [← h.2.1]
    exact (write_lookup_within _ _ _ _ _ _ _ _ _ M hM hdisk hl hin).1
  · rename_i it c0 w0 hl
    obtain ⟨hin0, hit⟩ := write_lookup_within _ _ _ _ _ _ _ _ _ M hM hdisk hl hin
    split at h
    · simp only [Option.some.injEq, Except.ok.injEq, Prod.mk.injEq] at h
      rw [← h.2.1]
      exact hin0
    · split at h
      · simp at h
      · simp at h
      · rename_i c2 w2 he
        simp only [Option.some.injEq, Except.ok.injEq, Prod.mk.injEq] at h
        rw [← h.2.1]
        exact write_entry_within _ _ _ _ _ _ _ _ _ M hM (hfit it c0 w0 hl) (hit it rfl).1 he hin0

theorem sum_move_back {l : List data_t} {it : data_t} (hit : it ∈ l) :
    ((l.erase it ++ [it]).map data_t.size).sum = (l.map data_t.size).sum := by
  have := sum_erase hit
  simp only [List.map_append, List.sum_append, List.map_cons, List.map_nil, List.sum_cons,
    List.sum_nil]
  omega

theorem read_within (c c1 : cache_t) (addr now : Nat) (id : raw_id) (io io1 : dnet_io_attr)
    (disk : disk_reply) (d : Option (List Byte)) (w : List backend_call) (M : Nat)
    (hM : M < 2 ^ 62) (hdisk : disk.data.length ≤ M)
    (h : c.read addr now id io disk = some (d, io1, c1, w)) (hin : c.within M) :
    c1.within M := by
  unfold cache_t.read at h
  have key : ∀ (it : Option data_t) (c0 : cache_t), c0.within M →
      (∀ e, it = some e → e ∈ c0.m_lru) →
      (match it with
        | none => c0
        | some e => { c0 with m_lru := c0.m_lru.erase e ++ [e] }).within M := by
    intro it c0 h0 hm
    cases it with
    | none => exact h0
    | some e =>
      obtain ⟨a, b, cc⟩ := h0
      refine ⟨a, ?_, cc⟩
      simp only
      rw [sum_move_back (hm e rfl)]
      exact b
  split at h
  · simp at h
  · rename_i c0 w0 hl
    simp only [Option.some.injEq, Prod.mk.injEq] at h
    rw [← h.2.2.1]
    split at hl
    · simp at hl
    · split at hl
      · split at hl
        · simp at hl
        · rename_i it err c2 w2 hpop
          simp only [Option.some.injEq, Prod.mk.injEq] at hl
          obtain ⟨rfl, rfl, -⟩ := hl
          obtain ⟨-, hp⟩ := populate_from_disk_spec _ _ _ _ _ _ _ _ _ _ hpop
          rcases hp with ⟨-, -, rfl, -⟩ | ⟨-, e, k, he, -⟩
          · exact hin
          · simp at he
      · simp only [Option.some.injEq, Prod.mk.injEq] at hl
        rw [← hl.2.1]; exact hin
  · rename_i it c0 w0 hl
    simp only [Option.some.injEq, Prod.mk.injEq] at h
    rw [← h.2.2.1]
    split at hl
    · rename_i e hf
      simp only [Option.some.injEq, Prod.mk.injEq] at hl
      obtain ⟨rfl, rfl, -⟩ := hl
      exact key (some e) c hin (fun x hx => by
        simp only [Option.some.injEq] at hx
        subst hx
        exact (find_some hf).1)
    · split at hl
      · split at hl
        · simp at hl
        · rename_i it2 err c2 w2 hpop
          simp only [Option.some.injEq, Prod.mk.injEq] at hl
          obtain ⟨rfl, rfl, -⟩ := hl
          obtain ⟨-, hp⟩ := populate_from_disk_spec _ _ _ _ _ _ _ _ _ _ hpop
          rcases hp with ⟨-, he, -⟩ | ⟨-, e, k, he, hk, hE, h1, h2, h3, -, -, h6⟩
          · simp at he
          · simp only [Option.some.injEq] at he
            subst he
            obtain ⟨hmax, hacc, hcap⟩ := hin
            have hsz : it.size = disk.data.length := by rw [hE]; rfl
            rw [hmax] at h6
            obtain ⟨ha, hb⟩ := push_within c.m_lru c.m_cache_size M k disk.data.length
              disk.data.length it hM hacc hcap hdisk hsz (Nat.le_refl _) (by omega) h6
            apply key (some it) c2 ⟨h2.trans hmax, by rw [h3, h1]; exact ha, by rw [h3]; exact hb⟩
            intro x hx
            simp only [Option.some.injEq] at hx
            subst hx
            rw [h1]; simp
      · simp at hl

theorem mem_set_node_self {a b : data_t} : ∀ (l : List data_t), a ∈ l → b ∈ set_node l a b
  | [], h => by simp at h
  | x :: l, h => by
    simp only [set_node]
    split
    · simp
    · rename_i hxa
      rcases List.mem_cons.1 h with h | h
      · exact absurd h.symm hxa
      · exact List.mem_cons_of_mem _ (mem_set_node_self l h)

theorem set_node_within (c : cache_t) (a b : data_t) (M : Nat) (hsz : a.size = b.size)
    (hin : c.within M) : ({ c with m_lru := set_node c.m_lru a b } : cache_t).within M := by
  obtain ⟨h1, h2, h3⟩ := hin
  refine ⟨h1, ?_, h3⟩
  simp only
  rw [map_set_node data_t.size hsz]
  exact h2

theorem remove_within (c c1 : cache_t) (id : raw_id) (io : dnet_io_attr) (local_err err : Int)
    (w : List backend_call) (M : Nat) (hM : M < U64)
    (h : c.remove id io local_err = some (err, c1, w)) (hin : c.within M) : c1.within M := by
  unfold cache_t.remove at h
  split at h
  · simp at h
  · rename_i rfd err0 c0 w0 hl
    have hc : c1 = c0 := by
      split at h <;> simp only [Option.some.injEq, Prod.mk.injEq] at h <;> exact h.2.1.symm
    rw [hc]
    split at hl
    · rename_i it hf
      split at hl
      · simp at hl
      · rename_i it1 hit1
        split at hl
        · simp at hl
        · rename_i c2 w2 he
          simp only [Option.some.injEq, Prod.mk.injEq] at hl
          rw [← hl.2.2.1]
          have hsz : it.size = it1.size := by
            split at hit1
            · split at hit1
              · simp only [Option.some.injEq] at hit1
                rw [← hit1]; rfl
              · simp at hit1
            · simp only [Option.some.injEq] at hit1
              rw [hit1]
          exact (erase_element_within _ _ _ _ M hM he
            (mem_set_node_self _ (find_some hf).1) (set_node_within c it it1 M hsz hin)).1
    · simp only [Option.some.injEq, Prod.mk.injEq] at hl
      rw [← hl.2.2.1]; exact hin

theorem life_loop_spec :
    ∀ (n : Nat) (clock : Nat → Nat) (c : cache_t) (rm : List raw_id), c.m_lru.length ≤ n →
      (∀ e ∈ c.m_lru, e.life_linked = true → e.hooks_ok) →
      ∃ c1 rm1 w, cache_t.life_loop n clock c rm = some (c1, rm1, w) ∧
        c1.m_lru.Sublist c.m_lru ∧
        c1.m_max_cache_size = c.m_max_cache_size ∧
        (∀ e ∈ c.m_lru, e ∈ c1.m_lru ∨
          ((e.m_synctime ≠ 0 → backend_call.write e.m_id e.m_data ∈ w) ∧
           (e.m_remove_from_disk = true → e.m_id ∈ rm1))) ∧
        (∀ e ∈ c1.m_lru, e.life_linked = true → ∃ k, clock k < e.m_lifetime) ∧
        (∀ b ∈ w, ∃ e ∈ c.m_lru, e.life_linked = true ∧ (∃ k, e.m_lifetime ≤ clock k) ∧
          e.m_synctime ≠ 0 ∧ b = backend_call.write e.m_id e.m_data) ∧
        (∀ i ∈ rm1, i ∈ rm ∨ ∃ e ∈ c.m_lru, e.life_linked = true ∧
          (∃ k, e.m_lifetime ≤ clock k) ∧ e.m_remove_from_disk = true ∧ i = e.m_id) ∧
        (∀ i ∈ rm, i ∈ rm1) := by
  intro n
  induction n with
  | zero =>
    intro clock c rm hlen _
    have hnil : c.m_lru = [] := List.length_eq_zero.1 (by omega)
    refine ⟨c, rm, [], rfl, List.Sublist.refl _, rfl, ?_, ?_, ?_, ?_, fun i hi => hi⟩
    · intro e he; exact Or.inl he
    · intro e he; rw [hnil] at he; simp at he
    · intro b hb; simp at hb
    · intro i hi; exact Or.inl hi
  | succ n ih =>
    intro clock c rm hlen hok
    have hstop : (∀ e ∈ c.m_lru, e.life_linked = true → clock 0 < e.m_lifetime) →
        ∃ c1 rm1 w, some (c, rm, ([] : List backend_call)) = some (c1, rm1, w) ∧
        c1.m_lru.Sublist c.m_lru ∧
        c1.m_max_cache_size = c.m_max_cache_size ∧
        (∀ e ∈ c.m_lru, e ∈ c1.m_lru ∨
          ((e.m_synctime ≠ 0 → backend_call.write e.m_id e.m_data ∈ w) ∧
           (e.m_remove_from_disk = true → e.m_id ∈ rm1))) ∧
        (∀ e ∈ c1.m_lru, e.life_linked = true → ∃ k, clock k < e.m_lifetime) ∧
        (∀ b ∈ w, ∃ e ∈ c.m_lru, e.life_linked = true ∧ (∃ k, e.m_lifetime ≤ clock k) ∧
          e.m_synctime ≠ 0 ∧ b = backend_call.write e.m_id e.m_data) ∧
        (∀ i ∈ rm1, i ∈ rm ∨ ∃ e ∈ c.m_lru, e.life_linked = true ∧
          (∃ k, e.m_lifetime ≤ clock k) ∧ e.m_remove_from_disk = true ∧ i = e.m_id) ∧
        (∀ i ∈ rm, i ∈ rm1) := by
      intro hno
      refine ⟨c, rm, [], rfl, List.Sublist.refl _, rfl, fun e he => Or.inl he,
        fun e he hl => ⟨0, hno e he hl⟩, ?_, fun i hi => Or.inl hi, fun i hi => hi⟩
      intro b hb; simp at hb
    simp only [cache_t.life_loop]
    cases hb : set_begin lifetime_less (fun e => e.life_linked) c.m_lru with
    | none =>
      apply hstop
      intro e he hl
      have := (set_begin_none _ _ _).1 hb e he
      simp only at this
      rw [this] at hl
      exact absurd hl (by simp)
    | some it =>
      obtain ⟨hmem, hlinked, hmin⟩ := set_begin_some lifetime_less (fun e => e.life_linked)
        data_t.m_lifetime lifetime_less_le lifetime_less_ge _ _ hb
      by_cases hgt : it.m_lifetime > clock 0
      · simp only [hgt, if_true]
        apply hstop
        intro e he hl
        have := hmin e he hl
        omega
      · simp only [hgt, if_false, erase_element_eq, if_pos (hok it hmem hlinked)]
        obtain ⟨c1, rm1, w1, hrec, h1, h2, h3, h4, h5, h6, h7⟩ :=
          ih (fun k => clock (k + 1))
            ⟨sub64 c.m_cache_size it.size, c.m_max_cache_size, c.m_lru.erase it⟩
            (if it.m_remove_from_disk = true then rm ++ [it.m_id] else rm)
            (by
              simp only
              rw [List.length_erase_of_mem hmem]
              omega)
            (fun e he => hok e (List.mem_of_mem_erase he))
        rw [hrec]
        simp only at h1 h2 h3 h4 h5 h6 h7
        refine ⟨c1, rm1, flushes [it] ++ w1, rfl, h1.trans (List.erase_sublist _ _), h2, ?_, ?_,
          ?_, ?_, ?_⟩
        · intro e he
          by_cases hei : e = it
          · right
            subst hei
            constructor
            · intro hd
              exact List.mem_append_left _ (mem_flushes.2 ⟨e, by simp, hd, rfl⟩)
            · intro hr
              apply h7
              simp [hr]
          · rcases h3 e ((List.mem_erase_of_ne hei).2 he) with h | ⟨ha, hb2⟩
            · exact Or.inl h
            · exact Or.inr ⟨fun hd => List.mem_append_right _ (ha hd), hb2⟩
        · intro e he hl
          obtain ⟨k, hk⟩ := h4 e he hl
          exact ⟨k + 1, hk⟩
        · intro b hbm
          rcases List.mem_append.1 hbm with hbm | hbm
          · obtain ⟨e, he, hd, rfl⟩ := mem_flushes.1 hbm
            simp only [List.mem_singleton] at he
            subst he
            exact ⟨e, hmem, hlinked, ⟨0, by omega⟩, hd, rfl⟩
          · obtain ⟨e, he, hl, ⟨k, hk⟩, hd, rfl⟩ := h5 b hbm
            exact ⟨e, List.mem_of_mem_erase he, hl, ⟨k + 1, hk⟩, hd, rfl⟩
        · intro i hi
          rcases h6 i hi with h | ⟨e, he, hl, ⟨k, hk⟩, hr, rfl⟩
          · split at h
            · rename_i hr
              rcases List.mem_append.1 h with h | h
              · exact Or.inl h
              · simp only [List.mem_singleton] at h
                exact Or.inr ⟨it, hmem, hlinked, ⟨0, by omega⟩, hr, h⟩
            · exact Or.inl h
          · exact Or.inr ⟨e, List.mem_of_mem_erase he, hl, ⟨k + 1, hk⟩, hr, rfl⟩
        · intro i hi
          apply h7
          split
          · exact List.mem_append_left _ hi
          · exact hi

theorem sync_loop_spec :
    ∀ (n : Nat) (clock : Nat → Nat) (c : cache_t),
      c.m_lru.countP (fun e => e.sync_linked) ≤ n →
      ∃ c1 w, cache_t.sync_loop n clock c = some (c1, w) ∧
        c1.m_max_cache_size = c.m_max_cache_size ∧ c1.m_cache_size = c.m_cache_size ∧
        c1.m_lru.map data_t.m_id = c.m_lru.map data_t.m_id ∧
        (∀ x ∈ c1.m_lru, ∃ e ∈ c.m_lru, x = e ∨ x = e.synced) ∧
        (∀ e ∈ c.m_lru, e ∈ c1.m_lru ∨
          (e.synced ∈ c1.m_lru ∧ backend_call.write e.m_id e.m_data ∈ w)) ∧
        (∀ e ∈ c1.m_lru, e.sync_linked = true → ∃ k, clock k < e.m_synctime) ∧
        (∀ b ∈ w, ∃ e ∈ c.m_lru, e.sync_linked = true ∧ (∃ k, e.m_synctime ≤ clock k) ∧
          b = backend_call.write e.m_id e.m_data) := by
  intro n
  have hstop : ∀ (clock : Nat → Nat) (c : cache_t),
      (∀ e ∈ c.m_lru, e.sync_linked = true → clock 0 < e.m_synctime) →
      ∃ c1 w, some (c, ([] : List backend_call)) = some (c1, w) ∧
        c1.m_max_cache_size = c.m_max_cache_size ∧ c1.m_cache_size = c.m_cache_size ∧
        c1.m_lru.map data_t.m_id = c.m_lru.map data_t.m_id ∧
        (∀ x ∈ c1.m_lru, ∃ e ∈ c.m_lru, x = e ∨ x = e.synced) ∧
        (∀ e ∈ c.m_lru, e ∈ c1.m_lru ∨
          (e.synced ∈ c1.m_lru ∧ backend_call.write e.m_id e.m_data ∈ w)) ∧
        (∀ e ∈ c1.m_lru, e.sync_linked = true → ∃ k, clock k < e.m_synctime) ∧
        (∀ b ∈ w, ∃ e ∈ c.m_lru, e.sync_linked = true ∧ (∃ k, e.m_synctime ≤ clock k) ∧
          b = backend_call.write e.m_id e.m_data) := by
    intro clock c hno
    refine ⟨c, [], rfl, rfl, rfl, rfl, fun x hx => ⟨x, hx, Or.inl rfl⟩, fun e he => Or.inl he,
      fun e he hl => ⟨0, hno e he hl⟩, ?_⟩
    intro b hb; simp at hb
  induction n with
  | zero =>
    intro clock c hcount
    simp only [cache_t.sync_loop]
    apply hstop
    intro e he hl
    have h0 : c.m_lru.countP (fun e => e.sync_linked) = 0 := by omega
    rw [List.countP_eq_zero] at h0
    exact absurd hl (h0 e he)
  | succ n ih =>
    intro clock c hcount
    simp only [cache_t.sync_loop]
    cases hb : set_begin synctime_less (fun e => e.sync_linked) c.m_lru with
    | none =>
      apply hstop
      intro e he hl
      have := (set_begin_none _ _ _).1 hb e he
      simp only at this
      rw [this] at hl
      exact absurd hl (by simp)
    | some it =>
      obtain ⟨hmem, hlinked, hmin⟩ := set_begin_some synctime_less (fun e => e.sync_linked)
        data_t.m_synctime synctime_less_le synctime_less_ge _ _ hb
      by_cases hgt : it.m_synctime > clock 0
      · simp only [hgt, if_true]
        apply hstop
        intro e he hl
        have := hmin e he hl
        omega
      · have hse : sync_element it = some (it.synced, [backend_call.write it.m_id it.m_data]) := by
          simp [sync_element, hlinked, data_t.synced]
        simp only [hgt, if_false, hse]
        obtain ⟨c1, w1, hrec, h1, h2, h3, h4, h5, h6, h7⟩ := ih (fun k => clock (k + 1))
          ⟨c.m_cache_size, c.m_max_cache_size, set_node c.m_lru it it.synced⟩ (by
            have := countP_set_node (fun e => e.sync_linked) hlinked
              (show (it.synced).sync_linked = false from rfl) c.m_lru hmem
            simp only
            omega)
        rw [hrec]
        simp only at h1 h2 h3 h4 h5 h6 h7
        refine ⟨c1, [backend_call.write it.m_id it.m_data] ++ w1, rfl, h1, h2, ?_, ?_, ?_, ?_, ?_⟩
        · rw [h3]
          exact map_set_node data_t.m_id (show it.m_id = it.synced.m_id from rfl) _
        · intro x hx
          obtain ⟨e, he, hxe⟩ := h4 x hx
          rcases mem_set_node _ he with h | h
          · refine ⟨it, hmem, Or.inr ?_⟩
            rcases hxe with hxe | hxe
            · rw [hxe, h]
            · rw [hxe, h]; rfl
          · exact ⟨e, h, hxe⟩
        · intro e he
          by_cases hei : e = it
          · subst hei
            right
            refine ⟨?_, by simp⟩
            rcases h5 e.synced (mem_set_node_self _ hmem) with h | ⟨h, -⟩
            · exact h
            · exact h
          · rcases h5 e (mem_set_node_of_ne hei _ he) with h | ⟨ha, hb2⟩
            · exact Or.inl h
            · exact Or.inr ⟨ha, List.mem_append_right _ hb2⟩
        · intro e he hl
          obtain ⟨k, hk⟩ := h6 e he hl
          exact ⟨k + 1, hk⟩
        · intro b hbm
          rcases List.mem_append.1 hbm with hbm | hbm
          · simp only [List.mem_singleton] at hbm
            exact ⟨it, hmem, hlinked, ⟨0, by omega⟩, hbm⟩
          · obtain ⟨e, he, hl, ⟨k, hk⟩, rfl⟩ := h7 b hbm
            rcases mem_set_node _ he with h | h
            · rw [h] at hl
              exact absurd hl (by simp [data_t.synced])
            · exact ⟨e, h, hl, ⟨k + 1, hk⟩, rfl⟩

theorem life_check_spec (c : cache_t) (life_clock sync_clock : Nat → Nat)
    (hok : ∀ e ∈ c.m_lru, e.life_linked = true → e.hooks_ok) :
    ∃ c2 w, c.life_check life_clock sync_clock = some (c2, w) ∧
      c2.m_max_cache_size = c.m_max_cache_size ∧
      (∀ x ∈ c2.m_lru, ∃ e ∈ c.m_lru, (x = e ∨ x = e.synced) ∧
        (e.life_linked = true → ∃ k, life_clock k < e.m_lifetime)) ∧
      (∀ e ∈ c.m_lru,
        (e ∈ c2.m_lru ∧ (e.life_linked = true → ∃ k, life_clock k < e.m_lifetime)) ∨
        (e.synced ∈ c2.m_lru ∧ (e.life_linked = true → ∃ k, life_clock k < e.m_lifetime) ∧
          backend_call.write e.m_id e.m_data ∈ w) ∨
        ((e.m_synctime ≠ 0 → backend_call.write e.m_id e.m_data ∈ w) ∧
         (e.m_remove_from_disk = true → backend_call.remove e.m_id ∈ w))) ∧
      (∀ x ∈ c2.m_lru, x.sync_linked = true → ∃ k, sync_clock k < x.m_synctime) ∧
      (∀ b ∈ w,
        (∃ e ∈ c.m_lru, (e.m_synctime ≠ 0 ∨ e.sync_linked = true) ∧
          b = backend_call.write e.m_id e.m_data) ∨
        (∃ e ∈ c.m_lru, e.life_linked = true ∧ (∃ k, e.m_lifetime ≤ life_clock k) ∧
          e.m_remove_from_disk = true ∧ b = backend_call.remove e.m_id)) := by
  obtain ⟨c1, rm1, w1, h1, h2, h3, h4, h5, h6, h7, -⟩ :=
    life_loop_spec c.m_lru.length life_clock c [] (Nat.le_refl _) hok
  obtain ⟨c2, w2, g1, g2, -, -, g4, g5, g6, g7⟩ :=
    sync_loop_spec c1.m_lru.length sync_clock c1 (List.countP_le_length _)
  unfold cache_t.life_check
  rw [h1]
  simp only
  rw [g1]
  refine ⟨c2, _, rfl, g2.trans h3, ?_, ?_, g6, ?_⟩
  · intro x hx
    obtain ⟨e, he, hxe⟩ := g4 x hx
    exact ⟨e, h2.subset he, hxe, h5 e he⟩
  · intro e he
    rcases h4 e he with h | ⟨ha, hb⟩
    · rcases g5 e h with g | ⟨ga, gb⟩
      · exact Or.inl ⟨g, h5 e h⟩
      · exact Or.inr (Or.inl ⟨ga, h5 e h,
          List.mem_append_left _ (List.mem_append_right _ gb)⟩)
    · refine Or.inr (Or.inr ⟨fun hd => ?_, fun hr => ?_⟩)
      · exact List.mem_append_left _ (List.mem_append_left _ (ha hd))
      · exact List.mem_append_right _ (List.mem_map.2 ⟨e.m_id, hb hr, rfl⟩)
  · intro b hb
    rcases List.mem_append.1 hb with hb | hb
    · rcases List.mem_append.1 hb with hb | hb
      · obtain ⟨e, he, -, -, hd, rfl⟩ := h6 b hb
        exact Or.inl ⟨e, he, Or.inl hd, rfl⟩
      · obtain ⟨e, he, hl, -, rfl⟩ := g7 b hb
        exact Or.inl ⟨e, h2.subset he, Or.inr hl, rfl⟩
    · rw [List.mem_map] at hb
      obtain ⟨i, hi, rfl⟩ := hb
      rcases h7 i hi with h | ⟨e, he, hl, hk, hr, rfl⟩
      · simp at h
      · exact Or.inr ⟨e, he, hl, hk, hr, rfl⟩

theorem synced_id (e : data_t) : e.synced.m_id = e.m_id := rfl

theorem pass_entry_of_id {rest : List data_t} {it1 x e : data_t} {id : raw_id}
    (hrest : ∀ r ∈ rest, r.m_id ≠ id) (he : e ∈ rest ++ [it1])
    (hxe : x = e ∨ x = e.synced) (hx : x.m_id = id) : e = it1 := by
  have hid : e.m_id = id := by
    rcases hxe with h | h
    · rw [← h]; exact hx
    · rw [h, synced_id] at hx; exact hx
  rcases List.mem_append.1 he with h | h
  · exact absurd hid (hrest e h)
  · simpa using h

/-- C7. Flush property: after a write without `CACHE_ONLY` has succeeded at time `now`,
leaving the entry with payload `P`, a maintenance pass run on that state whose clock
readings in the sync loop are all `>= now + cache_sync_timeout` issues `write(id, P)` to
the backend; afterwards the entry is either still cached with payload `P` and clean (sync
pass) or gone (lifetime pass).  The shard satisfies the invariants of the data model, and
a sync deadline that the entry already carries is not later than the one a write at `now`
would set. -/
theorem flush_after_sync_timeout (c c1 : cache_t) (timeout now addr : Nat)
    (digest : List Byte → raw_id) (id : raw_id) (io : dnet_io_attr) (data : List Byte)
    (disk : disk_reply) (w : List backend_call) (grow_ok : Bool)
    (life_clock sync_clock : Nat → Nat)
    (hwf : c.wf) (hclock : clock_ok timeout now io.start)
    (hco : io.flags.cache_only = false)
    (hdl : ∀ it, c.find id = some it → it.m_synctime ≤ now + timeout)
    (h : c.write timeout now addr digest id io data disk grow_ok
      = some (Except.ok (0, c1, w)))
    (hlate : ∀ k, now + timeout ≤ sync_clock k) :
    ∃ P c2 w2, (c1.find id).map data_t.m_data = some P ∧
      c1.life_check life_clock sync_clock = some (c2, w2) ∧ backend_call.write id P ∈ w2 ∧
      ((∃ e, c2.find id = some e ∧ e.m_data = P ∧ e.m_synctime = 0 ∧ e.sync_linked = false) ∨
       c2.find id = none) := by
  obtain ⟨it1, rest, h1, hrest, hid1, hf, hl, hlt, hs, hsync, -⟩ :=
    write_ok_entry _ _ _ _ _ _ _ _ _ _ _ _ hwf hclock h
  obtain ⟨hne, hsrc⟩ := hsync hco
  have hsafe : ∀ e ∈ c1.m_lru, e.life_linked = true → e.hooks_ok := by
    rw [h1]
    exact pass_safe_after_write (fun e he => (hrest e he).2) hl hlt hclock.1 hs
  obtain ⟨c2, w2, hpass, -, hfrom, hto, hexit, -⟩ :=
    life_check_spec c1 life_clock sync_clock hsafe
  have hmem : it1 ∈ c1.m_lru := by rw [h1]; simp
  have hle : ∀ k, it1.m_synctime ≤ sync_clock k := by
    intro k
    have := hlate k
    rcases hsrc with h | ⟨it, hfi, h⟩
    · omega
    · have := hdl it hfi
      omega
  have hnot : it1 ∉ c2.m_lru := by
    intro hin
    obtain ⟨k, hk⟩ := hexit it1 hin (hs.2 hne)
    have := hle k
    omega
  refine ⟨it1.m_data, c2, w2, by simp [hf], hpass, ?_, ?_⟩
  · rw [← hid1]
    rcases hto it1 hmem with ⟨hin, -⟩ | ⟨-, -, hw⟩ | ⟨hw, -⟩
    · exact absurd hin hnot
    · exact hw
    · exact hw hne
  · cases hfind : c2.find id with
    | none => exact Or.inr rfl
    | some y =>
      left
      obtain ⟨hy, hyid⟩ := find_some hfind
      obtain ⟨e, he, hxe, -⟩ := hfrom y hy
      rw [h1] at he
      have heq := pass_entry_of_id (fun r hr => (hrest r hr).1) he hxe hyid
      subst heq
      rcases hxe with hxe | hxe
      · rw [hxe] at hy
        exact absurd hy hnot
      · exact ⟨y, rfl, by rw [hxe]; rfl, by rw [hxe]; rfl, by rw [hxe]; rfl⟩

/-- C8 (amended). TTL property: when `id` is absent from the shard, or cached with
`remove_from_disk` set, and `write(id, X, start = T != 0, CACHE_REMOVE_FROM_DISK)` has
succeeded at time `now`, a maintenance pass run on that state (no command in between)
whose clock readings in the lifetime loop are all `>= now + T` removes the entry from the
shard and calls `dnet_remove_local(id)`. -/
theorem ttl_expiry_cascades (c c1 : cache_t) (timeout now addr : Nat)
    (digest : List Byte → raw_id) (id : raw_id) (io : dnet_io_attr) (data : List Byte)
    (disk : disk_reply) (w : List backend_call) (grow_ok : Bool)
    (life_clock sync_clock : Nat → Nat)
    (hwf : c.wf) (hclock : clock_ok timeout now io.start)
    (hstart : io.start ≠ 0) (hflag : io.flags.cache_remove_from_disk = true)
    (hnew : ∀ it, c.find id = some it → it.m_remove_from_disk = true)
    (h : c.write timeout now addr digest id io data disk grow_ok
      = some (Except.ok (0, c1, w)))
    (hlate : ∀ k, now + io.start ≤ life_clock k) :
    ∃ c2 w2, c1.life_check life_clock sync_clock = some (c2, w2) ∧ c2.find id = none ∧
      backend_call.remove id ∈ w2 := by
  obtain ⟨it1, rest, h1, hrest, hid1, hf, hl, hlt, hs, -, hrfd⟩ :=
    write_ok_entry _ _ _ _ _ _ _ _ _ _ _ _ hwf hclock h
  have hsafe : ∀ e ∈ c1.m_lru, e.life_linked = true → e.hooks_ok := by
    rw [h1]
    exact pass_safe_after_write (fun e he => (hrest e he).2) hl hlt hclock.1 hs
  obtain ⟨c2, w2, hpass, -, hfrom, hto, -, -⟩ :=
    life_check_spec c1 life_clock sync_clock hsafe
  have hmem : it1 ∈ c1.m_lru := by rw [h1]; simp
  have hlinked : it1.life_linked = true := hl.2 hstart
  have hexp : ¬ ∃ k, life_clock k < it1.m_lifetime := by
    rintro ⟨k, hk⟩
    have := hlate k
    have := hlt hstart
    omega
  have hr : it1.m_remove_from_disk = true := by
    rw [hrfd]
    cases hfc : c.find id with
    | none => exact Or.inr ⟨rfl, hflag⟩
    | some it => exact Or.inl ⟨it, rfl, hnew it hfc⟩
  refine ⟨c2, w2, hpass, ?_, ?_⟩
  · cases hfind : c2.find id with
    | none => rfl
    | some y =>
      exfalso
      obtain ⟨hy, hyid⟩ := find_some hfind
      obtain ⟨e, he, hxe, hlive⟩ := hfrom y hy
      rw [h1] at he
      have heq := pass_entry_of_id (fun r hr => (hrest r hr).1) he hxe hyid
      subst heq
      exact hexp (hlive hlinked)
  · rw [← hid1]
    rcases hto it1 hmem with ⟨-, hlive⟩ | ⟨-, hlive, -⟩ | ⟨-, hw⟩
    · exact absurd (hlive hlinked) hexp
    · exact absurd (hlive hlinked) hexp
    · exact hw hr

/-- C7 (witness). A write at time 100 with a sync timeout of one second, then a pass at
time 101. -/
theorem flush_after_sync_timeout_witness :
    (cache_t.init 1000).wf ∧ clock_ok 1 100 (mk_io id_a { no_flags with cache := true } 0 3 0).start ∧
    (mk_io id_a { no_flags with cache := true } 0 3 0).flags.cache_only = false ∧
    (∀ it, (cache_t.init 1000).find id_a = some it → it.m_synctime ≤ 100 + 1) ∧
    (cache_t.init 1000).write 1 100 0 digest_id id_a
        (mk_io id_a { no_flags with cache := true } 0 3 0) [1, 2, 3] disk_enoent true
      = some (Except.ok (0, ⟨3, 1000, [mk_node 0 id_a [1, 2, 3] 0 101 false]⟩,
                         [backend_call.read id_a])) ∧
    (∀ k : Nat, 100 + 1 ≤ clock_at 101 k) ∧
    ∃ P c2 w2,
      ((⟨3, 1000, [mk_node 0 id_a [1, 2, 3] 0 101 false]⟩ : cache_t).find id_a).map
        data_t.m_data = some P ∧
      (⟨3, 1000, [mk_node 0 id_a [1, 2, 3] 0 101 false]⟩ : cache_t).life_check (clock_at 101) (clock_at 101)
        = some (c2, w2) ∧
      backend_call.write id_a P ∈ w2 ∧
      ((∃ e, c2.find id_a = some e ∧ e.m_data = P ∧ e.m_synctime = 0 ∧ e.sync_linked = false) ∨
       c2.find id_a = none) :=
  ⟨by decide, by decide, by decide, by decide, by decide,
   fun _ => (by decide : 100 + 1 ≤ 101),
   flush_after_sync_timeout (cache_t.init 1000) _ 1 100 0 digest_id id_a
     (mk_io id_a { no_flags with cache := true } 0 3 0) [1, 2, 3] disk_enoent
     [backend_call.read id_a] true (clock_at 101) (clock_at 101)
     (by decide) (by decide) (by decide) (by decide) (by decide)
     (fun _ => (by decide : 100 + 1 ≤ 101))⟩

/-- C8 (as stated, refuted), at two inputs.  First: `id_a` is already cached with
`remove_from_disk` unset; the write with `start = 1` and `CACHE_REMOVE_FROM_DISK` succeeds,
the pass at `now + 1` erases the entry and calls nothing.  Second: the entry is written
into an empty shard of 10 bytes, a write to another identifier evicts it, and the pass at
`now + 5` calls nothing. -/
theorem ttl_expiry_no_cascade_counterexample :
    ((⟨1, 1000, [mk_node 0 id_a [5] 0 0 false]⟩ : cache_t).write 1 100 3 digest_id id_a
        (mk_io id_a flags_ttl 0 1 1) [6] disk_enoent true
      = some (Except.ok (0, ⟨1, 1000, [mk_node 0 id_a [6] 101 0 false]⟩, [])) ∧
     (⟨1, 1000, [mk_node 0 id_a [6] 101 0 false]⟩ : cache_t).life_check (clock_at 101) (clock_at 101)
      = some (⟨0, 1000, []⟩, []) ∧
     backend_call.remove id_a ∉ ([] : List backend_call)) ∧
    ((cache_t.init 10).write 1 100 0 digest_id id_a
        (mk_io id_a flags_ttl 0 6 5)
        [1, 2, 3, 4, 5, 6] disk_enoent true
      = some (Except.ok (0, ⟨6, 10, [mk_node 0 id_a [1, 2, 3, 4, 5, 6] 105 0 true]⟩, [])) ∧
     (⟨6, 10, [mk_node 0 id_a [1, 2, 3, 4, 5, 6] 105 0 true]⟩ : cache_t).write 1 100 1
        digest_id id_b
        (mk_io id_b { no_flags with cache := true, cache_only := true } 0 6 0)
        [1, 2, 3, 4, 5, 6] disk_enoent true
      = some (Except.ok (0, ⟨6, 10, [mk_node 1 id_b [1, 2, 3, 4, 5, 6] 0 0 false]⟩, [])) ∧
     (⟨6, 10, [mk_node 1 id_b [1, 2, 3, 4, 5, 6] 0 0 false]⟩ : cache_t).life_check (clock_at 105) (clock_at 105)
      = some (⟨6, 10, [mk_node 1 id_b [1, 2, 3, 4, 5, 6] 0 0 false]⟩, [])) :=
  ⟨⟨by decide, by decide, by decide⟩, ⟨by decide, by decide, by decide⟩⟩

/-- C8 (witness). A write at time 100 with `start = 5` into an empty shard, then a pass at
time 105. -/
theorem ttl_expiry_cascades_witness :
    (cache_t.init 1000).wf ∧
    clock_ok 1 100 (mk_io id_a flags_ttl 0 1 5).start ∧
    (mk_io id_a flags_ttl 0 1 5).start ≠ 0 ∧
    (∀ it, (cache_t.init 1000).find id_a = some it → it.m_remove_from_disk = true) ∧
    (cache_t.init 1000).write 1 100 0 digest_id id_a
        (mk_io id_a flags_ttl 0 1 5) [6] disk_enoent true
      = some (Except.ok (0, ⟨1, 1000, [mk_node 0 id_a [6] 105 0 true]⟩, [])) ∧
    (∀ k : Nat, 100 + (mk_io id_a flags_ttl 0 1 5).start ≤ clock_at 105 k) ∧
    ∃ c2 w2, (⟨1, 1000, [mk_node 0 id_a [6] 105 0 true]⟩ : cache_t).life_check (clock_at 105) (clock_at 105)
        = some (c2, w2) ∧ c2.find id_a = none ∧ backend_call.remove id_a ∈ w2 :=
  ⟨by decide, by decide, by decide, by decide, by decide,
   fun _ => (by decide : 100 + (mk_io id_a flags_ttl 0 1 5).start ≤ 105),
   ttl_expiry_cascades (cache_t.init 1000) _ 1 100 0 digest_id id_a
     (mk_io id_a flags_ttl 0 1 5) [6] disk_enoent [] true (clock_at 105)
     (clock_at 105) (by decide) (by decide) (by decide) rfl (by decide) (by decide)
     (fun _ => (by decide : 100 + (mk_io id_a flags_ttl 0 1 5).start ≤ 105))⟩

theorem life_loop_within (M : Nat) (hM : M < U64) :
    ∀ (n : Nat) (clock : Nat → Nat) (c c1 : cache_t) (rm rm1 : List raw_id) (w : List backend_call),
      cache_t.life_loop n clock c rm = some (c1, rm1, w) → c.within M → c1.within M := by
  intro n
  induction n with
  | zero =>
    intro clock c c1 rm rm1 w h hin
    simp only [cache_t.life_loop, Option.some.injEq, Prod.mk.injEq] at h
    rw [← h.1]; exact hin
  | succ n ih =>
    intro clock c c1 rm rm1 w h hin
    simp only [cache_t.life_loop] at h
    split at h
    · simp only [Option.some.injEq, Prod.mk.injEq] at h
      rw [← h.1]; exact hin
    · rename_i it hb
      split at h
      · simp only [Option.some.injEq, Prod.mk.injEq] at h
        rw [← h.1]; exact hin
      · split at h
        · simp at h
        · rename_i c2 w2 he
          split at h
          · simp at h
          · rename_i c3 rm3 w3 hrec
            simp only [Option.some.injEq, Prod.mk.injEq] at h
            rw [← h.1]
            have hmem : it ∈ c.m_lru :=
              (set_begin_some lifetime_less (fun e => e.life_linked) data_t.m_lifetime
                lifetime_less_le lifetime_less_ge _ _ hb).1
            exact ih _ _ _ _ _ _ hrec (erase_element_within _ _ _ _ M hM he hmem hin).1

theorem sync_loop_within (M : Nat) :
    ∀ (n : Nat) (clock : Nat → Nat) (c c1 : cache_t) (w : List backend_call),
      cache_t.sync_loop n clock c = some (c1, w) → c.within M → c1.within M := by
  intro n
  induction n with
  | zero =>
    intro clock c c1 w h hin
    simp only [cache_t.sync_loop, Option.some.injEq, Prod.mk.injEq] at h
    rw [← h.1]; exact hin
  | succ n ih =>
    intro clock c c1 w h hin
    simp only [cache_t.sync_loop] at h
    split at h
    · simp only [Option.some.injEq, Prod.mk.injEq] at h
      rw [← h.1]; exact hin
    · rename_i it hb
      split at h
      · simp only [Option.some.injEq, Prod.mk.injEq] at h
        rw [← h.1]; exact hin
      · split at h
        · simp at h
        · rename_i it1 w1 hse
          split at h
          · simp at h
          · rename_i c3 w3 hrec
            simp only [Option.some.injEq, Prod.mk.injEq] at h
            rw [← h.1]
            have hsz : it.size = it1.size := by
              unfold sync_element at hse
              split at hse
              · simp only [Option.some.injEq, Prod.mk.injEq] at hse
                rw [← hse.1]; rfl
              · simp at hse
            exact ih _ _ _ _ hrec (set_node_within c it it1 M hsz hin)

theorem life_check_within (c c1 : cache_t) (life_clock sync_clock : Nat → Nat) (M : Nat)
    (w : List backend_call) (hM : M < U64)
    (h : c.life_check life_clock sync_clock = some (c1, w)) (hin : c.within M) : c1.within M := by
  unfold cache_t.life_check at h
  split at h
  · simp at h
  · rename_i c2 rm w1 h1
    split at h
    · simp at h
    · rename_i c3 w2 h2
      simp only [Option.some.injEq, Prod.mk.injEq] at h
      rw [← h.1]
      exact sync_loop_within M _ _ _ _ _ h2 (life_loop_within M hM _ _ _ _ _ _ _ h1 hin)

theorem step_within (c c1 : cache_t) (op : shard_op) (M : Nat) (hM : M < 2 ^ 62)
    (hfit : op_fits M c op) (h : c.step op = some c1) (hin : c.within M) : c1.within M := by
  have hU : M < U64 := by
    have : (2:Nat) ^ 62 < U64 := by unfold U64; norm_num
    omega
  cases op with
  | write t now addr digest id io data disk =>
    simp only [cache_t.step] at h
    split at h
    · rename_i r hw
      obtain ⟨err, c2, w⟩ := r
      simp only [Option.some.injEq] at h
      subst h
      exact write_within _ _ _ _ _ _ _ _ _ _ _ _ _ M hM hfit.1 hfit.2 hw hin
    · simp at h
  | read addr now id io disk =>
    simp only [cache_t.step, Option.map_eq_some'] at h
    obtain ⟨⟨d, io1, c2, w⟩, hr, rfl⟩ := h
    exact read_within _ _ _ _ _ _ _ _ _ _ M hM hfit hr hin
  | remove id io local_err =>
    simp only [cache_t.step, Option.map_eq_some'] at h
    obtain ⟨⟨err, c2, w⟩, hr, rfl⟩ := h
    exact remove_within _ _ _ _ _ _ _ M hU hr hin
  | life_check life_clock sync_clock =>
    simp only [cache_t.step, Option.map_eq_some'] at h
    obtain ⟨⟨c2, w⟩, hr, rfl⟩ := h
    exact life_check_within _ _ _ _ M _ hU hr hin

theorem run_within (M : Nat) (hM : M < 2 ^ 62) :
    ∀ (ops : List shard_op) (c c1 : cache_t), run_fits M c ops → c.run ops = some c1 →
      c.within M → c1.within M
  | [], c, c1, _, h, hin => by
    simp only [cache_t.run, Option.some.injEq] at h
    rw [← h]; exact hin
  | op :: ops, c, c1, hfit, h, hin => by
    simp only [cache_t.run] at h
    split at h
    · simp at h
    · rename_i c2 hstep
      exact run_within M hM ops c2 c1 (hfit.2 c2 hstep) h
        (step_within c c2 op M hM hfit.1 hstep hin)

/-- C10 (as stated, refuted).  On an empty shard with `max_bytes = 2` a write of three
bytes completes and leaves `used_bytes = 3`. -/
theorem capacity_bound_counterexample :
    (cache_t.init 2).run [shard_op.write 1 100 0 digest_id id_a
        (mk_io id_a { no_flags with cache := true, cache_only := true } 0 3 0) [1, 2, 3]
        disk_enoent]
      = some ⟨3, 2, [mk_node 0 id_a [1, 2, 3] 0 0 false]⟩ ∧
    ¬ ((⟨3, 2, [mk_node 0 id_a [1, 2, 3] 0 0 false]⟩ : cache_t).m_cache_size ≤ 2) := by
  decide

theorem run_fits_take (M : Nat) :
    ∀ (ops : List shard_op) (k : Nat) (c : cache_t), run_fits M c ops →
      run_fits M c (ops.take k)
  | [], _, _, _ => by simp [run_fits]
  | _ :: _, 0, _, _ => by simp [run_fits]
  | op :: ops, k + 1, c, h => by
    simp only [List.take_succ_cons, run_fits]
    exact ⟨h.1, fun c1 hc1 => run_fits_take M ops k c1 (h.2 c1 hc1)⟩

/-- C10 (amended).  Capacity bound: starting from an empty shard with
`max_bytes = M < 2^62`, after every completed operation (that is, after the first `k`
operations, for every `k`) of any sequence of writes, reads, deletes and maintenance passes
in which every stored payload has at most `M` bytes (the payload a write leaves in its
entry, and every payload read from the backend), `used_bytes <= M`. -/
theorem capacity_bound_when_payloads_fit (M : Nat) (ops : List shard_op) (k : Nat)
    (c : cache_t) (hM : M < 2 ^ 62) (hfit : run_fits M (cache_t.init M) ops)
    (h : (cache_t.init M).run (ops.take k) = some c) : c.m_cache_size ≤ M :=
  (run_within M hM (ops.take k) (cache_t.init M) c (run_fits_take M ops k _ hfit) h
    ⟨rfl, rfl, Nat.zero_le _⟩).2.2

/-- C10 (witness). Two writes of six bytes into a shard of ten bytes: the second evicts the
first. -/
theorem capacity_bound_when_payloads_fit_witness :
    10 < 2 ^ 62 ∧
    run_fits 10 (cache_t.init 10)
      [shard_op.write 1 100 0 digest_id id_a (mk_io id_a flags_cache_only 0 6 0)
         [1, 2, 3, 4, 5, 6] disk_enoent,
       shard_op.write 1 100 1 digest_id id_b (mk_io id_b flags_cache_only 0 6 0)
         [1, 2, 3, 4, 5, 6] disk_enoent] ∧
    (cache_t.init 10).run
      ([shard_op.write 1 100 0 digest_id id_a (mk_io id_a flags_cache_only 0 6 0)
         [1, 2, 3, 4, 5, 6] disk_enoent,
       shard_op.write 1 100 1 digest_id id_b (mk_io id_b flags_cache_only 0 6 0)
         [1, 2, 3, 4, 5, 6] disk_enoent].take 2)
      = some ⟨6, 10, [mk_node 1 id_b [1, 2, 3, 4, 5, 6] 0 0 false]⟩ ∧
    (⟨6, 10, [mk_node 1 id_b [1, 2, 3, 4, 5, 6] 0 0 false]⟩ : cache_t).m_cache_size ≤ 10 :=
  have hfit : run_fits 10 (cache_t.init 10)
      [shard_op.write 1 100 0 digest_id id_a (mk_io id_a flags_cache_only 0 6 0)
         [1, 2, 3, 4, 5, 6] disk_enoent,
       shard_op.write 1 100 1 digest_id id_b (mk_io id_b flags_cache_only 0 6 0)
         [1, 2, 3, 4, 5, 6] disk_enoent] := by
    refine ⟨⟨by decide, ?_⟩, ?_⟩
    · intro it c0 w0 h
      have e : (cache_t.init 10).write_lookup 0 100 id_a (mk_io id_a flags_cache_only 0 6 0)
          disk_enoent = some (Sum.inr (data_t.create 0 100 id_a 0 [] false),
            ⟨0, 10, [data_t.create 0 100 id_a 0 [] false]⟩, []) := by decide
      rw [e] at h
      simp only [Option.some.injEq, Prod.mk.injEq, Sum.inr.injEq] at h
      rw [← h.1]
      decide
    · intro c1 hstep
      have e : (cache_t.init 10).step
          (shard_op.write 1 100 0 digest_id id_a (mk_io id_a flags_cache_only 0 6 0)
            [1, 2, 3, 4, 5, 6] disk_enoent)
          = some ⟨6, 10, [mk_node 0 id_a [1, 2, 3, 4, 5, 6] 0 0 false]⟩ := by decide
      rw [e] at hstep
      simp only [Option.some.injEq] at hstep
      rw [← hstep]
      refine ⟨⟨by decide, ?_⟩, fun _ _ => trivial⟩
      intro it c0 w0 h
      have e2 : (⟨6, 10, [mk_node 0 id_a [1, 2, 3, 4, 5, 6] 0 0 false]⟩ : cache_t).write_lookup
          1 100 id_b (mk_io id_b flags_cache_only 0 6 0) disk_enoent
          = some (Sum.inr (data_t.create 1 100 id_b 0 [] false),
            ⟨6, 10, [mk_node 0 id_a [1, 2, 3, 4, 5, 6] 0 0 false,
                     data_t.create 1 100 id_b 0 [] false]⟩, []) := by decide
      rw [e2] at h
      simp only [Option.some.injEq, Prod.mk.injEq, Sum.inr.injEq] at h
      rw [← h.1]
      decide
  ⟨by norm_num, hfit, by decide,
   capacity_bound_when_payloads_fit 10 _ 2 _ (by norm_num) hfit (by decide)⟩

theorem touch_total (it : data_t) (t now : Nat) (io : dnet_io_attr)
    (h1 : it.m_lifetime ≠ 0 → it.life_linked = true)
    (h2 : it.m_lifetime = 0 → it.life_linked = false)
    (h3 : it.m_synctime = 0 → it.sync_linked = false) :
    ∃ it1, data_t.touch it t now io = some it1 := by
  unfold data_t.touch
  by_cases a1 : it.m_synctime = 0 <;> by_cases a2 : io.flags.cache_only = false <;>
    by_cases a4 : it.m_lifetime = 0 <;> by_cases a6 : io.start = 0 <;>
    simp [a1, a2, a4, a6, h1, h2, h3]

theorem write_entry_total (c : cache_t) (t now : Nat) (it : data_t) (io : dnet_io_attr)
    (data payload : List Byte)
    (hrest : ∀ e ∈ c.m_lru.erase it, e.hooks_ok)
    (hwd : write_data it.m_data io.flags.append io.offset io.size (new_size it io) data
      = some payload)
    (h1 : it.m_lifetime ≠ 0 → it.life_linked = true)
    (h2 : it.m_lifetime = 0 → it.life_linked = false)
    (h3 : it.m_synctime = 0 → it.sync_linked = false) :
    ∃ c2 w, c.write_entry t now it io data true = some (Except.ok (c2, w)) := by
  unfold cache_t.write_entry
  have hres : ∃ c3 w3,
      (if add64 (sub64 c.m_cache_size it.size) (new_size it io) > c.m_max_cache_size then
         ({ c with m_cache_size := sub64 c.m_cache_size it.size
                   m_lru := c.m_lru.erase it }).resize (mul64 (new_size it io) 2)
       else some ({ c with m_cache_size := sub64 c.m_cache_size it.size
                           m_lru := c.m_lru.erase it }, [])) = some (c3, w3) := by
    split
    · exact resize_loop_total _ _ _ hrest
    · exact ⟨_, _, rfl⟩
  obtain ⟨c3, w3, hres⟩ := hres
  obtain ⟨it1, ht⟩ := touch_total { it with m_data := payload } t now io h1 h2 h3
  rw [hres]
  simp only [hwd, ht, Bool.true_eq_false, false_and, if_false]
  exact ⟨_, _, rfl⟩

/-- The append law of C2 where the defect does not strike: in a shard satisfying the
invariants of the data model, if the first write (offset 0, no `APPEND`) carries a lifetime
(`start != 0`) or the entry carried none before it, then the `APPEND` write that follows
succeeds and a read returns `X ++ Y`. -/
theorem append_law_without_stale_lifetime (c c1 : cache_t) (timeout now addr : Nat)
    (digest : List Byte → raw_id) (id : raw_id) (io : dnet_io_attr) (X : List Byte)
    (disk : disk_reply) (w : List backend_call) (grow_ok : Bool)
    (timeout2 now2 addr2 : Nat) (io2 : dnet_io_attr) (Y : List Byte) (disk2 : disk_reply)
    (addr3 now3 : Nat) (io3 : dnet_io_attr) (disk3 : disk_reply)
    (hwf : c.wf) (hclock : clock_ok timeout now io.start)
    (happ : io.flags.append = false) (hoff : io.offset = 0) (hlen : X.length = io.size)
    (h : c.write timeout now addr digest id io X disk grow_ok
      = some (Except.ok (0, c1, w)))
    (hfresh : io.start ≠ 0 ∨ ∀ it, c.find id = some it → it.m_lifetime = 0)
    (happ2 : io2.flags.append = true) (hcas2 : io2.flags.compare_and_swap = false)
    (hlen2 : Y.length = io2.size) :
    ∃ c2 w2, c1.write timeout2 now2 addr2 digest id io2 Y disk2 true
        = some (Except.ok (0, c2, w2)) ∧
      ∃ io4 c3 w3, c2.read addr3 now3 id io3 disk3 = some (some (X ++ Y), io4, c3, w3) := by
  obtain ⟨it1, rest, h1, hrest, hid1, hf, hl, hlt, hs, -, -⟩ :=
    write_ok_entry _ _ _ _ _ _ _ _ _ _ _ _ hwf hclock h
  obtain ⟨it, it1', payload, rest', h1', -, -, hcase, -, -, hwd, ht, -⟩ :=
    write_ok_shape _ _ _ _ _ _ _ _ _ _ _ _ hwf.1 h
  have heq : it1' = it1 := by
    have := h1.symm.trans h1'
    have h2 := congrArg List.getLast? this
    simpa using h2.symm
  subst heq
  obtain ⟨hit1, -⟩ := touch_spec _ _ _ _ _ ht
  rw [happ] at hwd
  have hns : new_size it io = add64 io.offset io.size := by simp [new_size, happ]
  rw [hns] at hwd
  obtain ⟨-, hp⟩ := write_data_overwrite _ _ _ _ _ hwd hlen
  have hdata : it1'.m_data = X := by
    rw [hit1]
    simp only
    rw [hp, hoff]
    simp
  have hlife0 : io.start = 0 → it1'.m_lifetime = 0 := by
    intro hs0
    rw [hit1]
    simp only [hs0, ne_eq, not_true_eq_false, if_false]
    rcases hcase with hfi | ⟨-, -, d, uf, ts, hfr, -⟩
    · rcases hfresh with hne | hz
      · exact absurd hs0 hne
      · exact hz it hfi
    · rw [hfr]; rfl
  have hnotin : it1' ∉ rest := fun hin => (hrest it1' hin).1 hid1
  have herase : c1.m_lru.erase it1' = rest := by
    rw [h1, List.erase_append_right _ hnotin]
    simp
  have hlook : c1.write_lookup addr2 now2 id io2 disk2 = some (Sum.inr it1', c1, []) := by
    unfold cache_t.write_lookup
    simp [hf]
  have hwd2 : write_data it1'.m_data io2.flags.append io2.offset io2.size (new_size it1' io2) Y
      = some (X ++ Y) := by
    rw [happ2, hdata]
    unfold write_data
    simp [← hlen2]
  have hpos := hclock.1
  obtain ⟨c2, w2, he⟩ := write_entry_total c1 timeout2 now2 it1' io2 Y (X ++ Y)
    (by rw [herase]; exact fun e he => (hrest e he).2) hwd2
    (by
      intro hne
      by_cases hs0 : io.start = 0
      · exact absurd (hlife0 hs0) hne
      · exact hl.2 hs0)
    (by
      intro hz
      by_cases hs0 : io.start = 0
      · cases hb : it1'.life_linked
        · rfl
        · exact absurd (hl.1 hb) (by simp [hs0])
      · have := hlt hs0
        omega)
    (by
      intro hz
      cases hb : it1'.sync_linked
      · rfl
      · exact absurd hz (hs.1 hb))
  have hw2 : c1.write timeout2 now2 addr2 digest id io2 Y disk2 true
      = some (Except.ok (0, c2, [] ++ w2)) := by
    unfold cache_t.write
    rw [hlook]
    simp only [hcas2, Bool.false_eq_true, false_and, if_false, he]
  refine ⟨c2, [] ++ w2, hw2, ?_⟩
  obtain ⟨k, payload2, it2, -, hwd3, ht2, g1, -⟩ := write_entry_spec _ _ _ _ _ _ _ _ _ he
  rw [hwd2] at hwd3
  simp only [Option.some.injEq] at hwd3
  subst hwd3
  obtain ⟨hit2, -⟩ := touch_spec _ _ _ _ _ ht2
  have hid2 : it2.m_id = id := by rw [hit2]; exact hid1
  have hf2 : c2.find id = some it2 := by
    apply find_append_last _ hid2 c2 g1
    intro e he2
    rw [herase] at he2
    exact (hrest e (List.mem_of_mem_drop he2)).1
  have hd2 : it2.m_data = X ++ Y := by rw [hit2]
  rw [read_hit c2 addr3 now3 id io3 disk3 it2 hf2, hd2]
  exact ⟨_, _, _, rfl⟩

/-- The range check of C5 where the sum does not wrap: for a cached payload `d` and a
`READ` with `offset + size < 2^64`, `dnet_cmd_cache_io` returns `-EINVAL` and sends nothing
when `offset + size > |d|`, and otherwise sends exactly the bytes `[offset, offset + size')`
of `d`, where `size' = size` if `size != 0` and `size' = |d| - offset` if `size == 0`. -/
theorem read_range_check_without_wrap (m : cache_manager) (k : Nat) (c : cache_t)
    (t now addr : Nat) (digest : List Byte → raw_id) (cmd : dnet_cmd) (io : dnet_io_attr)
    (data : List Byte) (disk : disk_reply) (grow_ok : Bool) (local_err send_err : Int)
    (it : data_t)
    (hcmd : cmd.cmd = dnet_command.DNET_CMD_READ)
    (hs : m.shard io.id = some (k, c)) (hf : c.find io.id = some it)
    (hnowrap : io.offset + io.size < U64) (hlen : it.m_data.length < U64) :
    ∃ r, dnet_cmd_cache_io (some m) t now addr digest cmd io data disk grow_ok local_err send_err
        = some r ∧
      (io.offset + io.size > it.m_data.length → r.err = -EINVAL ∧ r.replies = []) ∧
      (io.offset + io.size ≤ it.m_data.length → r.err = send_err ∧
        r.replies = [reply.read_data
          ((it.m_data.drop io.offset).take
            (if io.size = 0 then it.m_data.length - io.offset else io.size)) io.offset]) := by
  have hread := read_hit c addr now io.id io disk it hf
  simp only [dnet_cmd_cache_io, hcmd, cache_manager.read, hs, hread]
  rw [add64_of_lt hnowrap]
  by_cases hgt : io.offset + io.size > it.m_data.length
  · rw [if_pos hgt]
    exact ⟨_, rfl, fun _ => ⟨rfl, rfl⟩, fun h => absurd hgt (Nat.not_lt.2 h)⟩
  · rw [if_neg hgt]
    by_cases hz : io.size = 0
    · have hsub : sub64 it.m_data.length io.offset = it.m_data.length - io.offset :=
        sub64_of_le (by omega) hlen
      have hc : io.offset + (it.m_data.length - io.offset) ≤ it.m_data.length := by omega
      rw [if_pos hz]
      simp only [hsub]
      rw [if_pos hc, if_pos hz]
      exact ⟨_, rfl, fun h => absurd h hgt, fun _ => ⟨rfl, rfl⟩⟩
    · have hc : io.offset + io.size ≤ it.m_data.length := by omega
      rw [if_neg hz, if_pos hc, if_neg hz]
      exact ⟨_, rfl, fun h => absurd h hgt, fun _ => ⟨rfl, rfl⟩⟩

theorem read_int_take (id id2 : raw_id) (h : id2.take 4 = id.take 4) (h4 : 4 ≤ id.length) :
    read_int id2 = read_int id := by
  match id, h4 with
  | b0 :: b1 :: b2 :: b3 :: rest, _ =>
    match id2, h with
    | [], h => simp at h
    | [_], h => simp at h
    | [_, _], h => simp at h
    | [_, _, _], h => simp at h
    | a0 :: a1 :: a2 :: a3 :: rest2, h =>
      simp only [List.take_succ_cons, List.take_zero, List.cons.injEq, and_true] at h
      obtain ⟨h0, h1, h2, h3⟩ := h
      subst h0 h1 h2 h3
      rfl

theorem read_int_range (id : raw_id) (h4 : 4 ≤ id.length) :
    ∃ i : Int, read_int id = some i ∧ -2147483648 ≤ i ∧ i < 2147483648 := by
  match id, h4 with
  | b0 :: b1 :: b2 :: b3 :: rest, _ =>
    have h0 := b0.isLt
    have h1 := b1.isLt
    have h2 := b2.isLt
    have h3 := b3.isLt
    simp only [read_int]
    split
    · exact ⟨_, rfl, by omega, by omega⟩
    · exact ⟨_, rfl, by omega, by omega⟩

/-- Claim C20: for every identifier of at least four bytes and every shard
count `N` with `1 ≤ N < 2^31`, `cache_manager::idx` returns a value `r` with
`0 ≤ r < N` (also when the first word is negative as a signed int), the element
access `m_caches[idx(id)]` is in bounds, and the result is the same for every
identifier with the same first four bytes. -/
theorem idx_total_and_in_range (m : cache_manager) (id : raw_id)
    (h4 : 4 ≤ id.length) (hN1 : 1 ≤ m.m_caches.length)
    (hN2 : m.m_caches.length < 2147483648) :
    ∃ r : Int, m.idx id = some r ∧ 0 ≤ r ∧ r < (m.m_caches.length : Int) ∧
      (∃ c, m.shard id = some (r.toNat, c)) ∧
      ∀ id2 : raw_id, id2.take 4 = id.take 4 → m.idx id2 = some r := by
  obtain ⟨i, hi, hlo, hhi⟩ := read_int_range id h4
  have hne : ¬ m.m_caches.length = 0 := by omega
  have hU : (U64 : Int) = 18446744073709551616 := by simp [U64]
  have hr : (i % (U64 : Int)).toNat % m.m_caches.length < m.m_caches.length :=
    Nat.mod_lt _ (by omega)
  have hidx : m.idx id = some (((i % (U64 : Int)).toNat % m.m_caches.length : Nat) : Int) := by
    simp only [cache_manager.idx, hi, if_neg hne]
    have h1 : (i % (U64 : Int)).toNat % m.m_caches.length % 4294967296
        = (i % (U64 : Int)).toNat % m.m_caches.length := Nat.mod_eq_of_lt (by omega)
    rw [h1]
    have h2 : (i % (U64 : Int)).toNat % m.m_caches.length < 2147483648 := by omega
    rw [if_pos h2]
  refine ⟨_, hidx, by omega, by omega, ?_, ?_⟩
  · have hk : (((((i % (U64 : Int)).toNat % m.m_caches.length : Nat) : Int)) % (U64 : Int)).toNat
        = (i % (U64 : Int)).toNat % m.m_caches.length := by
      generalize (i % (U64 : Int)).toNat % m.m_caches.length = n at hr
      rw [hU]; omega
    have hget : m.m_caches[(i % (U64 : Int)).toNat % m.m_caches.length]?
        = some (m.m_caches.get ⟨_, hr⟩) := by
      rw [List.getElem?_eq_getElem hr]; rfl
    refine ⟨m.m_caches.get ⟨_, hr⟩, ?_⟩
    simp only [cache_manager.shard, hidx, hk, hget, Int.toNat_ofNat]
  · intro id2 h2
    have : m.idx id2 = m.idx id := by
      simp only [cache_manager.idx, read_int_take id id2 h2 h4]
    rw [this, hidx]

theorem idx_total_and_in_range_witness :
    ∃ r : Int, (cache_manager.mk [cache_t.init 10, cache_t.init 10, cache_t.init 10]).idx
        (List.replicate 64 (255 : Byte)) = some r ∧ 0 ≤ r ∧
      r < (([cache_t.init 10, cache_t.init 10, cache_t.init 10] : List cache_t).length : Int) ∧
      (∃ c, (cache_manager.mk [cache_t.init 10, cache_t.init 10, cache_t.init 10]).shard
        (List.replicate 64 (255 : Byte)) = some (r.toNat, c)) ∧
      ∀ id2 : raw_id, id2.take 4 = (List.replicate 64 (255 : Byte)).take 4 →
        (cache_manager.mk [cache_t.init 10, cache_t.init 10, cache_t.init 10]).idx id2 = some r :=
  idx_total_and_in_range ⟨[cache_t.init 10, cache_t.init 10, cache_t.init 10]⟩
    (List.replicate 64 (255 : Byte)) (by decide) (by decide) (by decide)

theorem write_data_bytes (raw data p : List Byte) (off sz : Nat)
    (h : write_data raw false off sz (add64 off sz) data = some p) :
    off + sz < U64 ∧ sz ≤ data.length ∧ p.length = off + sz ∧
    (∀ i, i < off → i < raw.length → p[i]? = raw[i]?) ∧
    (∀ i, raw.length ≤ i → i < off → p[i]? = some 0) ∧
    (∀ i, off ≤ i → i < off + sz → p[i]? = data[i - off]?) := by
  unfold write_data at h
  simp only [Bool.false_eq_true, if_false] at h
  split at h
  · rename_i hc
    have hlt : off + sz < U64 := by
      have := hc.2
      unfold add64 U64 at *
      omega
    rw [add64_of_lt hlt] at h
    simp only [Option.some.injEq] at h
    have hl1 : (List.take off (List.take (off + sz)
        (raw ++ List.replicate (off + sz - raw.length) (0 : Byte)))).length = off := by
      simp only [List.length_take, List.length_append, List.length_replicate]
      omega
    have hl2 : (List.take sz data).length = sz := by
      simp only [List.length_take]
      omega
    refine ⟨hlt, hc.1, ?_, ?_, ?_, ?_⟩
    · rw [← h]
      simp only [List.length_append, List.length_take, List.length_drop, List.length_replicate]
      omega
    · intro i hi hr
      rw [← h, List.append_assoc, List.getElem?_append_left (by omega),
        List.getElem?_take_of_lt hi, List.getElem?_take_of_lt (by omega),
        List.getElem?_append_left hr]
    · intro i hr hi
      rw [← h, List.append_assoc, List.getElem?_append_left (by omega),
        List.getElem?_take_of_lt hi, List.getElem?_take_of_lt (by omega),
        List.getElem?_append_right hr, List.getElem?_replicate]
      have : i - raw.length < off + sz - raw.length := by omega
      simp [this]
    · intro i hi hs
      rw [← h, List.append_assoc, List.getElem?_append_right (by omega), hl1,
        List.getElem?_append_left (by omega), List.getElem?_take_of_lt (by omega)]
  · simp at h

/-- Claim C19: when a write without `APPEND` to an identifier cached with
payload `P` returns success, the payload afterwards has length exactly
`offset + size` (shorter than `P` when `offset + size < |P|`), with
`offset + size < 2^64`; its byte `i` is `P[i]` for `i < min offset |P|`, zero
for `|P| ≤ i < offset`, and byte `i - offset` of the written data for
`offset ≤ i < offset + size`. -/
theorem overwrite_at_offset_payload (c c1 : cache_t) (t now addr : Nat)
    (digest : List Byte → raw_id) (id : raw_id) (io : dnet_io_attr) (data : List Byte)
    (disk : disk_reply) (w : List backend_call) (it : data_t) (grow_ok : Bool)
    (hu : c.unique_ids) (hf : c.find id = some it) (happ : io.flags.append = false)
    (h : c.write t now addr digest id io data disk grow_ok = some (Except.ok (0, c1, w))) :
    ∃ it1, c1.find id = some it1 ∧ io.offset + io.size < U64 ∧
      it1.m_data.length = io.offset + io.size ∧
      (∀ i, i < min io.offset it.m_data.length → it1.m_data[i]? = it.m_data[i]?) ∧
      (∀ i, it.m_data.length ≤ i → i < io.offset → it1.m_data[i]? = some 0) ∧
      (∀ i, io.offset ≤ i → i < io.offset + io.size →
        it1.m_data[i]? = data[i - io.offset]? ∧ i - io.offset < data.length) := by
  obtain ⟨it0, it1, payload, rest, h1, -, hrest, hfound, hid, -, hwd, ht, -⟩ :=
    write_ok_shape _ _ _ _ _ _ _ _ _ _ _ _ hu h
  have hit : it0 = it := by
    rcases hfound with hf0 | ⟨hn, -⟩
    · rw [hf] at hf0
      exact (Option.some.inj hf0).symm
    · rw [hf] at hn
      exact absurd hn (by simp)
  subst hit
  have hns : new_size it0 io = add64 io.offset io.size := by
    unfold new_size
    rw [happ]
    simp
  rw [happ, hns] at hwd
  obtain ⟨hlt, hsz, hlen, hb1, hb2, hb3⟩ := write_data_bytes _ _ _ _ _ hwd
  obtain ⟨hE, -⟩ := touch_spec _ _ _ _ _ ht
  have hd : it1.m_data = payload := by rw [hE]
  have hid1 : it1.m_id = id := by rw [hE]; exact hid
  refine ⟨it1, find_append_last hrest hid1 c1 h1, hlt, by rw [hd, hlen], ?_, ?_, ?_⟩
  · intro i hi
    rw [hd]
    exact hb1 i (lt_of_lt_of_le hi (Nat.min_le_left _ _)) (lt_of_lt_of_le hi (Nat.min_le_right _ _))
  · intro i hr hi
    rw [hd]
    exact hb2 i hr hi
  · intro i hi hs
    rw [hd]
    exact ⟨hb3 i hi hs, by omega⟩

/-- Claim C19 (witness): two bytes written at offset 5 over a payload of three bytes. -/
theorem overwrite_at_offset_payload_witness :
    (cache_t.mk 3 1000 [mk_node 0 id_a [1, 2, 3] 0 0 false]).unique_ids ∧
    (cache_t.mk 3 1000 [mk_node 0 id_a [1, 2, 3] 0 0 false]).find id_a
      = some (mk_node 0 id_a [1, 2, 3] 0 0 false) ∧
    (mk_io id_a flags_cache_only 5 2 0).flags.append = false ∧
    (cache_t.mk 3 1000 [mk_node 0 id_a [1, 2, 3] 0 0 false]).write 1 100 1 digest_id id_a
        (mk_io id_a flags_cache_only 5 2 0) [8, 9] disk_enoent true
      = some (Except.ok (0, ⟨7, 1000, [mk_node 0 id_a [1, 2, 3, 0, 0, 8, 9] 0 0 false]⟩, [])) ∧
    ∃ it1, (cache_t.mk 7 1000 [mk_node 0 id_a [1, 2, 3, 0, 0, 8, 9] 0 0 false]).find id_a
        = some it1 ∧
      (mk_io id_a flags_cache_only 5 2 0).offset + (mk_io id_a flags_cache_only 5 2 0).size < U64 ∧
      it1.m_data.length
        = (mk_io id_a flags_cache_only 5 2 0).offset + (mk_io id_a flags_cache_only 5 2 0).size ∧
      (∀ i, i < min (mk_io id_a flags_cache_only 5 2 0).offset
            (mk_node 0 id_a [1, 2, 3] 0 0 false).m_data.length →
          it1.m_data[i]? = (mk_node 0 id_a [1, 2, 3] 0 0 false).m_data[i]?) ∧
      (∀ i, (mk_node 0 id_a [1, 2, 3] 0 0 false).m_data.length ≤ i →
          i < (mk_io id_a flags_cache_only 5 2 0).offset → it1.m_data[i]? = some 0) ∧
      (∀ i, (mk_io id_a flags_cache_only 5 2 0).offset ≤ i →
          i < (mk_io id_a flags_cache_only 5 2 0).offset
                + (mk_io id_a flags_cache_only 5 2 0).size →
          it1.m_data[i]? = ([8, 9] : List Byte)[i - (mk_io id_a flags_cache_only 5 2 0).offset]? ∧
          i - (mk_io id_a flags_cache_only 5 2 0).offset < ([8, 9] : List Byte).length) :=
  ⟨by decide, by decide, rfl, by decide,
   overwrite_at_offset_payload ⟨3, 1000, [mk_node 0 id_a [1, 2, 3] 0 0 false]⟩ _ 1 100 1
     digest_id id_a (mk_io id_a flags_cache_only 5 2 0) [8, 9] disk_enoent []
     (mk_node 0 id_a [1, 2, 3] 0 0 false) true (by decide) (by decide) rfl (by decide)⟩

/-- Claim C13 (as stated, refuted): a `READ` without `CACHE` of an identifier that
the cache does not hold returns `-ENOTSUP`, which is not `-ENOENT`. -/
theorem read_miss_without_cache_counterexample :
    (cache_manager.mk [cache_t.init 1000]).shard id_a = some (0, cache_t.init 1000) ∧
    (cache_t.init 1000).find id_a = none ∧
    (mk_io id_a no_flags 0 0 0).flags.cache = false ∧
    dnet_cmd_cache_io (some ⟨[cache_t.init 1000]⟩) 1 100 0 digest_id
        { id := id_a, cmd := dnet_command.DNET_CMD_READ, need_ack := true }
        (mk_io id_a no_flags 0 0 0) [] disk_enoent true 0 0
      = some ⟨-ENOTSUP, some ⟨[cache_t.init 1000]⟩,
              { id := id_a, cmd := dnet_command.DNET_CMD_READ, need_ack := true },
              mk_io id_a no_flags 0 0 0, [], []⟩ ∧
    -ENOTSUP ≠ -ENOENT := by
  decide

theorem write_populate_error (c : cache_t) (t now addr : Nat) (digest : List Byte → raw_id)
    (id : raw_id) (io : dnet_io_attr) (data : List Byte) (disk : disk_reply) (grow_ok : Bool)
    (hf : c.find id = none) (hc : io.flags.cache = true) (hco : io.flags.cache_only = false)
    (he : disk.err ≠ 0) (hne : disk.err ≠ -ENOENT) :
    c.write t now addr digest id io data disk grow_ok
      = some (Except.ok (disk.err, c, [backend_call.read id])) := by
  unfold cache_t.write cache_t.write_lookup cache_t.write_miss cache_t.populate_from_disk
  simp [hf, hc, hco, he, hne]

theorem read_populate_error (c : cache_t) (addr now : Nat) (id : raw_id)
    (io : dnet_io_attr) (disk : disk_reply)
    (hf : c.find id = none) (hc : io.flags.cache = true) (hco : io.flags.cache_only = false)
    (he : disk.err ≠ 0) :
    c.read addr now id io disk = some (none, io, c, [backend_call.read id]) := by
  unfold cache_t.read cache_t.populate_from_disk
  simp [hf, hc, hco, he]

theorem write_populate_not_found (c c1 : cache_t) (t now addr : Nat)
    (digest : List Byte → raw_id) (id : raw_id) (io : dnet_io_attr) (data : List Byte)
    (disk : disk_reply) (w : List backend_call) (grow_ok : Bool) (hu : c.unique_ids)
    (hf : c.find id = none) (he : disk.err = -ENOENT)
    (h : c.write t now addr digest id io data disk grow_ok = some (Except.ok (0, c1, w))) :
    ∃ it1 payload, c1.find id = some it1 ∧ it1.m_data = payload ∧
      write_data [] io.flags.append io.offset io.size
        (new_size (fresh_node addr now id io.flags.cache_remove_from_disk [] 0 dnet_empty_time) io)
        data = some payload := by
  obtain ⟨it0, it1, payload, rest, h1, -, hrest, hfound, hid, -, hwd, ht, -⟩ :=
    write_ok_shape _ _ _ _ _ _ _ _ _ _ _ _ hu h
  obtain ⟨hE, -⟩ := touch_spec _ _ _ _ _ ht
  have hid1 : it1.m_id = id := by rw [hE]; exact hid
  have hd1 : it1.m_data = payload := by rw [hE]
  rcases hfound with hf0 | ⟨-, -, d, uf, ts, hit, hd⟩
  · rw [hf] at hf0
    exact absurd hf0 (by simp)
  · have hd0 : d = [] := by
      rcases hd with hd | ⟨-, h0, -⟩
      · exact hd
      · rw [he] at h0
        exact absurd h0 (by simp [ENOENT])
    subst hd0
    have hdata : it0.m_data = [] := by rw [hit]; rfl
    have hns : new_size it0 io
        = new_size (fresh_node addr now id io.flags.cache_remove_from_disk [] 0 dnet_empty_time) io := by
      unfold new_size data_t.size
      rw [hdata]
      rfl
    rw [hdata, hns] at hwd
    exact ⟨it1, payload, find_append_last hrest hid1 c1 h1, hd1, hwd⟩

/-- Claim C12 (evaluation at the failing input): the identifier is absent, the
flags are `CACHE` without `CACHE_ONLY`, and the backend read fails with `-EIO`
(`-5`).  The `WRITE` command returns `-5` and leaves the shard as it was; the
`READ` command calls the backend, drops the error left in `err` by
`populate_from_disk`, and returns `-ENOENT` instead of `-5`. -/
theorem read_drops_populate_error :
    (cache_manager.mk [cache_t.init 1000]).shard id_a = some (0, cache_t.init 1000) ∧
    (cache_t.init 1000).find id_a = none ∧
    disk_eio.err ≠ 0 ∧ disk_eio.err ≠ -ENOENT ∧
    dnet_cmd_cache_io (some ⟨[cache_t.init 1000]⟩) 1 100 0 digest_id
        { id := id_a, cmd := dnet_command.DNET_CMD_WRITE, need_ack := true }
        (mk_io id_a { no_flags with cache := true } 0 1 0) [1] disk_eio true 0 0
      = some ⟨disk_eio.err, some ⟨[cache_t.init 1000]⟩,
              { id := id_a, cmd := dnet_command.DNET_CMD_WRITE, need_ack := true },
              mk_io id_a { no_flags with cache := true } 0 1 0, [backend_call.read id_a], []⟩ ∧
    dnet_cmd_cache_io (some ⟨[cache_t.init 1000]⟩) 1 100 0 digest_id
        { id := id_a, cmd := dnet_command.DNET_CMD_READ, need_ack := true }
        (mk_io id_a { no_flags with cache := true } 0 0 0) [] disk_eio true 0 0
      = some ⟨-ENOENT, some ⟨[cache_t.init 1000]⟩,
              { id := id_a, cmd := dnet_command.DNET_CMD_READ, need_ack := true },
              mk_io id_a { no_flags with cache := true } 0 0 0, [backend_call.read id_a], []⟩ ∧
    -ENOENT ≠ disk_eio.err := by
  decide

/-- Claim C16 (evaluation at the failing input): on an empty shard a write with
`start = 100` at time 100 followed by a write to the same identifier with
`start = 0` both complete; the entry is then outside `m_lifeset` while its
`lifetime` field is still 200. -/
theorem lifetime_index_stale_after_start_zero :
    (cache_t.init 1000).run
        [shard_op.write 1 100 0 digest_id id_a
           (mk_io id_a { no_flags with cache := true, cache_only := true } 0 1 100) [5]
           disk_enoent,
         shard_op.write 1 100 0 digest_id id_a
           (mk_io id_a { no_flags with cache_only := true } 0 2 0) [1, 2] disk_enoent]
      = some ⟨2, 1000, [{ mk_node 0 id_a [1, 2] 200 0 false with life_linked := false }]⟩ ∧
    ¬ (∀ e ∈ (⟨2, 1000, [{ mk_node 0 id_a [1, 2] 200 0 false with life_linked := false }]⟩ :
          cache_t).m_lru, e.life_linked = true ↔ e.m_lifetime ≠ 0) := by
  decide

/-- Claim C18: for a shard state satisfying the invariants of the data model in
which `id` is cached and dirty, a delete without `CACHE_ONLY` returns with
exactly one backend call, `remove(id)`, and no write; whereas a capacity
eviction (`resize`) that frees the entry, and a maintenance pass run once its
lifetime has expired, both call `write(id, payload)` on the backend, and the
pass leaves no entry for `id`. -/
theorem delete_supersedes_flush (c : cache_t) (id : raw_id) (io : dnet_io_attr)
    (local_err : Int) (it : data_t) (hwf : c.wf) (hf : c.find id = some it)
    (hd : it.m_synctime ≠ 0) (hco : io.flags.cache_only = false) :
    (∃ err c1, c.remove id io local_err = some (err, c1, [backend_call.remove id]) ∧
      c1.find id = none) ∧
    (∀ r, ∃ c1 w, c.resize r = some (c1, w) ∧
      (it ∉ c1.m_lru → backend_call.write id it.m_data ∈ w) ∧
      (c.m_lru.head? = some it → it ∉ c1.m_lru)) ∧
    (∀ life_clock sync_clock, it.m_lifetime ≠ 0 → (∀ k, it.m_lifetime ≤ life_clock k) →
      ∃ c2 w, c.life_check life_clock sync_clock = some (c2, w) ∧ c2.find id = none ∧
        backend_call.write id it.m_data ∈ w) := by
  obtain ⟨hu, hh, hacc, hlt⟩ := hwf
  obtain ⟨hmem, hid⟩ := find_some hf
  have hok := hh it hmem
  refine ⟨?_, ?_, ?_⟩
  · have hdirty : it.m_synctime ≠ 0 ∧ io.flags.cache_only = false := ⟨hd, hco⟩
    have hlinked : it.sync_linked = true := hok.2.2 hd
    have hok1 : ({ it with sync_linked := false, m_synctime := 0 } : data_t).hooks_ok := by
      refine ⟨hok.1, ?_⟩
      simp
    have herase := set_node_erase hu hmem
      (show ({ it with sync_linked := false, m_synctime := 0 } : data_t).m_id = it.m_id from rfl)
    refine ⟨if local_err ≠ -ENOENT then local_err else 0,
      ⟨sub64 c.m_cache_size it.size, c.m_max_cache_size, c.m_lru.erase it⟩, ?_, ?_⟩
    · unfold cache_t.remove
      simp only [hf]
      rw [if_pos hdirty, if_pos hlinked]
      simp only [erase_element_eq, if_pos hok1, herase]
      simp [hco, flushes, data_t.size]
    · rw [find_none]
      intro e he
      have := unique_erase_ne hu hmem e he
      rwa [hid] at this
  · intro r
    obtain ⟨c1, w, hres⟩ := resize_loop_total r c.m_lru.length c hh
    obtain ⟨k, -, h1, -, -, h4, -, h6, -⟩ := resize_spec c c1 r w hres
    refine ⟨c1, w, hres, ?_, ?_⟩
    · intro hnot
      have hin : it ∈ c.m_lru.take k ++ c.m_lru.drop k := by
        rw [List.take_append_drop]; exact hmem
      rw [h1] at hnot
      rcases List.mem_append.1 hin with h | h
      · rw [h4, mem_flushes]
        exact ⟨it, h, hd, by rw [hid]⟩
      · exact absurd h hnot
    · intro hhead hin
      have hnd : c.m_lru.Nodup := List.Nodup.of_map _ hu
      cases hl : c.m_lru with
      | nil => rw [hl] at hhead; simp at hhead
      | cons a rest =>
        rw [hl] at hhead hnd
        simp only [List.head?_cons, Option.some.injEq] at hhead
        subst hhead
        have hk : 0 < k := h6 (by rw [hl]; simp)
        rw [h1, hl] at hin
        obtain ⟨j, rfl⟩ : ∃ j, k = j + 1 := ⟨k - 1, by omega⟩
        rw [List.drop_succ_cons] at hin
        exact (List.nodup_cons.1 hnd).1 (List.mem_of_mem_drop hin)
  · intro life_clock sync_clock hlife hexp
    obtain ⟨c2, w, hres, -, h3, h4, -, -⟩ :=
      life_check_spec c life_clock sync_clock (fun e he _ => hh e he)
    have hll : it.life_linked = true := hok.1.2 hlife
    have hno : ¬ ∃ k, life_clock k < it.m_lifetime := by
      rintro ⟨k, hk⟩
      exact absurd (hexp k) (Nat.not_le.2 hk)
    refine ⟨c2, w, hres, ?_, ?_⟩
    · rw [find_none]
      intro x hx hxid
      obtain ⟨e, he, hxe, hlive⟩ := h3 x hx
      have heid : e.m_id = it.m_id := by
        rcases hxe with h | h
        · rw [← h, hxid, hid]
        · rw [h, synced_id] at hxid; rw [hxid, hid]
      have : e = it := List.inj_on_of_nodup_map hu he hmem heid
      subst this
      exact hno (hlive hll)
    · rcases h4 it hmem with ⟨-, h⟩ | ⟨-, h, -⟩ | ⟨h, -⟩
      · exact absurd (h hll) hno
      · exact absurd (h hll) hno
      · rw [← hid]; exact h hd

/-- Claim C18 (witness): a dirty entry with a lifetime, in a shard of one entry. -/
theorem delete_supersedes_flush_witness :
    (cache_t.mk 2 1000 [mk_node 0 id_a [1, 2] 150 101 false]).wf ∧
    (cache_t.mk 2 1000 [mk_node 0 id_a [1, 2] 150 101 false]).find id_a
      = some (mk_node 0 id_a [1, 2] 150 101 false) ∧
    (mk_node 0 id_a [1, 2] 150 101 false).m_synctime ≠ 0 ∧
    (mk_io id_a no_flags 0 0 0).flags.cache_only = false ∧
    ((∃ err c1, (cache_t.mk 2 1000 [mk_node 0 id_a [1, 2] 150 101 false]).remove id_a
          (mk_io id_a no_flags 0 0 0) 0 = some (err, c1, [backend_call.remove id_a]) ∧
        c1.find id_a = none) ∧
     (∀ r, ∃ c1 w, (cache_t.mk 2 1000 [mk_node 0 id_a [1, 2] 150 101 false]).resize r
          = some (c1, w) ∧
        (mk_node 0 id_a [1, 2] 150 101 false ∉ c1.m_lru →
          backend_call.write id_a (mk_node 0 id_a [1, 2] 150 101 false).m_data ∈ w) ∧
        ((cache_t.mk 2 1000 [mk_node 0 id_a [1, 2] 150 101 false]).m_lru.head?
            = some (mk_node 0 id_a [1, 2] 150 101 false) →
          mk_node 0 id_a [1, 2] 150 101 false ∉ c1.m_lru)) ∧
     (∀ life_clock sync_clock, (mk_node 0 id_a [1, 2] 150 101 false).m_lifetime ≠ 0 →
        (∀ k, (mk_node 0 id_a [1, 2] 150 101 false).m_lifetime ≤ life_clock k) →
        ∃ c2 w, (cache_t.mk 2 1000 [mk_node 0 id_a [1, 2] 150 101 false]).life_check
            life_clock sync_clock = some (c2, w) ∧ c2.find id_a = none ∧
          backend_call.write id_a (mk_node 0 id_a [1, 2] 150 101 false).m_data ∈ w)) :=
  ⟨by decide, by decide, by decide, rfl,
   delete_supersedes_flush ⟨2, 1000, [mk_node 0 id_a [1, 2] 150 101 false]⟩ id_a
     (mk_io id_a no_flags 0 0 0) 0 (mk_node 0 id_a [1, 2] 150 101 false)
     (by decide) (by decide) (by decide) rfl⟩

theorem erase_eq_filter_id {l : List data_t} (hu : (l.map data_t.m_id).Nodup) {it : data_t}
    (hit : it ∈ l) : l.erase it = l.filter (fun e => decide (e.m_id ≠ it.m_id)) := by
  have hnd : l.Nodup := List.Nodup.of_map _ hu
  rw [List.Nodup.erase_eq_filter hnd]
  apply List.filter_congr
  intro e he
  by_cases h : e = it
  · subst h; simp
  · have : e.m_id ≠ it.m_id := fun hid => h (List.inj_on_of_nodup_map hu he hit hid)
    simp [h, this]

theorem filter_id_of_absent {l : List data_t} {id : raw_id} (h : ∀ e ∈ l, e.m_id ≠ id) :
    l.filter (fun e => decide (e.m_id ≠ id)) = l := by
  rw [List.filter_eq_self]
  intro e he
  simpa using h e he

theorem read_some_spec (c c1 : cache_t) (addr now : Nat) (id : raw_id) (io io1 : dnet_io_attr)
    (disk : disk_reply) (d : List Byte) (w : List backend_call)
    (h : c.read addr now id io disk = some (some d, io1, c1, w)) :
    (∃ it, c.find id = some it ∧ c1.m_lru = c.m_lru.erase it ++ [it] ∧ d = it.m_data ∧
      w = [] ∧ c1.m_cache_size = c.m_cache_size) ∨
    (c.find id = none ∧ io.flags.cache = true ∧ io.flags.cache_only = false ∧ disk.err = 0 ∧
      ∃ k e, k ≤ c.m_lru.length ∧ e.m_id = id ∧ e.m_data = disk.data ∧ d = disk.data ∧
        c1.m_lru = c.m_lru.drop k ++ [e] ∧
        c1.m_cache_size = add64 (evicted_size c.m_cache_size (c.m_lru.take k)) disk.data.length ∧
        w = backend_call.read id :: flushes (c.m_lru.take k)) := by
  cases hf : c.find id with
  | some it =>
    rw [read_hit c addr now id io disk it hf] at h
    simp only [Option.some.injEq, Prod.mk.injEq] at h
    obtain ⟨rfl, -, rfl, rfl⟩ := h
    exact Or.inl ⟨it, rfl, rfl, rfl, rfl, rfl⟩
  | none =>
    right
    unfold cache_t.read at h
    simp only [hf] at h
    split at h
    · simp at h
    · simp at h
    · rename_i it c0 w0 hm
      simp only [Option.some.injEq, Prod.mk.injEq] at h
      obtain ⟨rfl, -, rfl, rfl⟩ := h
      split at hm
      · rename_i hflags
        split at hm
        · simp at hm
        · rename_i it2 err c2 w2 hpop
          simp only [Option.some.injEq, Prod.mk.injEq] at hm
          obtain ⟨rfl, rfl, rfl⟩ := hm
          obtain ⟨-, hp⟩ := populate_from_disk_spec _ _ _ _ _ _ _ _ _ _ hpop
          rcases hp with ⟨-, hn, -⟩ | ⟨h0, e, k, he, hk, hE, h1, -, h3, h4, -⟩
          · simp at hn
          · simp only [Option.some.injEq] at he
            subst he
            have hid : it.m_id = id := by rw [hE]; rfl
            have hdat : it.m_data = disk.data := by rw [hE]; rfl
            have hnot : it ∉ c.m_lru.drop k := fun hm =>
              (find_none.1 hf) it (List.mem_of_mem_drop hm) hid
            refine ⟨rfl, hflags.1, hflags.2, h0, k, it, hk, hid, hdat, hdat, ?_, h3, h4⟩
            rw [h1, List.erase_append_right _ hnot]
            simp
      · simp at hm

theorem read_not_mem_flushes (l : List data_t) (i : raw_id) : backend_call.read i ∉ flushes l := by
  intro h
  obtain ⟨e, -, -, he⟩ := mem_flushes.1 h
  simp at he

theorem write_lookup_cache_only_calls (c c0 : cache_t) (addr now : Nat) (id : raw_id)
    (io : dnet_io_attr) (disk : disk_reply) (r : Sum Int data_t) (w0 : List backend_call)
    (hco : io.flags.cache_only = true)
    (h : c.write_lookup addr now id io disk = some (r, c0, w0)) :
    ∀ i, backend_call.read i ∉ w0 := by
  intro i
  unfold cache_t.write_lookup at h
  split at h
  · simp only [Option.some.injEq, Prod.mk.injEq] at h
    rw [← h.2.2]; simp
  · unfold cache_t.write_miss at h
    split at h
    · simp only [Option.some.injEq, Prod.mk.injEq] at h
      rw [← h.2.2]; simp
    · simp only [hco, Bool.true_eq_false, if_false] at h
      split at h
      · rename_i hbad
        exact absurd rfl hbad.1
      · split at h
        · simp at h
        · rename_i e c2 w2 hcd
          simp only [Option.some.injEq, Prod.mk.injEq] at h
          obtain ⟨-, -, rfl⟩ := h
          obtain ⟨-, k, -, -, -, -, h4, -⟩ := create_data_spec _ _ _ _ _ _ _ _ _ hcd
          rw [h4, List.nil_append]
          exact read_not_mem_flushes _ i

theorem write_cache_only_calls (c c1 : cache_t) (t now addr : Nat) (digest : List Byte → raw_id)
    (id : raw_id) (io : dnet_io_attr) (data : List Byte) (disk : disk_reply) (err : Int)
    (w : List backend_call) (grow_ok : Bool) (hco : io.flags.cache_only = true)
    (h : c.write t now addr digest id io data disk grow_ok = some (Except.ok (err, c1, w))) :
    ∀ i, backend_call.read i ∉ w := by
  intro i
  unfold cache_t.write at h
  split at h
  · simp at h
  · rename_i e c0 w0 hl
    simp only [Option.some.injEq, Except.ok.injEq, Prod.mk.injEq] at h
    rw [← h.2.2]
    exact write_lookup_cache_only_calls _ _ _ _ _ _ _ _ _ hco hl i
  · rename_i it c0 w0 hl
    have h0 := write_lookup_cache_only_calls _ _ _ _ _ _ _ _ _ hco hl i
    split at h
    · simp only [Option.some.injEq, Except.ok.injEq, Prod.mk.injEq] at h
      rw [← h.2.2]
      exact h0
    · split at h
      · simp at h
      · simp at h
      · rename_i c2 w2 he
        simp only [Option.some.injEq, Except.ok.injEq, Prod.mk.injEq] at h
        rw [← h.2.2]
        obtain ⟨k, payload, it1, -, -, -, -, -, -, h7, -⟩ := write_entry_spec _ _ _ _ _ _ _ _ _ he
        intro hm
        rcases List.mem_append.1 hm with hm | hm
        · exact h0 hm
        · rw [h7] at hm
          exact read_not_mem_flushes _ i hm

/-- Claim C11 (as stated, refuted): `id_a` is cached dirty (sync deadline 101).
A write with `CACHE_ONLY` succeeds and leaves the entry in `m_syncset` with
`synctime = 101`; the maintenance pass at time 101 then writes the new payload
to the backend, and so does an eviction of the entry. -/
theorem cache_only_write_keeps_dirty_counterexample :
    (cache_t.mk 1 1000 [mk_node 0 id_a [5] 0 101 false]).wf ∧
    (cache_t.mk 1 1000 [mk_node 0 id_a [5] 0 101 false]).write 1 100 1 digest_id id_a
        (mk_io id_a flags_cache_only 0 1 0) [6] disk_enoent true
      = some (Except.ok (0, ⟨1, 1000, [mk_node 0 id_a [6] 0 101 false]⟩, [])) ∧
    (mk_node 0 id_a [6] 0 101 false).m_synctime ≠ 0 ∧
    (mk_node 0 id_a [6] 0 101 false).sync_linked = true ∧
    (cache_t.mk 1 1000 [mk_node 0 id_a [6] 0 101 false]).life_check (clock_at 101) (clock_at 101)
      = some (⟨1, 1000, [mk_node 0 id_a [6] 0 0 false]⟩, [backend_call.write id_a [6]]) ∧
    (cache_t.mk 1 1000 [mk_node 0 id_a [6] 0 101 false]).resize 0
      = some (⟨0, 1000, []⟩, [backend_call.write id_a [6]]) := by
  decide

/-- Claim C11 (amended): in a shard state satisfying the invariants of the data
model, a write carrying `CACHE_ONLY` makes no backend read, whatever it
returns; when `id` is absent or cached clean (`synctime = 0`) and the write
succeeds, the entry written is outside `m_syncset` with `synctime = 0`, a
maintenance pass run on the resulting state completes without a backend write
for `id`, and so does every capacity eviction. -/
theorem cache_only_write_isolates (c c1 : cache_t) (t now addr : Nat)
    (digest : List Byte → raw_id) (id : raw_id) (io : dnet_io_attr) (data : List Byte)
    (disk : disk_reply) (err : Int) (w : List backend_call) (grow_ok : Bool)
    (hwf : c.wf) (hclock : clock_ok t now io.start) (hco : io.flags.cache_only = true)
    (hclean : ∀ it, c.find id = some it → it.m_synctime = 0)
    (h : c.write t now addr digest id io data disk grow_ok = some (Except.ok (err, c1, w))) :
    (∀ i, backend_call.read i ∉ w) ∧
    (err = 0 → ∃ it1, c1.find id = some it1 ∧ it1.m_synctime = 0 ∧ it1.sync_linked = false ∧
      (∀ life_clock sync_clock, ∃ c2 w2,
        c1.life_check life_clock sync_clock = some (c2, w2) ∧
        ∀ d, backend_call.write id d ∉ w2) ∧
      (∀ r c2 w2, c1.resize r = some (c2, w2) → ∀ d, backend_call.write id d ∉ w2) ∧
      (∀ c2 w2, c1.erase_element it1 = some (c2, w2) → w2 = [])) := by
  refine ⟨write_cache_only_calls _ _ _ _ _ _ _ _ _ _ _ _ _ hco h, ?_⟩
  intro herr
  subst herr
  obtain ⟨it, it1, payload, rest0, h10, -, hrest0, hcase, hid, -, -, ht, -⟩ :=
    write_ok_shape _ _ _ _ _ _ _ _ _ _ _ _ hwf.1 h
  obtain ⟨hE, -⟩ := touch_spec _ _ _ _ _ ht
  have hf0 : c1.find id = some it1 :=
    find_append_last hrest0 (by rw [hE]; exact hid) c1 h10
  have hit : it.m_synctime = 0 ∧ it.sync_linked = false := by
    rcases hcase with hf | ⟨-, -, d, uf, ts, hfresh, -⟩
    · have h0 := hclean it hf
      refine ⟨h0, ?_⟩
      have hok := hwf.2.1 it (find_some hf).1
      cases hs : it.sync_linked
      · rfl
      · exact absurd h0 (hok.2.1 hs)
    · rw [hfresh]
      exact ⟨rfl, rfl⟩
  have hs1 : it1.m_synctime = 0 := by
    rw [hE]
    simp [hco, hit.1]
  have hl1 : it1.sync_linked = false := by
    rw [hE]
    simp [hco, hit.2]
  obtain ⟨it2, rest, h1, hrest, hid1, hf, hl, hlt, hs, -, -⟩ :=
    write_ok_entry _ _ _ _ _ _ _ _ _ _ _ _ hwf hclock h
  have heq : it2 = it1 := by
    rw [hf0] at hf
    exact (Option.some.inj hf).symm
  subst heq
  have hquiet : ∀ e ∈ c1.m_lru, e.m_id = id → e = it2 := by
    intro e he heid
    rw [h1] at he
    rcases List.mem_append.1 he with he | he
    · exact absurd heid (hrest e he).1
    · simpa using he
  refine ⟨it2, hf0, hs1, hl1, ?_, ?_, ?_⟩
  · intro life_clock sync_clock
    have hsafe : ∀ e ∈ c1.m_lru, e.life_linked = true → e.hooks_ok := by
      rw [h1]
      exact pass_safe_after_write (fun e he => (hrest e he).2) hl hlt hclock.1 hs
    obtain ⟨c2, w2, hpass, -, -, -, -, hfrom⟩ :=
      life_check_spec c1 life_clock sync_clock hsafe
    refine ⟨c2, w2, hpass, ?_⟩
    intro d hd
    rcases hfrom _ hd with ⟨e, he, hdirty, hb⟩ | ⟨e, -, -, -, -, hb⟩
    · simp only [backend_call.write.injEq] at hb
      have := hquiet e he hb.1.symm
      subst this
      rcases hdirty with hx | hx
      · exact hx hs1
      · rw [hl1] at hx
        exact absurd hx (by simp)
    · simp at hb
  · intro r c2 w2 hres d hd
    obtain ⟨k, -, -, -, -, h4, -⟩ := resize_spec _ _ _ _ hres
    rw [h4] at hd
    obtain ⟨e, he, hdirty, hb⟩ := mem_flushes.1 hd
    simp only [backend_call.write.injEq] at hb
    have := hquiet e (List.mem_of_mem_take he) hb.1.symm
    subst this
    exact hdirty hs1
  · intro c2 w2 hres
    rw [erase_element_eq] at hres
    split at hres
    · simp only [Option.some.injEq, Prod.mk.injEq] at hres
      rw [← hres.2]
      simp [flushes, hs1]
    · simp at hres

/-- Claim C11 (witness): a write with `CACHE_ONLY` to an entry cached clean. -/
theorem cache_only_write_isolates_witness :
    (cache_t.mk 1 1000 [mk_node 0 id_a [5] 0 0 false]).wf ∧
    clock_ok 1 100 (mk_io id_a flags_cache_only 0 1 0).start ∧
    (mk_io id_a flags_cache_only 0 1 0).flags.cache_only = true ∧
    (∀ it, (cache_t.mk 1 1000 [mk_node 0 id_a [5] 0 0 false]).find id_a = some it →
      it.m_synctime = 0) ∧
    (cache_t.mk 1 1000 [mk_node 0 id_a [5] 0 0 false]).write 1 100 1 digest_id id_a
        (mk_io id_a flags_cache_only 0 1 0) [6] disk_enoent true
      = some (Except.ok (0, ⟨1, 1000, [mk_node 0 id_a [6] 0 0 false]⟩, [])) ∧
    ((∀ i, backend_call.read i ∉ ([] : List backend_call)) ∧
     ((0 : Int) = 0 → ∃ it1, (cache_t.mk 1 1000 [mk_node 0 id_a [6] 0 0 false]).find id_a
          = some it1 ∧ it1.m_synctime = 0 ∧ it1.sync_linked = false ∧
        (∀ life_clock sync_clock, ∃ c2 w2,
          (cache_t.mk 1 1000 [mk_node 0 id_a [6] 0 0 false]).life_check life_clock sync_clock
            = some (c2, w2) ∧
          ∀ d, backend_call.write id_a d ∉ w2) ∧
        (∀ r c2 w2, (cache_t.mk 1 1000 [mk_node 0 id_a [6] 0 0 false]).resize r = some (c2, w2) →
          ∀ d, backend_call.write id_a d ∉ w2) ∧
        (∀ c2 w2, (cache_t.mk 1 1000 [mk_node 0 id_a [6] 0 0 false]).erase_element it1
          = some (c2, w2) → w2 = []))) :=
  ⟨by decide, by decide, rfl, by decide, by decide,
   cache_only_write_isolates ⟨1, 1000, [mk_node 0 id_a [5] 0 0 false]⟩ _ 1 100 1 digest_id id_a
     (mk_io id_a flags_cache_only 0 1 0) [6] disk_enoent 0 [] true (by decide) (by decide) rfl
     (by decide) (by decide)⟩

theorem sub64_mod {S x : Nat} (h : x ≤ S) : sub64 (S % U64) x = (S - x) % U64 := by
  unfold sub64 U64
  omega

theorem add64_mod (S y : Nat) : add64 (S % U64) y = (S + y) % U64 := by
  unfold add64 U64
  omega

theorem add64_mod_add64 (S a b : Nat) : add64 (S % U64) (add64 a b) = (S + (a + b)) % U64 := by
  unfold add64 U64
  omega

theorem evicted_size_mod : ∀ (l : List data_t) (R : Nat),
    evicted_size (((l.map data_t.size).sum + R) % U64) l = R % U64
  | [], R => by simp [evicted_size]
  | e :: l, R => by
    simp only [evicted_size, List.map_cons, List.sum_cons]
    have h : sub64 ((e.size + (l.map data_t.size).sum + R) % U64) e.size
        = ((l.map data_t.size).sum + R) % U64 := by
      rw [sub64_mod (by omega)]
      congr 1
      omega
    rw [h]
    exact evicted_size_mod l R

theorem evicted_size_take_mod (l : List data_t) (k : Nat) :
    evicted_size ((l.map data_t.size).sum % U64) (l.take k)
      = ((l.drop k).map data_t.size).sum % U64 := by
  rw [← sum_take_add_drop l k]
  exact evicted_size_mod _ _

theorem erase_element_accounted (c c1 : cache_t) (obj : data_t) (w : List backend_call)
    (h : c.erase_element obj = some (c1, w)) (hmem : obj ∈ c.m_lru) (hin : c.accounted) :
    c1.accounted := by
  rw [erase_element_eq] at h
  split at h
  · simp only [Option.some.injEq, Prod.mk.injEq] at h
    obtain ⟨rfl, -⟩ := h
    unfold cache_t.accounted at hin ⊢
    have hs := sum_erase hmem
    simp only
    rw [hin, sub64_mod (size_le_sum hmem)]
    congr 1
    omega
  · simp at h

theorem resize_accounted (c c1 : cache_t) (r : Nat) (w : List backend_call)
    (h : c.resize r = some (c1, w)) (hin : c.accounted) : c1.accounted := by
  obtain ⟨k, -, h1, -, h3, -⟩ := resize_spec _ _ _ _ h
  unfold cache_t.accounted at hin ⊢
  rw [h3, h1, hin]
  exact evicted_size_take_mod _ _

theorem push_accounted (l : List data_t) (k len : Nat) (e : data_t) (he : e.size = len) :
    add64 (evicted_size ((l.map data_t.size).sum % U64) (l.take k)) len
      = ((l.drop k ++ [e]).map data_t.size).sum % U64 := by
  rw [evicted_size_take_mod, add64_mod]
  simp [he]

theorem populate_accounted (c c1 : cache_t) (addr now : Nat) (id : raw_id) (rfd : Bool)
    (disk : disk_reply) (it : Option data_t) (err : Int) (w : List backend_call)
    (h : c.populate_from_disk addr now id rfd disk = some (it, err, c1, w))
    (hin : c.accounted) : c1.accounted ∧ ∀ e, it = some e → e ∈ c1.m_lru := by
  obtain ⟨-, hp⟩ := populate_from_disk_spec _ _ _ _ _ _ _ _ _ _ h
  rcases hp with ⟨-, rfl, rfl, -⟩ | ⟨-, e, k, rfl, -, hE, h1, -, h3, -⟩
  · exact ⟨hin, fun e he => by simp at he⟩
  · refine ⟨?_, fun e2 he2 => ?_⟩
    · unfold cache_t.accounted at hin ⊢
      rw [h3, h1, hin]
      exact push_accounted _ _ _ _ (by rw [hE]; rfl)
    · simp only [Option.some.injEq] at he2
      subst he2
      rw [h1]; simp

theorem write_lookup_accounted (c c0 : cache_t) (addr now : Nat) (id : raw_id)
    (io : dnet_io_attr) (disk : disk_reply) (r : Sum Int data_t) (w0 : List backend_call)
    (h : c.write_lookup addr now id io disk = some (r, c0, w0)) (hin : c.accounted) :
    c0.accounted ∧ ∀ it, r = Sum.inr it → it ∈ c0.m_lru := by
  cases r with
  | inl err =>
    refine ⟨?_, fun it hit => by simp at hit⟩
    unfold cache_t.write_lookup at h
    split at h
    · simp at h
    · unfold cache_t.write_miss at h
      split at h
      · simp only [Option.some.injEq, Prod.mk.injEq] at h
        rw [← h.2.1]; exact hin
      · split at h
        · simp at h
        · rename_i it1 err1 c1 w1 hpop
          split at h
          · simp only [Option.some.injEq, Prod.mk.injEq] at h
            rw [← h.2.1]
            split at hpop
            · exact (populate_accounted _ _ _ _ _ _ _ _ _ _ hpop hin).1
            · simp only [Option.some.injEq, Prod.mk.injEq] at hpop
              rw [← hpop.2.2.1]; exact hin
          · split at h
            · simp at h
            · split at h <;> simp at h
  | inr it =>
    rcases write_lookup_spec _ _ _ _ _ _ _ _ _ h with ⟨hf, rfl, -⟩ |
      ⟨hf, -, k, d, uf, ts, hk, hit, h1, h2, h3, -⟩
    · refine ⟨hin, fun it2 h2 => ?_⟩
      simp only [Sum.inr.injEq] at h2
      subst h2
      exact (find_some hf).1
    · refine ⟨?_, fun it2 h2 => ?_⟩
      · unfold cache_t.accounted at hin ⊢
        rw [h3, h1, hin]
        exact push_accounted _ _ _ _ (by rw [hit]; rfl)
      · simp only [Sum.inr.injEq] at h2
        subst h2
        rw [h1]; simp

theorem payload_length_mod (it : data_t) (io : dnet_io_attr) (data p : List Byte)
    (h : write_data it.m_data io.flags.append io.offset io.size (new_size it io) data = some p) :
    p.length % U64 = new_size it io := by
  cases happ : io.flags.append with
  | true =>
    rw [happ] at h
    unfold write_data at h
    simp only [if_true] at h
    split at h
    · simp only [Option.some.injEq] at h
      rw [← h, List.length_append, List.length_take]
      unfold new_size add64 data_t.size
      rw [happ]
      simp only [if_true]
      congr 1
      omega
    · simp at h
  | false =>
    have hl := write_data_length _ _ _ _ _ _ _ h (by rw [happ]; simp)
    rw [hl]
    unfold new_size
    rw [happ]
    simp only [Bool.false_eq_true, if_false]
    exact Nat.mod_eq_of_lt (add64_lt _ _)

theorem write_entry_accounted (c c2 : cache_t) (t now : Nat) (it : data_t) (io : dnet_io_attr)
    (data : List Byte) (w : List backend_call) (grow_ok : Bool) (hmem : it ∈ c.m_lru)
    (h : c.write_entry t now it io data grow_ok = some (Except.ok (c2, w))) (hin : c.accounted) :
    c2.accounted := by
  obtain ⟨k, payload, it1, -, hwd, ht, h1, -, h3, -⟩ := write_entry_spec _ _ _ _ _ _ _ _ _ h
  obtain ⟨hE, -⟩ := touch_spec _ _ _ _ _ ht
  have hsz : it1.size = payload.length := by rw [hE]; rfl
  have hp := payload_length_mod it io data payload hwd
  have hs := sum_erase hmem
  unfold cache_t.accounted at hin ⊢
  rw [h3, h1, hin, sub64_mod (size_le_sum hmem)]
  have he : (c.m_lru.map data_t.size).sum - it.size = ((c.m_lru.erase it).map data_t.size).sum := by
    omega
  rw [he, evicted_size_take_mod, ← hp]
  simp only [List.map_append, List.sum_append, List.map_cons, List.map_nil, List.sum_cons,
    List.sum_nil, hsz]
  unfold add64 U64
  omega

theorem write_accounted (c c1 : cache_t) (t now addr : Nat) (digest : List Byte → raw_id)
    (id : raw_id) (io : dnet_io_attr) (data : List Byte) (disk : disk_reply) (err : Int)
    (w : List backend_call) (grow_ok : Bool)
    (h : c.write t now addr digest id io data disk grow_ok = some (Except.ok (err, c1, w)))
    (hin : c.accounted) :
    c1.accounted := by
  unfold cache_t.write at h
  split at h
  · simp at h
  · rename_i e c0 w0 hl
    simp only [Option.some.injEq, Except.ok.injEq, Prod.mk.injEq] at h
    rw [← h.2.1]
    exact (write_lookup_accounted _ _ _ _ _ _ _ _ _ hl hin).1
  · rename_i it c0 w0 hl
    obtain ⟨h0, hmem⟩ := write_lookup_accounted _ _ _ _ _ _ _ _ _ hl hin
    split at h
    · simp only [Option.some.injEq, Except.ok.injEq, Prod.mk.injEq] at h
      rw [← h.2.1]
      exact h0
    · split at h
      · simp at h
      · simp at h
      · rename_i c2 w2 he
        simp only [Option.some.injEq, Except.ok.injEq, Prod.mk.injEq] at h
        rw [← h.2.1]
        exact write_entry_accounted _ _ _ _ _ _ _ _ _ (hmem it rfl) he h0

theorem move_back_accounted (c : cache_t) (it : data_t) (hmem : it ∈ c.m_lru)
    (hin : c.accounted) :
    ({ c with m_lru := c.m_lru.erase it ++ [it] } : cache_t).accounted := by
  unfold cache_t.accounted at hin ⊢
  simp only
  rw [sum_move_back hmem]
  exact hin

theorem read_accounted (c c1 : cache_t) (addr now : Nat) (id : raw_id) (io io1 : dnet_io_attr)
    (disk : disk_reply) (d : Option (List Byte)) (w : List backend_call)
    (h : c.read addr now id io disk = some (d, io1, c1, w)) (hin : c.accounted) :
    c1.accounted := by
  cases hf : c.find id with
  | some e =>
    rw [read_hit c addr now id io disk e hf] at h
    simp only [Option.some.injEq, Prod.mk.injEq] at h
    rw [← h.2.2.1]
    exact move_back_accounted c e (find_some hf).1 hin
  | none =>
    by_cases hfl : io.flags.cache = true ∧ io.flags.cache_only = false
    · cases hpop : c.populate_from_disk addr now id false disk with
      | none =>
        unfold cache_t.read at h
        simp [hf, hfl, hpop] at h
      | some r =>
        obtain ⟨it, err, c2, w2⟩ := r
        obtain ⟨h2, hmem⟩ := populate_accounted _ _ _ _ _ _ _ _ _ _ hpop hin
        cases it with
        | none =>
          unfold cache_t.read at h
          simp only [hf, hfl, hpop, and_self, if_true, Option.some.injEq, Prod.mk.injEq] at h
          rw [← h.2.2.1]
          exact h2
        | some e =>
          unfold cache_t.read at h
          simp only [hf, hfl, hpop, and_self, if_true, Option.some.injEq, Prod.mk.injEq] at h
          rw [← h.2.2.1]
          exact move_back_accounted c2 e (hmem e rfl) h2
    · unfold cache_t.read at h
      simp only [hf, hfl, if_false, Option.some.injEq, Prod.mk.injEq] at h
      rw [← h.2.2.1]
      exact hin

theorem set_node_accounted (c : cache_t) (a b : data_t) (hsz : a.size = b.size)
    (hin : c.accounted) : ({ c with m_lru := set_node c.m_lru a b } : cache_t).accounted := by
  unfold cache_t.accounted at hin ⊢
  simp only
  rw [map_set_node data_t.size hsz]
  exact hin

theorem remove_accounted (c c1 : cache_t) (id : raw_id) (io : dnet_io_attr)
    (local_err err : Int) (w : List backend_call)
    (h : c.remove id io local_err = some (err, c1, w)) (hin : c.accounted) : c1.accounted := by
  unfold cache_t.remove at h
  split at h
  · simp at h
  · rename_i rfd err0 c0 w0 hl
    have hc : c1 = c0 := by
      split at h <;> simp only [Option.some.injEq, Prod.mk.injEq] at h <;> exact h.2.1.symm
    rw [hc]
    split at hl
    · rename_i it hf
      split at hl
      · simp at hl
      · rename_i it1 hit1
        split at hl
        · simp at hl
        · rename_i c2 w2 he
          simp only [Option.some.injEq, Prod.mk.injEq] at hl
          rw [← hl.2.2.1]
          have hsz : it.size = it1.size := by
            split at hit1
            · split at hit1
              · simp only [Option.some.injEq] at hit1
                rw [← hit1]; rfl
              · simp at hit1
            · simp only [Option.some.injEq] at hit1
              rw [hit1]
          exact erase_element_accounted _ _ _ _ he
            (mem_set_node_self _ (find_some hf).1) (set_node_accounted c it it1 hsz hin)
    · simp only [Option.some.injEq, Prod.mk.injEq] at hl
      rw [← hl.2.2.1]; exact hin

theorem life_loop_accounted :
    ∀ (n : Nat) (clock : Nat → Nat) (c c1 : cache_t) (rm rm1 : List raw_id)
      (w : List backend_call),
      cache_t.life_loop n clock c rm = some (c1, rm1, w) → c.accounted → c1.accounted := by
  intro n
  induction n with
  | zero =>
    intro clock c c1 rm rm1 w h hin
    simp only [cache_t.life_loop, Option.some.injEq, Prod.mk.injEq] at h
    rw [← h.1]; exact hin
  | succ n ih =>
    intro clock c c1 rm rm1 w h hin
    simp only [cache_t.life_loop] at h
    split at h
    · simp only [Option.some.injEq, Prod.mk.injEq] at h
      rw [← h.1]; exact hin
    · rename_i it hb
      split at h
      · simp only [Option.some.injEq, Prod.mk.injEq] at h
        rw [← h.1]; exact hin
      · split at h
        · simp at h
        · rename_i c2 w2 he
          split at h
          · simp at h
          · rename_i c3 rm3 w3 hrec
            simp only [Option.some.injEq, Prod.mk.injEq] at h
            rw [← h.1]
            have hmem : it ∈ c.m_lru :=
              (set_begin_some lifetime_less (fun e => e.life_linked) data_t.m_lifetime
                lifetime_less_le lifetime_less_ge _ _ hb).1
            exact ih _ _ _ _ _ _ hrec (erase_element_accounted _ _ _ _ he hmem hin)

theorem sync_loop_accounted :
    ∀ (n : Nat) (clock : Nat → Nat) (c c1 : cache_t) (w : List backend_call),
      cache_t.sync_loop n clock c = some (c1, w) → c.accounted → c1.accounted := by
  intro n
  induction n with
  | zero =>
    intro clock c c1 w h hin
    simp only [cache_t.sync_loop, Option.some.injEq, Prod.mk.injEq] at h
    rw [← h.1]; exact hin
  | succ n ih =>
    intro clock c c1 w h hin
    simp only [cache_t.sync_loop] at h
    split at h
    · simp only [Option.some.injEq, Prod.mk.injEq] at h
      rw [← h.1]; exact hin
    · rename_i it hb
      split at h
      · simp only [Option.some.injEq, Prod.mk.injEq] at h
        rw [← h.1]; exact hin
      · split at h
        · simp at h
        · rename_i it1 w1 hse
          split at h
          · simp at h
          · rename_i c3 w3 hrec
            simp only [Option.some.injEq, Prod.mk.injEq] at h
            rw [← h.1]
            have hsz : it.size = it1.size := by
              unfold sync_element at hse
              split at hse
              · simp only [Option.some.injEq, Prod.mk.injEq] at hse
                rw [← hse.1]; rfl
              · simp at hse
            exact ih _ _ _ _ hrec (set_node_accounted c it it1 hsz hin)

theorem life_check_accounted (c c1 : cache_t) (life_clock sync_clock : Nat → Nat)
    (w : List backend_call)
    (h : c.life_check life_clock sync_clock = some (c1, w)) (hin : c.accounted) :
    c1.accounted := by
  unfold cache_t.life_check at h
  split at h
  · simp at h
  · rename_i c2 rm w1 h1
    split at h
    · simp at h
    · rename_i c3 w2 h2
      simp only [Option.some.injEq, Prod.mk.injEq] at h
      rw [← h.1]
      exact sync_loop_accounted _ _ _ _ _ h2 (life_loop_accounted _ _ _ _ _ _ _ h1 hin)

theorem step_accounted (c c1 : cache_t) (op : shard_op) (h : c.step op = some c1)
    (hin : c.accounted) : c1.accounted := by
  cases op with
  | write t now addr digest id io data disk =>
    simp only [cache_t.step] at h
    split at h
    · rename_i r hw
      obtain ⟨err, c2, w⟩ := r
      simp only [Option.some.injEq] at h
      subst h
      exact write_accounted _ _ _ _ _ _ _ _ _ _ _ _ _ hw hin
    · simp at h
  | read addr now id io disk =>
    simp only [cache_t.step, Option.map_eq_some'] at h
    obtain ⟨⟨d, io1, c2, w⟩, hr, rfl⟩ := h
    exact read_accounted _ _ _ _ _ _ _ _ _ _ hr hin
  | remove id io local_err =>
    simp only [cache_t.step, Option.map_eq_some'] at h
    obtain ⟨⟨err, c2, w⟩, hr, rfl⟩ := h
    exact remove_accounted _ _ _ _ _ _ _ hr hin
  | life_check life_clock sync_clock =>
    simp only [cache_t.step, Option.map_eq_some'] at h
    obtain ⟨⟨c2, w⟩, hr, rfl⟩ := h
    exact life_check_accounted _ _ _ _ _ hr hin

theorem run_accounted :
    ∀ (ops : List shard_op) (c c1 : cache_t), c.run ops = some c1 → c.accounted → c1.accounted
  | [], c, c1, h, hin => by
    simp only [cache_t.run, Option.some.injEq] at h
    rw [← h]; exact hin
  | op :: ops, c, c1, h, hin => by
    simp only [cache_t.run] at h
    split at h
    · simp at h
    · rename_i c2 hstep
      exact run_accounted ops c2 c1 h (step_accounted c c2 op hstep hin)

/-- The accounting of C15 where no exception is thrown: starting from an empty
shard, after the first `k` operations, for every `k`, of any sequence of writes
that return (whatever they return), reads (with or without populate), deletes
and maintenance passes, with the capacity evictions they perform,
`m_cache_size` is the sum of the payload sizes of the entries in the shard, as
a `size_t` (modulo `2^64`); it is that sum itself whenever the sum is below
`2^64`. -/
theorem byte_accounting_invariant (M : Nat) (ops : List shard_op) (k : Nat) (c : cache_t)
    (h : (cache_t.init M).run (ops.take k) = some c) :
    c.m_cache_size = (c.m_lru.map data_t.size).sum % U64 ∧
    ((c.m_lru.map data_t.size).sum < U64 → c.m_cache_size = (c.m_lru.map data_t.size).sum) := by
  have hacc : c.accounted := run_accounted (ops.take k) (cache_t.init M) c h rfl
  refine ⟨hacc, fun hlt => ?_⟩
  rw [hacc]
  exact Nat.mod_eq_of_lt hlt

/-- The accounting at an input: the state after the first four operations of
the sample sequence, two entries of six and two bytes. -/
theorem byte_accounting_invariant_witness :
    (cache_t.init 10).run (accounting_sample_ops.take 4)
      = some ⟨8, 10, [mk_node 1 id_b [1, 2, 3, 4, 5, 6] 0 101 false,
                      fresh_node 3 100 id_a false [7, 7] 0 dnet_empty_time]⟩ ∧
    ((cache_t.mk 8 10 [mk_node 1 id_b [1, 2, 3, 4, 5, 6] 0 101 false,
          fresh_node 3 100 id_a false [7, 7] 0 dnet_empty_time]).m_cache_size
      = ((cache_t.mk 8 10 [mk_node 1 id_b [1, 2, 3, 4, 5, 6] 0 101 false,
            fresh_node 3 100 id_a false [7, 7] 0 dnet_empty_time]).m_lru.map data_t.size).sum
          % U64 ∧
     (((cache_t.mk 8 10 [mk_node 1 id_b [1, 2, 3, 4, 5, 6] 0 101 false,
            fresh_node 3 100 id_a false [7, 7] 0 dnet_empty_time]).m_lru.map data_t.size).sum
          < U64 →
      (cache_t.mk 8 10 [mk_node 1 id_b [1, 2, 3, 4, 5, 6] 0 101 false,
          fresh_node 3 100 id_a false [7, 7] 0 dnet_empty_time]).m_cache_size
        = ((cache_t.mk 8 10 [mk_node 1 id_b [1, 2, 3, 4, 5, 6] 0 101 false,
              fresh_node 3 100 id_a false [7, 7] 0 dnet_empty_time]).m_lru.map
            data_t.size).sum)) :=
  ⟨by decide,
   byte_accounting_invariant 10 accounting_sample_ops 4
     ⟨8, 10, [mk_node 1 id_b [1, 2, 3, 4, 5, 6] 0 101 false,
              fresh_node 3 100 id_a false [7, 7] 0 dnet_empty_time]⟩ (by decide)⟩

theorem create_data_total (c : cache_t) (addr now : Nat) (id : raw_id) (data : List Byte)
    (rfd : Bool) (hh : ∀ e ∈ c.m_lru, e.hooks_ok) :
    ∃ raw c1 w, c.create_data addr now id data rfd = some (raw, c1, w) := by
  unfold cache_t.create_data
  have hres : ∃ c1 w, (if add64 c.m_cache_size data.length > c.m_max_cache_size
      then c.resize data.length else some (c, [])) = some (c1, w) := by
    split
    · exact resize_loop_total _ _ _ hh
    · exact ⟨_, _, rfl⟩
  obtain ⟨c1, w, h⟩ := hres
  rw [h]
  exact ⟨_, _, _, rfl⟩

theorem read_populate_total (c : cache_t) (addr now : Nat) (id : raw_id) (io : dnet_io_attr)
    (disk : disk_reply) (hf : c.find id = none) (hc : io.flags.cache = true)
    (hco : io.flags.cache_only = false) (hd : disk.err = 0)
    (hh : ∀ e ∈ c.m_lru, e.hooks_ok) :
    ∃ io1 c1 w, c.read addr now id io disk = some (some disk.data, io1, c1, w) := by
  obtain ⟨raw, c1, w, hcd⟩ := create_data_total c addr now id disk.data false hh
  have hraw := (create_data_spec _ _ _ _ _ _ _ _ _ hcd).1
  unfold cache_t.read cache_t.populate_from_disk
  simp only [hf, hc, hco, hd, and_self, if_true, hcd]
  rw [hraw]
  exact ⟨_, _, _, rfl⟩

/-- Claim C17: in a shard whose identifiers are pairwise distinct, with recency
order `L` (head first), after a write of `id` that returns success, and after
a read of `id` that returns a snapshot, the recency order is a suffix of `L`
without the entry of `id`, followed by the entry of `id`: the entries that left
the shard are the first `k` of that order, the others are the same nodes in
the same order.  A read of an `id` that is cached does return its payload,
makes no backend call and leaves the order `L` without the entry, followed by
the entry: nothing is evicted.  A read of an absent `id` with `CACHE` and
without `CACHE_ONLY` returns the payload the backend supplies, when the nodes
that may be evicted can be erased. -/
theorem lru_order_after_access (c : cache_t) (id : raw_id) (hu : c.unique_ids) :
    (∀ t now addr digest io data disk grow_ok c1 w,
      c.write t now addr digest id io data disk grow_ok = some (Except.ok (0, c1, w)) →
      ∃ k it1, it1.m_id = id ∧ k ≤ (c.m_lru.filter (fun e => decide (e.m_id ≠ id))).length ∧
        c1.m_lru = (c.m_lru.filter (fun e => decide (e.m_id ≠ id))).drop k ++ [it1]) ∧
    (∀ addr now io disk d io1 c1 w,
      c.read addr now id io disk = some (some d, io1, c1, w) →
      ∃ k it1, it1.m_id = id ∧ k ≤ (c.m_lru.filter (fun e => decide (e.m_id ≠ id))).length ∧
        c1.m_lru = (c.m_lru.filter (fun e => decide (e.m_id ≠ id))).drop k ++ [it1] ∧
        (c.find id ≠ none → k = 0 ∧ w = [])) ∧
    (∀ it addr now io disk, c.find id = some it →
      c.read addr now id io disk =
        some (some it.m_data,
              { io with timestamp := it.m_timestamp, user_flags := it.m_user_flags },
              { c with m_lru := c.m_lru.filter (fun e => decide (e.m_id ≠ id)) ++ [it] }, [])) ∧
    (∀ addr now io disk, c.find id = none → io.flags.cache = true →
      io.flags.cache_only = false → disk.err = 0 → (∀ e ∈ c.m_lru, e.hooks_ok) →
      ∃ io1 c1 w, c.read addr now id io disk = some (some disk.data, io1, c1, w)) := by
  refine ⟨?_, ?_, ?_, ?_⟩
  · intro t now addr digest io data disk grow_ok c1 w h
    obtain ⟨it, c0, w0, w2, hl, -, he, -⟩ := write_ok_spec _ _ _ _ _ _ _ _ _ _ _ _ h
    obtain ⟨k, payload, it1, hk, -, ht, h1, -⟩ := write_entry_spec _ _ _ _ _ _ _ _ _ he
    obtain ⟨hE, -⟩ := touch_spec _ _ _ _ _ ht
    rcases write_lookup_spec _ _ _ _ _ _ _ _ _ hl with ⟨hf, rfl, -⟩ |
        ⟨hf, -, k0, d, uf, ts, hk0, hit, h01, -⟩
    · obtain ⟨hmem, hid⟩ := find_some hf
      have hid1 : it1.m_id = id := by rw [hE]; exact hid
      have hfil := erase_eq_filter_id hu hmem
      rw [hid] at hfil
      rw [hfil] at h1 hk
      exact ⟨k, it1, hid1, hk, h1⟩
    · have hid : it.m_id = id := by rw [hit]; rfl
      have hid1 : it1.m_id = id := by rw [hE]; exact hid
      have hnot : it ∉ c.m_lru.drop k0 := fun hm =>
        (find_none.1 hf) it (List.mem_of_mem_drop hm) hid
      have herase : c0.m_lru.erase it = c.m_lru.drop k0 := by
        rw [h01, List.erase_append_right _ hnot]
        simp
      rw [herase] at h1 hk
      rw [filter_id_of_absent (find_none.1 hf)]
      refine ⟨k0 + k, it1, hid1, ?_, ?_⟩
      · rw [List.length_drop] at hk
        omega
      · rw [h1, List.drop_drop, Nat.add_comm]
  · intro addr now io disk d io1 c1 w h
    rcases read_some_spec _ _ _ _ _ _ _ _ _ _ h with ⟨it, hf, h1, -, hw, -⟩ |
        ⟨hf, -, -, -, k, e, hk, hid, -, -, h1, -⟩
    · obtain ⟨hmem, hid⟩ := find_some hf
      have hfil := erase_eq_filter_id hu hmem
      rw [hid] at hfil
      rw [hfil] at h1
      exact ⟨0, it, hid, Nat.zero_le _, by rw [h1]; rfl, fun _ => ⟨rfl, hw⟩⟩
    · rw [filter_id_of_absent (find_none.1 hf)]
      exact ⟨k, e, hid, hk, h1, fun hne => absurd hf hne⟩
  · intro it addr now io disk hf
    obtain ⟨hmem, hid⟩ := find_some hf
    have hfil := erase_eq_filter_id hu hmem
    rw [hid] at hfil
    rw [read_hit c addr now id io disk it hf, hfil]
  · intro addr now io disk hf hc hco hd hh
    exact read_populate_total c addr now id io disk hf hc hco hd hh

/-- Claim C17 (witness): a shard of capacity 4 that holds `id_a` and `id_b`, in
this order.  A write of four bytes to `id_a` evicts `id_b`, the head of the
order without `id_a`; a read of `id_a` returns its payload and leaves the order
`id_b`, `id_a`. -/
theorem lru_order_after_access_witness :
    (cache_t.mk 4 4 [mk_node 0 id_a [1, 2] 0 0 false, mk_node 1 id_b [3, 4] 0 101 false]).unique_ids ∧
    (cache_t.mk 4 4 [mk_node 0 id_a [1, 2] 0 0 false, mk_node 1 id_b [3, 4] 0 101 false]).write
        1 100 5 digest_id id_a (mk_io id_a flags_cache_only 0 4 0) [5, 6, 7, 8] disk_enoent true
      = some (Except.ok (0, ⟨4, 4, [mk_node 0 id_a [5, 6, 7, 8] 0 0 false]⟩,
              [backend_call.write id_b [3, 4]])) ∧
    (∃ k it1, it1.m_id = id_a ∧
      k ≤ ((cache_t.mk 4 4 [mk_node 0 id_a [1, 2] 0 0 false,
              mk_node 1 id_b [3, 4] 0 101 false]).m_lru.filter
            (fun e => decide (e.m_id ≠ id_a))).length ∧
      (cache_t.mk 4 4 [mk_node 0 id_a [5, 6, 7, 8] 0 0 false]).m_lru =
        ((cache_t.mk 4 4 [mk_node 0 id_a [1, 2] 0 0 false,
              mk_node 1 id_b [3, 4] 0 101 false]).m_lru.filter
            (fun e => decide (e.m_id ≠ id_a))).drop k ++ [it1]) ∧
    (cache_t.mk 4 4 [mk_node 0 id_a [1, 2] 0 0 false, mk_node 1 id_b [3, 4] 0 101 false]).find id_a
      = some (mk_node 0 id_a [1, 2] 0 0 false) ∧
    (cache_t.mk 4 4 [mk_node 0 id_a [1, 2] 0 0 false, mk_node 1 id_b [3, 4] 0 101 false]).read
        5 100 id_a (mk_io id_a no_flags 0 0 0) disk_enoent
      = some (some (mk_node 0 id_a [1, 2] 0 0 false).m_data,
              { mk_io id_a no_flags 0 0 0 with
                timestamp := (mk_node 0 id_a [1, 2] 0 0 false).m_timestamp,
                user_flags := (mk_node 0 id_a [1, 2] 0 0 false).m_user_flags },
              { (cache_t.mk 4 4 [mk_node 0 id_a [1, 2] 0 0 false,
                  mk_node 1 id_b [3, 4] 0 101 false]) with
                m_lru := (cache_t.mk 4 4 [mk_node 0 id_a [1, 2] 0 0 false,
                    mk_node 1 id_b [3, 4] 0 101 false]).m_lru.filter
                  (fun e => decide (e.m_id ≠ id_a)) ++ [mk_node 0 id_a [1, 2] 0 0 false] }, []) ∧
    (cache_t.mk 4 4 [mk_node 0 id_a [1, 2] 0 0 false, mk_node 1 id_b [3, 4] 0 101 false]).m_lru.filter
        (fun e => decide (e.m_id ≠ id_a)) ++ [mk_node 0 id_a [1, 2] 0 0 false]
      = [mk_node 1 id_b [3, 4] 0 101 false, mk_node 0 id_a [1, 2] 0 0 false] :=
  ⟨by decide, by decide,
   (lru_order_after_access
      ⟨4, 4, [mk_node 0 id_a [1, 2] 0 0 false, mk_node 1 id_b [3, 4] 0 101 false]⟩ id_a
      (by decide)).1 1 100 5 digest_id (mk_io id_a flags_cache_only 0 4 0) [5, 6, 7, 8]
      disk_enoent true ⟨4, 4, [mk_node 0 id_a [5, 6, 7, 8] 0 0 false]⟩
      [backend_call.write id_b [3, 4]] (by decide),
   by decide,
   (lru_order_after_access
      ⟨4, 4, [mk_node 0 id_a [1, 2] 0 0 false, mk_node 1 id_b [3, 4] 0 101 false]⟩ id_a
      (by decide)).2.2.1 (mk_node 0 id_a [1, 2] 0 0 false) 5 100 (mk_io id_a no_flags 0 0 0)
      disk_enoent (by decide),
   by decide⟩

/-- Claim C1 (evaluation at the failing input): a write without `APPEND` of two
bytes at `offset = 2^64 - 1` into an empty shard.  The sum `offset + size` is
`2^64 + 1`; `new_size` (line 270) wraps to 1, the vector is resized to one byte
and the `memcpy` of line 287 copies two bytes to `offset` bytes after its
start, outside the buffer: the write has no defined result, and no payload of
length `offset + size` exists for a read to return. -/
theorem write_offset_wrap_undefined :
    (mk_io id_a flags_cache_only 18446744073709551615 2 0).flags.append = false ∧
    ([1, 2] : List Byte).length = (mk_io id_a flags_cache_only 18446744073709551615 2 0).size ∧
    18446744073709551615 + 2 ≥ U64 ∧
    new_size (data_t.create 0 100 id_a 0 [] false)
      (mk_io id_a flags_cache_only 18446744073709551615 2 0) = 1 ∧
    (cache_t.init 1000).write 1 100 0 digest_id id_a
        (mk_io id_a flags_cache_only 18446744073709551615 2 0) [1, 2] disk_enoent true
      = none :=
  ⟨rfl, rfl, by decide, by decide, by decide⟩

/-- Claim C13 (amended): for an identifier absent from the shard it is routed to,
a `READ` command whose flags do not contain `CACHE` returns `-ENOTSUP`, which
is not `-ENOENT`. -/
theorem read_miss_error_kind (m : cache_manager) (k : Nat) (c : cache_t)
    (t now addr : Nat) (digest : List Byte → raw_id) (cmd : dnet_cmd) (io : dnet_io_attr)
    (data : List Byte) (disk : disk_reply) (grow_ok : Bool) (local_err send_err : Int)
    (hcmd : cmd.cmd = dnet_command.DNET_CMD_READ)
    (hs : m.shard io.id = some (k, c)) (habs : c.find io.id = none)
    (hc : io.flags.cache = false) :
    ∃ r, dnet_cmd_cache_io (some m) t now addr digest cmd io data disk grow_ok local_err send_err
        = some r ∧ r.err = -ENOTSUP ∧ r.err ≠ -ENOENT := by
  have hset := shard_set_self m io.id k c hs
  refine ⟨⟨-ENOTSUP, some m, cmd, io, [], []⟩, ?_, rfl, (by decide : -ENOTSUP ≠ -ENOENT)⟩
  simp only [dnet_cmd_cache_io, hcmd, cache_manager.read, hs,
    read_miss_without_populate c addr now io.id io disk habs (Or.inl hc), hset]
  simp [hc]

/-- Claim C13 (witness): a `READ` without `CACHE` of `id_a` on a cache whose only
shard holds `id_b`. -/
theorem read_miss_error_kind_witness :
    ({ id := id_a, cmd := dnet_command.DNET_CMD_READ, need_ack := true } : dnet_cmd).cmd
      = dnet_command.DNET_CMD_READ ∧
    (cache_manager.mk [⟨1, 1000, [mk_node 0 id_b [5] 0 0 false]⟩]).shard
        (mk_io id_a no_flags 0 0 0).id
      = some (0, ⟨1, 1000, [mk_node 0 id_b [5] 0 0 false]⟩) ∧
    (cache_t.mk 1 1000 [mk_node 0 id_b [5] 0 0 false]).find (mk_io id_a no_flags 0 0 0).id
      = none ∧
    (mk_io id_a no_flags 0 0 0).flags.cache = false ∧
    ∃ r, dnet_cmd_cache_io (some ⟨[⟨1, 1000, [mk_node 0 id_b [5] 0 0 false]⟩]⟩) 1 100 0 digest_id
        { id := id_a, cmd := dnet_command.DNET_CMD_READ, need_ack := true }
        (mk_io id_a no_flags 0 0 0) [] disk_enoent true 0 0 = some r ∧
      r.err = -ENOTSUP ∧ r.err ≠ -ENOENT :=
  ⟨rfl, by decide, by decide, by decide,
   read_miss_error_kind ⟨[⟨1, 1000, [mk_node 0 id_b [5] 0 0 false]⟩]⟩ 0
     ⟨1, 1000, [mk_node 0 id_b [5] 0 0 false]⟩ 1 100 0 digest_id
     { id := id_a, cmd := dnet_command.DNET_CMD_READ, need_ack := true }
     (mk_io id_a no_flags 0 0 0) [] disk_enoent true 0 0 rfl (by decide) (by decide)
     (by decide)⟩

/-- Claim C14 (evaluation at the failing input): `id_a` is cached in the node at
address 0 with the vector `[1, 2, 3]`, which is what a read hands out.  A write
of one byte at offset 0 that follows returns success and leaves the same node
with the vector `[9]`, an `APPEND` of one byte leaves it with `[1, 2, 3, 9]`:
the bytes and the length of the vector handed out have changed. -/
theorem write_mutates_payload_in_place :
    (cache_t.mk 3 1000 [mk_node 0 id_a [1, 2, 3] 0 0 false]).read 1 100 id_a
        (mk_io id_a no_flags 0 0 0) disk_enoent
      = some (some (mk_node 0 id_a [1, 2, 3] 0 0 false).m_data, mk_io id_a no_flags 0 0 0,
              ⟨3, 1000, [mk_node 0 id_a [1, 2, 3] 0 0 false]⟩, []) ∧
    (cache_t.mk 3 1000 [mk_node 0 id_a [1, 2, 3] 0 0 false]).write 1 100 1 digest_id id_a
        (mk_io id_a flags_cache_only 0 1 0) [9] disk_enoent true
      = some (Except.ok (0, ⟨1, 1000, [mk_node 0 id_a [9] 0 0 false]⟩, [])) ∧
    (mk_node 0 id_a [9] 0 0 false).addr = (mk_node 0 id_a [1, 2, 3] 0 0 false).addr ∧
    (mk_node 0 id_a [9] 0 0 false).m_data ≠ (mk_node 0 id_a [1, 2, 3] 0 0 false).m_data ∧
    (cache_t.mk 3 1000 [mk_node 0 id_a [1, 2, 3] 0 0 false]).write 1 100 1 digest_id id_a
        (mk_io id_a { flags_cache_only with append := true } 0 1 0) [9] disk_enoent true
      = some (Except.ok (0, ⟨4, 1000, [mk_node 0 id_a [1, 2, 3, 9] 0 0 false]⟩, [])) ∧
    (mk_node 0 id_a [1, 2, 3, 9] 0 0 false).addr = (mk_node 0 id_a [1, 2, 3] 0 0 false).addr ∧
    (mk_node 0 id_a [1, 2, 3, 9] 0 0 false).m_data.length
      ≠ (mk_node 0 id_a [1, 2, 3] 0 0 false).m_data.length :=
  ⟨by decide, by decide, rfl, by decide, by decide, rfl, by decide⟩

/-- Claim C15 (evaluation at the failing input): on an empty shard a write of two
bytes returns success; a `WRITE` command of one byte at `offset = 2^62` to the
same identifier then asks the vector to grow to `2^62 + 1` bytes, which throws.
The `catch` clause of `dnet_cmd_cache_io` makes the command return `-ENOENT`,
and the shard is left with `m_cache_size = 2^62 + 1` for one payload of two
bytes. -/
theorem throwing_write_breaks_accounting :
    (cache_t.init 1000).write 1 100 0 digest_id id_a
        (mk_io id_a flags_cache_only 0 2 0) [1, 2] disk_enoent true
      = some (Except.ok (0, ⟨2, 1000, [mk_node 0 id_a [1, 2] 0 0 false]⟩, [])) ∧
    vector_grows (mk_node 0 id_a [1, 2] 0 0 false)
      (mk_io id_a flags_cache_only 4611686018427387904 1 0) = true ∧
    dnet_cmd_cache_io (some ⟨[⟨2, 1000, [mk_node 0 id_a [1, 2] 0 0 false]⟩]⟩) 1 100 1 digest_id
        { id := id_a, cmd := dnet_command.DNET_CMD_WRITE, need_ack := true }
        (mk_io id_a flags_cache_only 4611686018427387904 1 0) [9] disk_enoent false 0 0
      = some ⟨-ENOENT,
              some ⟨[⟨4611686018427387905, 1000, [mk_node 0 id_a [1, 2] 0 0 false]⟩]⟩,
              { id := id_a, cmd := dnet_command.DNET_CMD_WRITE, need_ack := true },
              mk_io id_a flags_cache_only 4611686018427387904 1 0, [], []⟩ ∧
    (cache_t.mk 4611686018427387905 1000 [mk_node 0 id_a [1, 2] 0 0 false]).m_cache_size
      ≠ ((cache_t.mk 4611686018427387905 1000 [mk_node 0 id_a [1, 2] 0 0 false]).m_lru.map
          data_t.size).sum :=
  ⟨by decide, by decide, by decide, by decide⟩
